import Mathlib

/-!
# Sharding proxy (`proxy.go`): routing, fan-out assembly and response aggregation

A shallow embedding of the request router of `proxy.go` and the properties of
its partitioning and aggregation logic.

Conventions of the embedding

* A Go `string` read from JSON is a Lean `String`; its bytes are the UTF-8
  encoding of the string (`[]byte(s)`).
* Go's `int` is taken at its 64-bit width (amd64 / arm64): arithmetic on `int`
  is integer arithmetic wrapped by `toInt64`; `uint32` values are naturals
  reduced modulo `2^32`.
* A run-time panic (integer division by zero) is the `none` of an `Option`.
* `encoding/json` is a parameter: unmarshalling is a total function from body
  bytes to the decoded value (the source ignores the error of
  `json.Unmarshal`), marshalling returns `none` when `json.Marshal` reports an
  error.
* The goroutines of `sendRequestsAndMassage` are an interleaving transition
  system: `mutex.Lock()` can be taken only while the mutex is free,
  `wg.Wait()` returns only while the counter is zero, and an unrecovered panic
  ends the process.
-/

namespace Proxy

/-! ## Constants and wire types -/

def success : Int := 200
def partialSuccess : Int := 206
def clientError : Int := 405
def serverError : Int := 500

/-- A byte slice (`[]byte`). -/
abbrev Bytes := List UInt8

/-- Go `type server struct { IP string; Port int }`. -/
structure server where
  IP : String
  Port : Int
  deriving DecidableEq, Repr, Inhabited

/-- Go `type errorResp struct { Code int; Message string }`. -/
structure errorResp where
  Code : Int
  Message : String
  deriving DecidableEq, Repr

/-- Go `type Encoded struct { Encoding string; Data string }`. -/
structure Encoded where
  Encoding : String
  Data : String
  deriving DecidableEq, Repr, Inhabited

/-- Go `type serverSetResp struct { KeysAdded int; KeysFailed []Encoded }`. -/
structure serverSetResp where
  KeysAdded : Int
  KeysFailed : List Encoded
  deriving DecidableEq, Repr

/-- Go `type serverFetchResp struct { Key Encoded; Value *Encoded }`; a nil
pointer is `none`. -/
structure serverFetchResp where
  Key : Encoded
  Value : Option Encoded
  deriving DecidableEq, Repr

/-- Go `type serverQueryResp struct { Key Encoded; Value bool }`. -/
structure serverQueryResp where
  Key : Encoded
  Value : Bool
  deriving DecidableEq, Repr

/-- Go `type clientSetReq struct { Key Encoded; Value Encoded }`. -/
structure clientSetReq where
  Key : Encoded
  Value : Encoded
  deriving DecidableEq, Repr

/-- Go `type clientFetQueReq struct { Key Encoded }`. -/
structure clientFetQueReq where
  Key : Encoded
  deriving DecidableEq, Repr

/-! ## Machine integers -/

/-- Two's-complement wrap of an integer to the 64-bit range of Go's `int`. -/
def toInt64 (x : Int) : Int :=
  (x + 9223372036854775808) % 18446744073709551616 - 9223372036854775808

/-- Go conversion `int(x)` of a `uint32` value. -/
def int (x : Nat) : Int := toInt64 (Int.ofNat x)

/-- Go `a % b` on `int`: the remainder of truncated division; a zero divisor
panics. -/
def goRem (a b : Int) : Option Int :=
  if b = 0 then none else some (toInt64 (Int.tmod a b))

/-! ## Standard library: `[]byte(s)`, `hash/fnv`, `encoding/base64` -/

/-- Go `[]byte(s)`: the bytes of a string. -/
def stringBytes (s : String) : Bytes :=
  s.data.flatMap String.utf8EncodeChar

/-- Constant `offset32` of `hash/fnv`. -/
def offset32 : Nat := 2166136261

/-- Constant `prime32` of `hash/fnv`. -/
def prime32 : Nat := 16777619

/-- Go `fnv.New32a()`: the initial `sum32a` state. -/
def New32a : Nat := offset32

/-- Go `(*sum32a).Write`: `for _, c := range data { hash ^= sum32a(c); hash *= prime32 }`
on `uint32`. -/
def sum32aWrite (s : Nat) (data : Bytes) : Nat :=
  data.foldl (fun hash c => (((hash ^^^ c.toNat) % 4294967296) * prime32) % 4294967296) s

/-- Go `(*sum32a).Sum32`. -/
def Sum32 (s : Nat) : Nat := s % 4294967296

/-- Go `func hash(s string) uint32`. -/
def hash (s : String) : Nat :=
  let h := New32a
  let h := sum32aWrite h (stringBytes s)
  Sum32 h

/-- The alphabet `encodeStd` of `encoding/base64`. -/
def encodeStd : List Char :=
  "ABCDEFGHIJKLMNOPQRSTUVWXYZabcdefghijklmnopqrstuvwxyz0123456789+/".data

/-- One alphabet lookup `enc.encode[v & 0x3F]`. -/
def encChar (v : Nat) : Char := encodeStd.getD (v % 64) 'A'

/-- Go `base64.StdEncoding.Encode`: every full group of three bytes gives four
characters; a remainder of one or two bytes gives two or three characters
followed by `=` padding. -/
def base64Encode : Bytes → List Char
  | [] => []
  | [a] =>
    let val := a.toNat <<< 16
    [encChar (val >>> 18), encChar (val >>> 12), '=', '=']
  | [a, b] =>
    let val := a.toNat <<< 16 ||| b.toNat <<< 8
    [encChar (val >>> 18), encChar (val >>> 12), encChar (val >>> 6), '=']
  | a :: b :: c :: rest =>
    let val := a.toNat <<< 16 ||| b.toNat <<< 8 ||| c.toNat
    encChar (val >>> 18) :: encChar (val >>> 12) :: encChar (val >>> 6) :: encChar val ::
      base64Encode rest

/-- Go `base64.StdEncoding.EncodeToString`. -/
def EncodeToString (src : Bytes) : String := String.mk (base64Encode src)

/-- Go `func binToStr(s string) (string, bool)`. -/
def binToStr (s : String) : String × Bool :=
  let realStr := EncodeToString (stringBytes s)
  (realStr, true)

/-- The expression `int(hash(keyValStr)) % len(servers)` of the three
partitioning loops. -/
def serverIdx (keyValStr : String) (lenServers : Nat) : Option Int :=
  goRem (int (hash keyValStr)) (Int.ofNat lenServers)

/-! ## Requests, the request map and the three partitioning handlers -/

def MethodGet : String := "GET"
def MethodPost : String := "POST"
def MethodPut : String := "PUT"

/-- The dynamic values passed as `reqBody interface{}` to `compositeServerReq`:
`nil`, a `[]Encoded` or a `[]clientSetReq`. -/
inductive ReqBody where
  | null
  | keys (ks : List Encoded)
  | pairs (ps : List clientSetReq)
  deriving DecidableEq, Repr

/-- A non-nil `*http.Request` made by `http.NewRequest`, given by the method,
the URL and the value whose JSON encoding is the body. -/
structure Request where
  method : String
  endpoint : String
  body : ReqBody
  deriving DecidableEq, Repr

/-- The two standard-library calls of `compositeServerReq`:
`json.Marshal(&reqBody)`, `none` when it returns an error, and whether
`http.NewRequest(method, url, body)` returns a nil error (it returns an error
for a method or a URL it does not accept, such as a URL with a negative port
or a blank in the host). -/
structure ReqEnv where
  MarshalBody : ReqBody → Option Bytes
  NewRequestOk : String → String → Bool

/-- Go `func compositeServerReq(endpoint string, reqBody interface{}, method string)`:
the nil pointer, `none`, when `json.Marshal` or `http.NewRequest` returns an
error. -/
def compositeServerReq (env : ReqEnv) (endpoint : String) (reqBody : ReqBody)
    (method : String) : Option Request :=
  match env.MarshalBody reqBody with
  | none => none
  | some _ =>
    if env.NewRequestOk method endpoint then
      some { method := method, endpoint := endpoint, body := reqBody }
    else none

/-- Go `fmt.Sprintf("http://%s:%d" + path, s.IP, s.Port)`. -/
def serverEndpoint (s : server) (path : String) : String :=
  "http://" ++ s.IP ++ ":" ++ toString s.Port ++ path

/-- A Go `map[int][]α`; reading an absent key gives the nil slice. -/
abbrev ReqMap (α : Type) := Int → List α

/-- Go `make(map[int][]α)`. -/
def emptyMap {α : Type} : ReqMap α := fun _ => []

/-- Go `m[k] = append(m[k], x)`. -/
def mapAppend {α : Type} (m : ReqMap α) (k : Int) (x : α) : ReqMap α :=
  fun j => if j = k then m j ++ [x] else m j

/-- First loop of `handleFetch` (lines 105-121) from the current item on: the
arguments are the remaining items and the current `isValid` and `serverReqMap`,
the result is their value at loop exit; `none` is a panic. -/
def handleFetchPartition (lenServers : Nat) :
    List clientFetQueReq → Bool → ReqMap Encoded → Option (Bool × ReqMap Encoded)
  | [], isValid, serverReqMap => some (isValid, serverReqMap)
  | q :: rest, isValid, serverReqMap =>
    let keyEncoding := q.Key.Encoding
    let keyVal := q.Key.Data
    let keyValStr := keyVal
    let r := if keyEncoding = "binary" then binToStr keyValStr else (keyValStr, isValid)
    let keyValStr := r.1
    let isValid := r.2
    if !isValid then some (isValid, serverReqMap)
    else
      match serverIdx keyValStr lenServers with
      | none => none
      | some idx =>
        handleFetchPartition lenServers rest isValid (mapAppend serverReqMap idx q.Key)

/-- First loop of `handleQuery` (lines 154-170). -/
def handleQueryPartition (lenServers : Nat) :
    List clientFetQueReq → Bool → ReqMap Encoded → Option (Bool × ReqMap Encoded)
  | [], isValid, serverReqMap => some (isValid, serverReqMap)
  | q :: rest, isValid, serverReqMap =>
    let keyEncoding := q.Key.Encoding
    let keyVal := q.Key.Data
    let keyValStr := keyVal
    let r := if keyEncoding = "binary" then binToStr keyValStr else (keyValStr, isValid)
    let keyValStr := r.1
    let isValid := r.2
    if !isValid then some (isValid, serverReqMap)
    else
      match serverIdx keyValStr lenServers with
      | none => none
      | some idx =>
        handleQueryPartition lenServers rest isValid (mapAppend serverReqMap idx q.Key)

/-- First loop of `handleSet` (lines 203-220). -/
def handleSetPartition (lenServers : Nat) :
    List clientSetReq → Bool → ReqMap clientSetReq → Option (Bool × ReqMap clientSetReq)
  | [], isValid, serverReqMap => some (isValid, serverReqMap)
  | q :: rest, isValid, serverReqMap =>
    let keyEncoding := q.Key.Encoding
    let keyVal := q.Key.Data
    let keyValStr := keyVal
    let r := if keyEncoding = "binary" then binToStr keyValStr else (keyValStr, isValid)
    let keyValStr := r.1
    let isValid := r.2
    if !isValid then some (isValid, serverReqMap)
    else
      match serverIdx keyValStr lenServers with
      | none => none
      | some idx =>
        handleSetPartition lenServers rest isValid (mapAppend serverReqMap idx q)

/-- Second loop of `handleFetch` (lines 130-141): `for j := 0; j < len(servers); j++`. -/
def handleFetchAssemble (env : ReqEnv) (servers : List server)
    (serverReqMap : ReqMap Encoded) : List (Option Request) :=
  (List.range servers.length).foldl
    (fun reqs j =>
      let serverReqs := serverReqMap (Int.ofNat j)
      if serverReqs.length = 0 then reqs
      else
        let endpoint := serverEndpoint (servers.getD j default) "/fetch"
        let httpReq := compositeServerReq env endpoint (ReqBody.keys serverReqs) MethodPost
        reqs ++ [httpReq])
    []

/-- Second loop of `handleQuery` (lines 179-190). -/
def handleQueryAssemble (env : ReqEnv) (servers : List server)
    (serverReqMap : ReqMap Encoded) : List (Option Request) :=
  (List.range servers.length).foldl
    (fun reqs j =>
      let serverReqs := serverReqMap (Int.ofNat j)
      if serverReqs.length = 0 then reqs
      else
        let endpoint := serverEndpoint (servers.getD j default) "/query"
        let httpReq := compositeServerReq env endpoint (ReqBody.keys serverReqs) MethodPost
        reqs ++ [httpReq])
    []

/-- Second loop of `handleSet` (lines 229-240). -/
def handleSetAssemble (env : ReqEnv) (servers : List server)
    (serverReqMap : ReqMap clientSetReq) : List (Option Request) :=
  (List.range servers.length).foldl
    (fun reqs j =>
      let serverReqs := serverReqMap (Int.ofNat j)
      if serverReqs.length = 0 then reqs
      else
        let endpoint := serverEndpoint (servers.getD j default) "/set"
        let httpReq := compositeServerReq env endpoint (ReqBody.pairs serverReqs) MethodPut
        reqs ++ [httpReq])
    []

/-- The aggregator handed to `sendRequestsAndMassage`. -/
inductive Massage where
  | massageFetch
  | massageQuery
  | massageSet
  deriving DecidableEq, Repr

/-- What a handler does after reading its input: reply through `handleError`,
or call `sendRequestsAndMassage(reqs, fn)`; an entry of `reqs` is `none` for a
nil pointer. -/
inductive Outcome where
  | error (errsp : errorResp)
  | send (reqs : List (Option Request)) (fn : Massage)
  deriving DecidableEq, Repr

/-- Go `func handleFetch`, on the decoded request list `queryReqs`; `none` is a
panic. -/
def handleFetch (env : ReqEnv) (servers : List server) (queryReqs : List clientFetQueReq) :
    Option Outcome :=
  match handleFetchPartition servers.length queryReqs true emptyMap with
  | none => none
  | some (isValid, serverReqMap) =>
    if !isValid then
      some (Outcome.error { Code := clientError, Message := "Bad key encoding." })
    else
      some (Outcome.send (handleFetchAssemble env servers serverReqMap) Massage.massageFetch)

/-- Go `func handleQuery`, on the decoded request list `queryReqs`. -/
def handleQuery (env : ReqEnv) (servers : List server) (queryReqs : List clientFetQueReq) :
    Option Outcome :=
  match handleQueryPartition servers.length queryReqs true emptyMap with
  | none => none
  | some (isValid, serverReqMap) =>
    if !isValid then
      some (Outcome.error { Code := clientError, Message := "Bad key encoding." })
    else
      some (Outcome.send (handleQueryAssemble env servers serverReqMap) Massage.massageQuery)

/-- Go `func handleSet`, on the decoded request list `setReqs`. -/
def handleSet (env : ReqEnv) (servers : List server) (setReqs : List clientSetReq) :
    Option Outcome :=
  match handleSetPartition servers.length setReqs true emptyMap with
  | none => none
  | some (isValid, serverReqMap) =>
    if !isValid then
      some (Outcome.error { Code := clientError, Message := "Bad key encoding." })
    else
      some (Outcome.send (handleSetAssemble env servers serverReqMap) Massage.massageSet)

/-! ## Backend responses and the three aggregators -/

/-- The `*http.Response` seen by an aggregator: its status code and the bytes
`ioutil.ReadAll(resp.Body)` yields. -/
structure Response where
  StatusCode : Int
  Body : Bytes
  deriving DecidableEq, Repr

/-- The functions of `encoding/json` at the types the aggregators use them.
`Unmarshal…` is the value left in the target (initially its zero value) by
`json.Unmarshal`; `Marshal…` is `none` when `json.Marshal` returns an error. -/
structure Json where
  UnmarshalFetch : Bytes → List serverFetchResp
  UnmarshalQuery : Bytes → List serverQueryResp
  UnmarshalSet : Bytes → serverSetResp
  MarshalFetch : List serverFetchResp → Option Bytes
  MarshalQuery : List serverQueryResp → Option Bytes
  MarshalSet : serverSetResp → Option Bytes

/-- Go `func loadRespBody(resp *http.Response) []byte`. -/
def loadRespBody (resp : Response) : Bytes := resp.Body

/-- Go `func loadServerSetResp(jsonBytes []byte) serverSetResp`. -/
def loadServerSetResp (json : Json) (jsonBytes : Bytes) : serverSetResp :=
  json.UnmarshalSet jsonBytes

/-- Go `func loadServerQueryResp(jsonBytes []byte) []serverQueryResp`. -/
def loadServerQueryResp (json : Json) (jsonBytes : Bytes) : List serverQueryResp :=
  json.UnmarshalQuery jsonBytes

/-- Go `func loadServerFetchResp(jsonBytes []byte) []serverFetchResp`. -/
def loadServerFetchResp (json : Json) (jsonBytes : Bytes) : List serverFetchResp :=
  json.UnmarshalFetch jsonBytes

/-- The `for _, response := range resps` loop of `massageFetch` (lines 251-268):
the values of `final` and `code` after it. -/
def massageFetchLoop (json : Json) (resps : List Response) : List serverFetchResp × Int :=
  resps.foldl
    (fun (st : List serverFetchResp × Int) response =>
      let final := st.1
      let code := st.2
      if response.StatusCode ≥ success then
        let body := loadRespBody response
        let sresp := loadServerFetchResp json body
        let final := final ++ sresp
        if response.StatusCode = partialSuccess then (final, partialSuccess) else (final, code)
      else (final, partialSuccess))
    ([], success)

/-- Go `func massageFetch(resps []*http.Response) ([]byte, int)`; a nil byte
slice is `none`. -/
def massageFetch (json : Json) (resps : List Response) : Option Bytes × Int :=
  let st := massageFetchLoop json resps
  match json.MarshalFetch st.1 with
  | none => (none, serverError)
  | some body => (some body, st.2)

/-- The loop of `massageQuery` (lines 277-294). -/
def massageQueryLoop (json : Json) (resps : List Response) : List serverQueryResp × Int :=
  resps.foldl
    (fun (st : List serverQueryResp × Int) response =>
      let final := st.1
      let code := st.2
      if response.StatusCode ≥ success then
        let body := loadRespBody response
        let sresp := loadServerQueryResp json body
        let final := final ++ sresp
        if response.StatusCode = partialSuccess then (final, partialSuccess) else (final, code)
      else (final, partialSuccess))
    ([], success)

/-- Go `func massageQuery(resps []*http.Response) ([]byte, int)`. -/
def massageQuery (json : Json) (resps : List Response) : Option Bytes × Int :=
  let st := massageQueryLoop json resps
  match json.MarshalQuery st.1 with
  | none => (none, serverError)
  | some body => (some body, st.2)

/-- The local variables of `massageSet`. -/
structure SetState where
  keysFailed : List Encoded
  keysAdded : Int
  code : Int
  deriving DecidableEq, Repr

/-- The loop of `massageSet` (lines 303-318); `keysAdded += …` is addition on
`int`. -/
def massageSetLoop (json : Json) (resps : List Response) : SetState :=
  resps.foldl
    (fun (st : SetState) response =>
      if response.StatusCode ≥ success then
        let body := loadRespBody response
        let sresp := loadServerSetResp json body
        { st with
          keysAdded := toInt64 (st.keysAdded + sresp.KeysAdded)
          keysFailed := st.keysFailed ++ sresp.KeysFailed }
      else { st with code := partialSuccess })
    { keysFailed := [], keysAdded := 0, code := success }

/-- The value `final` and the status `code` of `massageSet` just before
`json.Marshal` (lines 320-323). -/
def massageSetFinal (json : Json) (resps : List Response) : serverSetResp × Int :=
  let st := massageSetLoop json resps
  let final : serverSetResp := { KeysAdded := st.keysAdded, KeysFailed := st.keysFailed }
  let code := if st.keysFailed.length > 0 then partialSuccess else st.code
  (final, code)

/-- Go `func massageSet(resps []*http.Response) ([]byte, int)`. -/
def massageSet (json : Json) (resps : List Response) : Option Bytes × Int :=
  let fc := massageSetFinal json resps
  match json.MarshalSet fc.1 with
  | none => (none, serverError)
  | some body => (some body, fc.2)

/-! ## The router entry point -/

/-- The functions of `encoding/json` at the types the router itself uses:
decoding the two client request shapes (the error of `json.Unmarshal` is
ignored by the source) and encoding an `errorResp`, where an error of
`json.Marshal` is given by its message. -/
structure RouterJson where
  UnmarshalFetQue : Bytes → List clientFetQueReq
  UnmarshalSet : Bytes → List clientSetReq
  MarshalError : errorResp → Except String Bytes

/-- Go `func loadSetRequest(jsonBytes []byte) []clientSetReq`. -/
def loadSetRequest (rj : RouterJson) (jsonBytes : Bytes) : List clientSetReq :=
  rj.UnmarshalSet jsonBytes

/-- Go `func loadFetQueRequest(jsonBytes []byte) []clientFetQueReq`. -/
def loadFetQueRequest (rj : RouterJson) (jsonBytes : Bytes) : List clientFetQueReq :=
  rj.UnmarshalFetQue jsonBytes

/-- What a handler writes to the client: `w.WriteHeader(code)` followed by
`w.Write(body)`; a nil byte slice is `none`. -/
structure Reply where
  code : Int
  body : Option Bytes
  deriving DecidableEq, Repr

/-- Go `func handleSuccess(w, r, reply []byte, code int)`. -/
def handleSuccess (reply : Option Bytes) (code : Int) : Reply :=
  { code := code, body := reply }

/-- Go `func handleError(w, r, errsp *errorResp)`; `http.Error` writes the
error text and a newline with status 500. -/
def handleError (rj : RouterJson) (errsp : errorResp) : Reply :=
  match rj.MarshalError errsp with
  | Except.error err => { code := 500, body := some (stringBytes (err ++ "\n")) }
  | Except.ok js => { code := errsp.Code, body := some js }

/-- Go `func handleFetchAll`: `for j := 0; j < len(servers); j++`, one request
per server, then `sendRequestsAndMassage(reqs, massageFetch)`. -/
def handleFetchAll (env : ReqEnv) (servers : List server) : Outcome :=
  let reqs := (List.range servers.length).foldl
    (fun reqs j =>
      let endpoint := serverEndpoint (servers.getD j default) "/fetch"
      let httpReq := compositeServerReq env endpoint ReqBody.null MethodGet
      reqs ++ [httpReq])
    []
  Outcome.send reqs Massage.massageFetch

/-- The function `handler` calls for a request. -/
inductive Call where
  | handleFetchAll
  | handleFetch
  | handleQuery
  | handleSet
  | handleError (errsp : errorResp)
  deriving DecidableEq, Repr

/-- The `if … else if …` chain of Go `func handler` (lines 69-81) on
`r.Method` and `r.URL.Path`. -/
def handler (method endpoint : String) : Call :=
  if method = MethodGet ∧ endpoint = "/fetch" then Call.handleFetchAll
  else if method = MethodPost ∧ endpoint = "/fetch" then Call.handleFetch
  else if method = MethodPost ∧ endpoint = "/query" then Call.handleQuery
  else if method = MethodPut ∧ endpoint = "/set" then Call.handleSet
  else Call.handleError { Code := clientError, Message := "Request not found." }

/-- The outcome of the function `handler` calls, for a request with the body
bytes `body` (`loadReqBody(r)`); `none` is a panic. -/
def handlerOutcome (env : ReqEnv) (rj : RouterJson) (servers : List server)
    (method endpoint : String) (body : Bytes) : Option Outcome :=
  match handler method endpoint with
  | Call.handleFetchAll => some (handleFetchAll env servers)
  | Call.handleFetch => handleFetch env servers (loadFetQueRequest rj body)
  | Call.handleQuery => handleQuery env servers (loadFetQueRequest rj body)
  | Call.handleSet => handleSet env servers (loadSetRequest rj body)
  | Call.handleError errsp => some (Outcome.error errsp)

/-- The backend requests an outcome hands to the dispatcher. -/
def Outcome.requests : Outcome → List (Option Request)
  | Outcome.error _ => []
  | Outcome.send reqs _ => reqs

/-! ## Start-up: `loadServers` -/

/-- Go `strings.Split(s, ":")`, on the characters of `s`. -/
def splitColon : List Char → List (List Char)
  | [] => [[]]
  | c :: cs =>
    match splitColon cs with
    | [] => if c = ':' then [[], []] else [[c]]
    | hd :: tl => if c = ':' then [] :: hd :: tl else (c :: hd) :: tl

/-- The value of a non-empty string of decimal digits, most significant first,
continuing from the accumulated value `acc`. -/
def digitsValue : List Char → Nat → Option Nat
  | [], acc => some acc
  | c :: cs, acc =>
    if c.isDigit then digitsValue cs (acc * 10 + (c.toNat - '0'.toNat)) else none

/-- Go `strconv.Atoi`: an optional sign followed by at least one decimal digit,
with a value in the range of `int`; `none` is a non-nil error. -/
def Atoi (s : String) : Option Int :=
  let neg := s.data.head? = some '-'
  let digits := if s.data.head? = some '-' ∨ s.data.head? = some '+' then s.data.tail
    else s.data
  if digits = [] then none
  else
    match digitsValue digits 0 with
    | none => none
    | some v =>
      let x : Int := if neg then - Int.ofNat v else Int.ofNat v
      if -9223372036854775808 ≤ x ∧ x ≤ 9223372036854775807 then some x else none

/-- How `loadServers` ends: `os.Exit(code)`, a panic, or a return with the
global `servers` set. -/
inductive Startup where
  | exit (code : Int)
  | panic
  | loaded (servers : List server)
  deriving DecidableEq, Repr

/-- The `for _, arg := range args` loop of `loadServers` (lines 418-427) from
the current argument on; indexing `strings.Split(arg, ":")[1]` panics when the
argument has no colon. -/
def loadServersArgs : List String → List server → Startup
  | [], servers => Startup.loaded servers
  | arg :: rest, servers =>
    let parts := (splitColon arg.data).map String.mk
    let ip := parts.getD 0 ""
    match parts.get? 1 with
    | none => Startup.panic
    | some portStr =>
      match Atoi portStr with
      | none => Startup.exit 1
      | some port => loadServersArgs rest (servers ++ [{ IP := ip, Port := port }])

/-- Go `func loadServers()`: `args` is `os.Args[1:]`, `file` the result of
`ioutil.ReadFile(serverConfig)` (`none` for an error) and `UnmarshalServers`
the value `json.Unmarshal` leaves in the initially nil `servers` (its error is
ignored by the source). -/
def loadServers (UnmarshalServers : Bytes → List server) (args : List String)
    (file : Option Bytes) : Startup :=
  if args.length = 0 then
    match file with
    | none => Startup.exit 1
    | some content => Startup.loaded (UnmarshalServers content)
  else loadServersArgs args []

/-! ## The fan-out dispatcher: `sendRequestsAndMassage`

The goroutines of `sendRequestsAndMassage` are a transition system. A state
holds the program point of every task `go func(curReq)`, the shared slice
`resps`, the mutex, the counter of the wait group, how many tasks the `range`
loop has started, the value returned after `wg.Wait()` and whether an
unrecovered panic has ended the process. One step is one action of one
goroutine; a schedule is a list of actions. `resps = append(resps, resp)` is a
read of `resps` followed by a write. -/

/-- The program point of one task, with its local `resp`. -/
inductive TaskPC where
  /-- before `client.Do(curReq)` has returned -/
  | start
  /-- `err == nil`, before `mutex.Lock()` -/
  | gotResp (resp : Response)
  /-- after `mutex.Lock()`, before `append` reads `resps` -/
  | locked (resp : Response)
  /-- `append` has read `resps` (value `old`), before it writes `resps` -/
  | read (resp : Response) (old : List Response)
  /-- `resps` written, before `mutex.Unlock()` -/
  | wrote (resp : Response)
  /-- after `mutex.Unlock()`, before the deferred `wg.Done()` -/
  | unlocked (resp : Response)
  /-- returned, `wg.Done()` has run -/
  | done (resp : Response)
  /-- `err != nil`: `panic(err)` raised, before the deferred `wg.Done()` -/
  | panicking
  /-- the deferred `wg.Done()` has run; the panic is not recovered -/
  | panicked
  deriving DecidableEq, Repr

/-- The state of one call of `sendRequestsAndMassage`. -/
structure Sys where
  tasks : List TaskPC
  resps : List Response
  mutex : Bool
  wg : Int
  spawned : Nat
  result : Option (Option Bytes × Int)
  crashed : Bool
  deriving DecidableEq, Repr

/-- One action of the schedule: the `range` loop starts the next task, task
`i` takes its next step, `wg.Wait()` returns and `fn(resps)` is evaluated, or
the run-time ends the process for an unrecovered panic. -/
inductive Action where
  | spawn
  | task (i : Nat)
  | wait
  | crash
  deriving DecidableEq, Repr

/-- The state after `wg.Add(len(reqs))`, before the `range` loop. -/
def sendStart (reqs : List Request) : Sys :=
  { tasks := reqs.map (fun _ => TaskPC.start)
    resps := []
    mutex := false
    wg := Int.ofNat reqs.length
    spawned := 0
    result := none
    crashed := false }

/-- The next step of task `i`, at program point `pc`, for the request `req`;
`Do` is `client.Do` (`none` for a non-nil `err`). `none` means the task cannot
move: it waits for the mutex or has ended. -/
def taskStep (Do : Request → Option Response) (req : Request) (s : Sys) (i : Nat) :
    TaskPC → Option Sys
  | TaskPC.start =>
    match Do req with
    | some resp => some { s with tasks := s.tasks.set i (TaskPC.gotResp resp) }
    | none => some { s with tasks := s.tasks.set i TaskPC.panicking }
  | TaskPC.gotResp resp =>
    if s.mutex then none
    else some { s with mutex := true, tasks := s.tasks.set i (TaskPC.locked resp) }
  | TaskPC.locked resp => some { s with tasks := s.tasks.set i (TaskPC.read resp s.resps) }
  | TaskPC.read resp old =>
    some { s with resps := old ++ [resp], tasks := s.tasks.set i (TaskPC.wrote resp) }
  | TaskPC.wrote resp =>
    some { s with mutex := false, tasks := s.tasks.set i (TaskPC.unlocked resp) }
  | TaskPC.unlocked resp =>
    some { s with wg := s.wg - 1, tasks := s.tasks.set i (TaskPC.done resp) }
  | TaskPC.done _ => none
  | TaskPC.panicking => some { s with wg := s.wg - 1, tasks := s.tasks.set i TaskPC.panicked }
  | TaskPC.panicked => none

/-- One step of `sendRequestsAndMassage(reqs, fn)`; `none` when the action is
not enabled in `s`. Nothing moves once the process has ended. -/
def sendStep (Do : Request → Option Response) (fn : List Response → Option Bytes × Int)
    (reqs : List Request) (a : Action) (s : Sys) : Option Sys :=
  if s.crashed then none
  else
    match a with
    | Action.spawn =>
      if s.spawned < reqs.length then some { s with spawned := s.spawned + 1 } else none
    | Action.task i =>
      if i < s.spawned then
        match reqs.get? i, s.tasks.get? i with
        | some req, some pc => taskStep Do req s i pc
        | _, _ => none
      else none
    | Action.wait =>
      if s.spawned = reqs.length ∧ s.result = none ∧ s.wg = 0 then
        some { s with result := some (fn s.resps) }
      else none
    | Action.crash =>
      if s.tasks.any (fun pc => decide (pc = TaskPC.panicked)) then
        some { s with crashed := true }
      else none

/-- The state a schedule leads to from `s`; `none` when one of its actions is
not enabled. -/
def sendRun (Do : Request → Option Response) (fn : List Response → Option Bytes × Int)
    (reqs : List Request) : List Action → Sys → Option Sys
  | [], s => some s
  | a :: sched, s =>
    match sendStep Do fn reqs a s with
    | none => none
    | some s1 => sendRun Do fn reqs sched s1

/-- The aggregator a handler passes to `sendRequestsAndMassage`. -/
def massageOf (json : Json) : Massage → List Response → Option Bytes × Int
  | Massage.massageFetch => massageFetch json
  | Massage.massageQuery => massageQuery json
  | Massage.massageSet => massageSet json

/-! ## A concrete JSON codec for evaluating the aggregators

The encoder writes the JSON text of `encoding/json` for strings that need no
escaping. The decoder recognises exactly the encodings of the listed sample
values and leaves the zero value for every other body. -/

def jsonEncoded (e : Encoded) : String :=
  "\x7b\"encoding\":\"" ++ e.Encoding ++ "\",\"data\":\"" ++ e.Data ++ "\"\x7d"

def jsonArray (elems : List String) : String :=
  "[" ++ ",".intercalate elems ++ "]"

def jsonFetchResp (r : serverFetchResp) : String :=
  "\x7b\"key\":" ++ jsonEncoded r.Key ++ ",\"value\":" ++
    (match r.Value with
     | none => "null"
     | some v => jsonEncoded v) ++ "\x7d"

def jsonQueryResp (r : serverQueryResp) : String :=
  "\x7b\"key\":" ++ jsonEncoded r.Key ++ ",\"value\":" ++
    (if r.Value then "true" else "false") ++ "\x7d"

def jsonSetResp (r : serverSetResp) : String :=
  "\x7b\"keys_added\":" ++ toString r.KeysAdded ++ ",\"keys_failed\":" ++
    jsonArray (r.KeysFailed.map jsonEncoded) ++ "\x7d"

def keyA : Encoded := { Encoding := "string", Data := "a" }
def keyB : Encoded := { Encoding := "string", Data := "b" }
def keyC : Encoded := { Encoding := "string", Data := "c" }
def keyBin : Encoded := { Encoding := "binary", Data := "\x00\x01\x02" }
def valOne : Encoded := { Encoding := "string", Data := "1" }

def fetchA : serverFetchResp := { Key := keyA, Value := some valOne }
def fetchB : serverFetchResp := { Key := keyB, Value := none }
def queryA : serverQueryResp := { Key := keyA, Value := true }
def queryB : serverQueryResp := { Key := keyB, Value := false }

def sampleFetchValues : List (List serverFetchResp) := [[fetchA], [fetchB], [fetchA, fetchB]]

def sampleQueryValues : List (List serverQueryResp) := [[queryA], [queryB]]

def sampleSetValues : List serverSetResp :=
  [ { KeysAdded := 1, KeysFailed := [] },
    { KeysAdded := 2, KeysFailed := [keyC] },
    { KeysAdded := 9223372036854775807, KeysFailed := [] } ]

def sampleJson : Json where
  MarshalFetch v := some (stringBytes (jsonArray (v.map jsonFetchResp)))
  MarshalQuery v := some (stringBytes (jsonArray (v.map jsonQueryResp)))
  MarshalSet v := some (stringBytes (jsonSetResp v))
  UnmarshalFetch body :=
    (sampleFetchValues.find?
      (fun v => decide (stringBytes (jsonArray (v.map jsonFetchResp)) = body))).getD []
  UnmarshalQuery body :=
    (sampleQueryValues.find?
      (fun v => decide (stringBytes (jsonArray (v.map jsonQueryResp)) = body))).getD []
  UnmarshalSet body :=
    (sampleSetValues.find? (fun v => decide (stringBytes (jsonSetResp v) = body))).getD
      { KeysAdded := 0, KeysFailed := [] }

/-- A backend response with the given status whose body is the given text. -/
def respOf (status : Int) (text : String) : Response :=
  { StatusCode := status, Body := stringBytes text }

def respFetchA : Response := respOf 200 (jsonArray [jsonFetchResp fetchA])
def respFetchB : Response := respOf 200 (jsonArray [jsonFetchResp fetchB])
def respQueryA : Response := respOf 200 (jsonArray [jsonQueryResp queryA])
def respQueryB : Response := respOf 206 (jsonArray [jsonQueryResp queryB])
def respDown : Response := respOf 100 ""
def respSetOne : Response := respOf 200 (jsonSetResp { KeysAdded := 1, KeysFailed := [] })
def respSetFailedC : Response := respOf 200 (jsonSetResp { KeysAdded := 2, KeysFailed := [keyC] })
def respSetMax : Response :=
  respOf 200 (jsonSetResp { KeysAdded := 9223372036854775807, KeysFailed := [] })
def respSetPartialNoFailed : Response :=
  respOf 206 (jsonSetResp { KeysAdded := 1, KeysFailed := [] })

def sampleServers : List server :=
  [{ IP := "10.0.0.1", Port := 9000 }, { IP := "10.0.0.2", Port := 9001 }]

def sampleKeys : List clientFetQueReq :=
  [{ Key := keyA }, { Key := keyB }, { Key := keyC }, { Key := keyBin }]

def samplePairs : List clientSetReq :=
  [{ Key := keyA, Value := valOne }, { Key := keyB, Value := valOne }]

def jsonServer (s : server) : String :=
  "\x7b\"ip\":\"" ++ s.IP ++ "\",\"port\":" ++ toString s.Port ++ "\x7d"

def sampleServerLists : List (List server) :=
  [[], [{ IP := "10.0.0.1", Port := 9000 }, { IP := "10.0.0.2", Port := 9001 }]]

/-- The decoder of `servers.json` on the encodings of the sample lists; any
other content leaves `servers` nil. -/
def sampleUnmarshalServers (content : Bytes) : List server :=
  (sampleServerLists.find?
    (fun v => decide (stringBytes (jsonArray (v.map jsonServer)) = content))).getD []

def jsonFetQueReq (q : clientFetQueReq) : String :=
  "\x7b\"key\":" ++ jsonEncoded q.Key ++ "\x7d"

def jsonSetReq (p : clientSetReq) : String :=
  "\x7b\"key\":" ++ jsonEncoded p.Key ++ ",\"value\":" ++ jsonEncoded p.Value ++ "\x7d"

def jsonErrorResp (e : errorResp) : String :=
  "\x7b\"code\":" ++ toString e.Code ++ ",\"message\":\"" ++ e.Message ++ "\"\x7d"

/-- The router-side codec: the decoder recognises the encodings of the sample
request lists and leaves nil for every other body. -/
def sampleRouterJson : RouterJson where
  UnmarshalFetQue body :=
    ([sampleKeys].find?
      (fun v => decide (stringBytes (jsonArray (v.map jsonFetQueReq)) = body))).getD []
  UnmarshalSet body :=
    ([samplePairs].find?
      (fun v => decide (stringBytes (jsonArray (v.map jsonSetReq)) = body))).getD []
  MarshalError e := Except.ok (stringBytes (jsonErrorResp e))

def keyBogus : Encoded := { Encoding := "bogus", Data := "a" }

def sampleReq0 : Request :=
  { method := "POST", endpoint := "http://10.0.0.1:9000/fetch",
    body := ReqBody.keys [keyA, keyC] }

def sampleReq1 : Request :=
  { method := "POST", endpoint := "http://10.0.0.2:9001/fetch", body := ReqBody.keys [keyB] }

def jsonReqBody : ReqBody → String
  | ReqBody.null => "null"
  | ReqBody.keys ks => jsonArray (ks.map jsonEncoded)
  | ReqBody.pairs ps => jsonArray (ps.map jsonSetReq)

/-- The text holds a colon directly followed by a minus sign. -/
def hasNegativePort : List Char → Bool
  | [] => false
  | c :: cs => (c = ':' && cs.head? = some '-') || hasNegativePort cs

/-- A stand-in for `net/http` and `encoding/json` in `compositeServerReq`:
every body serializes; a request is made for the methods GET, POST and PUT
unless the URL holds a blank, a control character or a negative port. -/
def sampleReqEnv : ReqEnv where
  MarshalBody b := some (stringBytes (jsonReqBody b))
  NewRequestOk method url :=
    decide (method ∈ ["GET", "POST", "PUT"]) &&
      !(url.data.any (fun c => decide (c.toNat ≤ 32 ∨ c.toNat = 127))) &&
      !(hasNegativePort url.data)

/-- A backend list `loadServers` accepts from the command line `h:-1`. -/
def serversNegativePort : List server := [{ IP := "h", Port := -1 }]

/-- Both backends answer. -/
def sampleDoAll (req : Request) : Option Response :=
  if req.endpoint = "http://10.0.0.1:9000/fetch" then some respFetchA else some respFetchB

/-- The second backend is unreachable. -/
def sampleDoOneDown (req : Request) : Option Response :=
  if req.endpoint = "http://10.0.0.1:9000/fetch" then some respFetchA else none

/-- Both tasks run interleaved; task 1 takes the mutex first. -/
def schedInterleaved : List Action :=
  [Action.spawn, Action.task 0, Action.spawn, Action.task 1, Action.task 1, Action.task 1,
    Action.task 1, Action.task 1, Action.task 0, Action.task 1, Action.task 0, Action.task 0,
    Action.task 0, Action.task 0, Action.wait]

def stateInterleaved : Sys :=
  { tasks := [TaskPC.done respFetchA, TaskPC.done respFetchB]
    resps := [respFetchB, respFetchA]
    mutex := false
    wg := 0
    spawned := 2
    result := some (massageFetch sampleJson [respFetchB, respFetchA])
    crashed := false }

/-- The task of the unreachable backend runs first and the process ends. -/
def schedCrash : List Action :=
  [Action.spawn, Action.spawn, Action.task 1, Action.task 1, Action.crash]

def stateCrash : Sys :=
  { tasks := [TaskPC.start, TaskPC.panicked]
    resps := []
    mutex := false
    wg := 1
    spawned := 2
    result := none
    crashed := true }

/-- The reachable backend is merged before the process ends. -/
def schedLateCrash : List Action :=
  [Action.spawn, Action.spawn, Action.task 0, Action.task 0, Action.task 0, Action.task 0,
    Action.task 0, Action.task 0, Action.task 1, Action.task 1, Action.wait, Action.crash]

def stateLateCrash : Sys :=
  { tasks := [TaskPC.done respFetchA, TaskPC.panicked]
    resps := [respFetchA]
    mutex := false
    wg := 0
    spawned := 2
    result := some (massageFetch sampleJson [respFetchA])
    crashed := true }

/-! ## Reference definitions written from the specification -/

/-- FNV-1a-32 after the bytes `earlier₀ … b` given most recent first: the state
for no bytes is the offset basis 2166136261; each further byte is XORed into
the state, which is then multiplied by the prime 16777619 modulo `2^32`. -/
def fnv1a32Rev : Bytes → Nat
  | [] => 2166136261
  | b :: earlier => ((fnv1a32Rev earlier ^^^ b.toNat) * 16777619) % 2 ^ 32

/-- FNV-1a-32 of a byte sequence, bytes taken in order. -/
def fnv1a32Spec (bs : Bytes) : Nat := fnv1a32Rev bs.reverse

/-- The canonical key string: the base64-standard encoding of the data bytes
when the encoding is `"binary"`, the raw data string otherwise. -/
def canonicalString (key : Encoded) : String :=
  if key.Encoding = "binary" then EncodeToString (stringBytes key.Data) else key.Data

/-- The backend a key is routed to: `hash(c) mod n` of its canonical string. -/
def route (n : Nat) (key : Encoded) : Nat := hash (canonicalString key) % n

/-- Group `j` of a list of items: the subsequence, in input order, of the items
whose key is routed to `j`. -/
def groupOf {α : Type} (n : Nat) (keyOf : α → Encoded) (items : List α) (j : Int) : List α :=
  items.filter (fun it => decide (Int.ofNat (route n (keyOf it)) = j))

/-- A request map routes every item of `items` to exactly one of `n` backends:
each group is the routed subsequence, the group lengths over the backends add
up to the number of items, and no item lies in two groups. -/
def RoutesEachOnce {α : Type} (n : Nat) (keyOf : α → Encoded) (items : List α)
    (m : ReqMap α) : Prop :=
  (∀ j : Int, m j = groupOf n keyOf items j) ∧
  ((List.range n).map (fun j => (m (Int.ofNat j)).length)).sum = items.length ∧
  (∀ (i j : Int) (it : α), it ∈ m i → it ∈ m j → i = j)


/-- The backends, in ascending index order, whose group in `m` is non-empty. -/
def nonEmptyBackends {α : Type} (n : Nat) (m : ReqMap α) : List Nat :=
  (List.range n).filter (fun j => !(m (Int.ofNat j)).isEmpty)

/-- The sub-requests the specification asks for: one per backend with a
non-empty group, in ascending backend index, addressed to `servers[j]` and
carrying group `j`. -/
def requestsFor {α : Type} (servers : List server) (path method : String)
    (wrap : List α → ReqBody) (m : ReqMap α) : List Request :=
  (nonEmptyBackends servers.length m).map (fun j =>
    { method := method
      endpoint := serverEndpoint (servers.getD j default) path
      body := wrap (m (Int.ofNat j)) })

/-- What `compositeServerReq` returns when asked for the request `r`. -/
def buildRequest (env : ReqEnv) (r : Request) : Option Request :=
  compositeServerReq env r.endpoint r.body r.method

/-- The standard library makes the request `r`: its body serializes and
`http.NewRequest` accepts its method and URL. -/
def Accepts (env : ReqEnv) (r : Request) : Prop :=
  env.MarshalBody r.body ≠ none ∧ env.NewRequestOk r.method r.endpoint = true

/-- The claim of one well-formed request per entry: every entry of the list
handed to the dispatcher is a request, and they are the expected ones. -/
def AllRequests (expected : List Request) (o : Option Outcome) (fn : Massage) : Prop :=
  o = some (Outcome.send (expected.map some) fn)

/-- The responses that are not hard failures: status `>= 200`. -/
def answered (resps : List Response) : List Response :=
  resps.filter (fun r => decide (200 ≤ r.StatusCode))

/-- The merge asked for by the specification: the concatenation, in list
order, of the parsed item lists of the responses with status `>= 200`. -/
def mergedItems {α : Type} (parse : Bytes → List α) (resps : List Response) : List α :=
  (answered resps).flatMap (fun r => parse r.Body)

/-- The status policy of fetch and query: 206 when some response is a hard
failure (status below 200) or is itself partial (status 206), 200 otherwise. -/
def policyStatus (resps : List Response) : Int :=
  if ∃ r ∈ resps, r.StatusCode < 200 ∨ r.StatusCode = 206 then 206 else 200

/-- The sum of the `keys_added` counts of the responses with status `>= 200`. -/
def keysAddedSum (parse : Bytes → serverSetResp) (resps : List Response) : Int :=
  ((answered resps).map (fun r => (parse r.Body).KeysAdded)).sum

/-- The concatenation of the `keys_failed` lists of the responses with status
`>= 200`. -/
def keysFailedAll (parse : Bytes → serverSetResp) (resps : List Response) : List Encoded :=
  mergedItems (fun b => (parse b).KeysFailed) resps

/-- The exit contract of an aggregator with respect to serialization: when
serialization succeeds a body is returned with status 200 or 206; when it
fails the result is the nil body with status 500; status 500 is returned on no
other path. -/
def StatusContract (marshalled : Option Bytes) (out : Option Bytes × Int) : Prop :=
  (marshalled ≠ none → out.1 = marshalled ∧ (out.2 = 200 ∨ out.2 = 206)) ∧
  (marshalled = none → out = (none, 500)) ∧
  (out.2 = 500 → marshalled = none)

/-- The property that the body of `massageSet` carries the exact sum of the
`keys_added` counts and the concatenated `keys_failed` lists. -/
def SetBodyHasExactSum (json : Json) (resps : List Response) : Prop :=
  (massageSet json resps).1 = json.MarshalSet
    { KeysAdded := keysAddedSum json.UnmarshalSet resps
      KeysFailed := keysFailedAll json.UnmarshalSet resps }

/-- The four routes of the interface table, as (method, path) pairs. -/
def knownRoutes : List (String × String) :=
  [("GET", "/fetch"), ("POST", "/fetch"), ("POST", "/query"), ("PUT", "/set")]

/-- The character of a 6-bit value in the standard base64 alphabet of
RFC 4648: `A`-`Z` for 0-25, `a`-`z` for 26-51, `0`-`9` for 52-61, `+` for 62
and `/` for 63. -/
def stdAlphabet (i : Nat) : Char :=
  if i < 26 then Char.ofNat (65 + i)
  else if i < 52 then Char.ofNat (97 + (i - 26))
  else if i < 62 then Char.ofNat (48 + (i - 52))
  else if i = 62 then '+'
  else '/'

/-- Padded base64 of RFC 4648: the input is read as a bit string in groups of
24 bits, each group gives four 6-bit values; a final group of 8 or 16 bits is
filled with zero bits to a multiple of 6 and completed with `=` to four
characters. -/
def base64Std : Bytes → List Char
  | [] => []
  | [a] => [stdAlphabet (a.toNat / 4), stdAlphabet (a.toNat % 4 * 16), '=', '=']
  | [a, b] =>
    [stdAlphabet (a.toNat / 4), stdAlphabet (a.toNat % 4 * 16 + b.toNat / 16),
      stdAlphabet (b.toNat % 16 * 4), '=']
  | a :: b :: c :: rest =>
    stdAlphabet (a.toNat / 4) :: stdAlphabet (a.toNat % 4 * 16 + b.toNat / 16) ::
      stdAlphabet (b.toNat % 16 * 4 + c.toNat / 64) :: stdAlphabet (c.toNat % 64) ::
      base64Std rest

/-- The host of a command-line argument `host:port`: the text before the first
colon. -/
def hostField (arg : String) : String :=
  String.mk (arg.data.takeWhile (fun c => c != ':'))

/-- The port text of a command-line argument `host:port`: the text between the
first colon and the next one, if any. -/
def portField (arg : String) : String :=
  String.mk ((arg.data.dropWhile (fun c => c != ':')).tail.takeWhile (fun c => c != ':'))

/-- A decimal numeral: an optional sign followed by at least one decimal
digit. -/
def IsNumeral (s : String) : Prop :=
  ∃ sign digits, s.data = sign ++ digits ∧ (sign = [] ∨ sign = ['-'] ∨ sign = ['+']) ∧
    digits ≠ [] ∧ ∀ c ∈ digits, c.isDigit = true

/-- A command-line argument that start-up accepts: it has a colon and its port
text converts to an `int`. -/
def WellFormedArg (arg : String) : Prop :=
  ':' ∈ arg.data ∧ Atoi (portField arg) ≠ none

/-- The backend a well-formed command-line argument stands for. -/
def argServer (arg : String) : server :=
  { IP := hostField arg, Port := (Atoi (portField arg)).getD 0 }

/-- The property that start-up rejects an empty backend list: `loadServers`
either ends the process with a non-zero status or leaves a non-empty list. -/
def RejectsEmptyList (r : Startup) : Prop :=
  (∃ code, r = Startup.exit code ∧ code ≠ 0) ∨ r = Startup.panic ∨
  (∃ servers, r = Startup.loaded servers ∧ servers ≠ [])

/-- A task is inside the section guarded by the mutex. -/
def TaskPC.inCrit : TaskPC → Bool
  | TaskPC.locked _ => true
  | TaskPC.read _ _ => true
  | TaskPC.wrote _ => true
  | _ => false

/-- A task has completed: it returned after its `wg.Done()`. -/
def TaskPC.isDone : TaskPC → Bool
  | TaskPC.done _ => true
  | _ => false

/-- No action is enabled: the run is complete. -/
def Terminal (Do : Request → Option Response) (fn : List Response → Option Bytes × Int)
    (reqs : List Request) (s : Sys) : Prop :=
  ∀ a : Action, sendStep Do fn reqs a s = none

/-- A task has not yet run its `wg.Done()`. -/
def TaskPC.active : TaskPC → Bool
  | TaskPC.done _ => false
  | TaskPC.panicked => false
  | _ => true

/-- The response a task has appended to `resps`, if it has. -/
def TaskPC.appended : TaskPC → Option Response
  | TaskPC.wrote resp => some resp
  | TaskPC.unlocked resp => some resp
  | TaskPC.done resp => some resp
  | _ => none

/-- The number of steps a task can still take, at most. -/
def TaskPC.rank : TaskPC → Nat
  | TaskPC.start => 6
  | TaskPC.gotResp _ => 5
  | TaskPC.locked _ => 4
  | TaskPC.read _ _ => 3
  | TaskPC.wrote _ => 2
  | TaskPC.unlocked _ => 1
  | TaskPC.done _ => 0
  | TaskPC.panicking => 1
  | TaskPC.panicked => 0

/-- The local `resp` of a task is what `client.Do` returned for its request,
and a task panics only for a request `client.Do` failed on. -/
def Consistent (Do : Request → Option Response) (req : Request) : TaskPC → Prop
  | TaskPC.start => True
  | TaskPC.gotResp resp => Do req = some resp
  | TaskPC.locked resp => Do req = some resp
  | TaskPC.read resp _ => Do req = some resp
  | TaskPC.wrote resp => Do req = some resp
  | TaskPC.unlocked resp => Do req = some resp
  | TaskPC.done resp => Do req = some resp
  | TaskPC.panicking => Do req = none
  | TaskPC.panicked => Do req = none

/-- The number of steps a run can still take from `s`, at most. -/
def Sys.measure (reqs : List Request) (s : Sys) : Nat :=
  (s.tasks.map TaskPC.rank).sum + (reqs.length - s.spawned) +
    (if s.result = none then 1 else 0) + (if s.crashed then 0 else 1)

/-- The invariant of the dispatcher: one task per request; the wait-group
counter is the number of tasks that have not run `wg.Done()`; the mutex is held
exactly when one task is in the guarded section, and no two are; a task that
has read `resps` for its `append` read the current value; `resps` holds, in
some order, exactly the responses of the tasks that have appended; `fn` was
applied, after the counter reached zero, to the final `resps`. -/
structure Inv (Do : Request → Option Response) (fn : List Response → Option Bytes × Int)
    (reqs : List Request) (s : Sys) : Prop where
  len : s.tasks.length = reqs.length
  wg_eq : s.wg = Int.ofNat (s.tasks.countP TaskPC.active)
  crit : s.tasks.countP TaskPC.inCrit = if s.mutex then 1 else 0
  readOld : ∀ resp old, TaskPC.read resp old ∈ s.tasks → old = s.resps
  perm : s.resps.Perm (s.tasks.filterMap TaskPC.appended)
  cons : List.Forall₂ (Consistent Do) reqs s.tasks
  res : ∀ out, s.result = some out → s.wg = 0 ∧ out = fn s.resps
  crash : s.crashed = true → TaskPC.panicked ∈ s.tasks
  spawned_le : s.spawned ≤ reqs.length

set_option maxRecDepth 100000

/-! ## Hashing and the server index -/

/-- The published FNV-1a-32 test vectors for `""`, `"a"` and `"foobar"`. -/
theorem hash_test_vectors :
    hash "" = 0x811c9dc5 ∧ hash "a" = 0xe40c292c ∧ hash "foobar" = 0xbf9cf968 := by
  decide

/-- The RFC 4648 base64 test vectors, and the bytes `[0, 1, 2]`. -/
theorem base64_test_vectors :
    EncodeToString (stringBytes "") = "" ∧
    EncodeToString (stringBytes "f") = "Zg==" ∧
    EncodeToString (stringBytes "fo") = "Zm8=" ∧
    EncodeToString (stringBytes "foo") = "Zm9v" ∧
    EncodeToString (stringBytes "foob") = "Zm9vYg==" ∧
    EncodeToString (stringBytes "fooba") = "Zm9vYmE=" ∧
    EncodeToString (stringBytes "foobar") = "Zm9vYmFy" ∧
    EncodeToString [0, 1, 2] = "AAEC" := by
  decide


theorem fnv1a32Rev_lt (bs : Bytes) : fnv1a32Rev bs < 4294967296 := by
  cases bs with
  | nil => simp [fnv1a32Rev]
  | cons b earlier =>
    simp only [fnv1a32Rev]
    exact Nat.mod_lt _ (by norm_num)

theorem byte_lt_two_pow_32 (c : UInt8) : c.toNat < 2 ^ 32 :=
  Nat.lt_trans c.val.isLt (by norm_num [UInt8.size])

theorem sum32aWrite_eq_spec (bs : Bytes) :
    sum32aWrite New32a bs = fnv1a32Rev bs.reverse := by
  induction bs using List.reverseRecOn with
  | nil => simp [sum32aWrite, New32a, offset32, fnv1a32Rev]
  | append_singleton bs c ih =>
    have hlt : fnv1a32Rev bs.reverse ^^^ c.toNat < 2 ^ 32 :=
      Nat.xor_lt_two_pow (by simpa using fnv1a32Rev_lt bs.reverse) (byte_lt_two_pow_32 c)
    unfold sum32aWrite at ih ⊢
    rw [List.foldl_append, ih]
    simp only [List.foldl_cons, List.foldl_nil, List.reverse_append, List.reverse_cons,
      List.reverse_nil, List.nil_append, List.singleton_append, fnv1a32Rev, prime32]
    have e : (fnv1a32Rev bs.reverse ^^^ c.toNat) % 4294967296
        = fnv1a32Rev bs.reverse ^^^ c.toNat := Nat.mod_eq_of_lt (by simpa using hlt)
    rw [e]
    norm_num

theorem hash_eq_fnv1a32Spec (s : String) : hash s = fnv1a32Spec (stringBytes s) := by
  simp only [hash, Sum32, fnv1a32Spec, sum32aWrite_eq_spec]
  exact Nat.mod_eq_of_lt (fnv1a32Rev_lt _)

theorem hash_lt (s : String) : hash s < 4294967296 := by
  rw [hash_eq_fnv1a32Spec]; exact fnv1a32Rev_lt _

theorem toInt64_of_small (x : Int) (h0 : 0 ≤ x) (h1 : x < 4294967296) : toInt64 x = x := by
  unfold toInt64; omega

theorem int_hash (s : String) : int (hash s) = Int.ofNat (hash s) := by
  have hh := hash_lt s
  unfold int
  apply toInt64_of_small
  · exact Int.ofNat_nonneg _
  · simp only [Int.ofNat_eq_coe]; omega

theorem serverIdx_eq (s : String) (n : Nat) (hn : 1 ≤ n) :
    serverIdx s n = some (Int.ofNat (hash s % n)) := by
  have hh := hash_lt s
  have hm : hash s % n < 4294967296 := Nat.lt_of_le_of_lt (Nat.mod_le _ _) hh
  have hne : (Int.ofNat n) ≠ 0 := by simp only [Int.ofNat_eq_coe]; omega
  have ht : Int.tmod (Int.ofNat (hash s)) (Int.ofNat n) = Int.ofNat (hash s % n) := rfl
  have hs : toInt64 (Int.ofNat (hash s % n)) = Int.ofNat (hash s % n) := by
    apply toInt64_of_small
    · exact Int.ofNat_nonneg _
    · simp only [Int.ofNat_eq_coe]; omega
  unfold serverIdx goRem
  rw [if_neg hne, int_hash, ht, hs]

/-- C1: for every key string `s` and backend count `n ≥ 1` the router's index
`int(hash(s)) % n` is computed without panic, equals FNV-1a-32 of the bytes of
`s` (offset basis 2166136261, per byte XOR then multiply by 16777619 modulo
`2^32`) reduced modulo `n`, and lies in `[0, n)`. -/
theorem C1_serverIdx_is_fnv1a_mod (s : String) (n : Nat) (hn : 1 ≤ n) :
    ∃ idx : Int, serverIdx s n = some idx ∧
      idx = Int.ofNat (fnv1a32Spec (stringBytes s) % n) ∧ 0 ≤ idx ∧ idx < Int.ofNat n := by
  refine ⟨_, serverIdx_eq s n hn, by rw [hash_eq_fnv1a32Spec], Int.ofNat_nonneg _, ?_⟩
  have : hash s % n < n := Nat.mod_lt _ (by omega)
  simp only [Int.ofNat_eq_coe]
  exact_mod_cast this

theorem C1_witness :
    1 ≤ 2 ∧ ∃ idx : Int, serverIdx "foobar" 2 = some idx ∧
      idx = Int.ofNat (fnv1a32Spec (stringBytes "foobar") % 2) ∧ 0 ≤ idx ∧ idx < Int.ofNat 2 :=
  ⟨by decide, C1_serverIdx_is_fnv1a_mod "foobar" 2 (by decide)⟩

/-! ## Partitioning: every item goes to exactly one backend -/

theorem decode_eq (key : Encoded) :
    (if key.Encoding = "binary" then binToStr key.Data else (key.Data, true))
      = (canonicalString key, true) := by
  unfold canonicalString binToStr
  split <;> rfl

theorem serverIdx_canonical (n : Nat) (hn : 1 ≤ n) (key : Encoded) :
    serverIdx (canonicalString key) n = some (Int.ofNat (route n key)) :=
  serverIdx_eq _ n hn

theorem groupOf_cons {α : Type} (n : Nat) (keyOf : α → Encoded) (x : α) (items : List α)
    (j : Int) :
    groupOf n keyOf (x :: items) j
      = if j = Int.ofNat (route n (keyOf x)) then x :: groupOf n keyOf items j
        else groupOf n keyOf items j := by
  unfold groupOf
  by_cases h : j = Int.ofNat (route n (keyOf x))
  · rw [if_pos h, List.filter_cons_of_pos]; simp [h]
  · rw [if_neg h, List.filter_cons_of_neg]; simpa using fun e => h e.symm

theorem mapAppend_groupOf {α : Type} (n : Nat) (keyOf : α → Encoded) (x : α) (items : List α)
    (m : ReqMap α) :
    (fun j => mapAppend m (Int.ofNat (route n (keyOf x))) x j ++ groupOf n keyOf items j)
      = fun j => m j ++ groupOf n keyOf (x :: items) j := by
  funext j
  rw [groupOf_cons]
  unfold mapAppend
  by_cases h : j = Int.ofNat (route n (keyOf x))
  · rw [if_pos h, if_pos h]; simp
  · rw [if_neg h, if_neg h]

theorem handleFetchPartition_eq (n : Nat) (hn : 1 ≤ n) (queryReqs : List clientFetQueReq) :
    ∀ m : ReqMap Encoded, handleFetchPartition n queryReqs true m
      = some (true, fun j => m j ++ groupOf n id (queryReqs.map (·.Key)) j) := by
  induction queryReqs with
  | nil => intro m; simp [handleFetchPartition, groupOf]
  | cons q rest ih =>
    intro m
    simp only [handleFetchPartition, decode_eq, serverIdx_canonical n hn, Bool.not_true,
      Bool.false_eq_true, if_false, ih, List.map_cons]
    rw [← mapAppend_groupOf n id q.Key]
    rfl

theorem handleQueryPartition_eq (n : Nat) (hn : 1 ≤ n) (queryReqs : List clientFetQueReq) :
    ∀ m : ReqMap Encoded, handleQueryPartition n queryReqs true m
      = some (true, fun j => m j ++ groupOf n id (queryReqs.map (·.Key)) j) := by
  induction queryReqs with
  | nil => intro m; simp [handleQueryPartition, groupOf]
  | cons q rest ih =>
    intro m
    simp only [handleQueryPartition, decode_eq, serverIdx_canonical n hn, Bool.not_true,
      Bool.false_eq_true, if_false, ih, List.map_cons]
    rw [← mapAppend_groupOf n id q.Key]
    rfl

theorem handleSetPartition_eq (n : Nat) (hn : 1 ≤ n) (setReqs : List clientSetReq) :
    ∀ m : ReqMap clientSetReq, handleSetPartition n setReqs true m
      = some (true, fun j => m j ++ groupOf n (·.Key) setReqs j) := by
  induction setReqs with
  | nil => intro m; simp [handleSetPartition, groupOf]
  | cons q rest ih =>
    intro m
    simp only [handleSetPartition, decode_eq, serverIdx_canonical n hn, Bool.not_true,
      Bool.false_eq_true, if_false, ih]
    rw [← mapAppend_groupOf n (·.Key) q]

theorem sum_indicator_range (n k : Nat) (hk : k < n) :
    ((List.range n).map (fun j => if j = k then 1 else 0)).sum = 1 := by
  induction n with
  | zero => omega
  | succ n ih =>
    rw [List.range_succ, List.map_append, List.sum_append]
    by_cases h : k < n
    · have hne : ¬ (n = k) := by omega
      simp [ih h, hne]
    · have hkn : k = n := by omega
      subst hkn
      have hz : ((List.range k).map (fun j => if j = k then 1 else 0)).sum = 0 := by
        apply List.sum_eq_zero
        intro x hx
        simp only [List.mem_map, List.mem_range] at hx
        obtain ⟨j, hj, rfl⟩ := hx
        have : ¬ (j = k) := by omega
        simp [this]
      simp [hz]

theorem groupOf_length_sum {α : Type} (n : Nat) (hn : 1 ≤ n) (keyOf : α → Encoded)
    (items : List α) :
    ((List.range n).map (fun j => (groupOf n keyOf items (Int.ofNat j)).length)).sum
      = items.length := by
  induction items with
  | nil => simp [groupOf]
  | cons x rest ih =>
    have hk : route n (keyOf x) < n := Nat.mod_lt _ (by omega)
    have hstep : ∀ j : Nat, (groupOf n keyOf (x :: rest) (Int.ofNat j)).length
        = (if j = route n (keyOf x) then 1 else 0)
          + (groupOf n keyOf rest (Int.ofNat j)).length := by
      intro j
      rw [groupOf_cons]
      by_cases h : j = route n (keyOf x)
      · rw [if_pos (by rw [h]), if_pos h, List.length_cons, Nat.add_comm]
      · have h2 : ¬ (Int.ofNat j = Int.ofNat (route n (keyOf x))) := by
          simp only [Int.ofNat_eq_coe, Nat.cast_inj]; exact h
        rw [if_neg h2, if_neg h, Nat.zero_add]
    simp only [hstep]
    rw [List.sum_map_add, sum_indicator_range n _ hk, ih, List.length_cons, Nat.add_comm]

theorem groupOf_disjoint {α : Type} (n : Nat) (keyOf : α → Encoded) (items : List α)
    (i j : Int) (it : α) (hi : it ∈ groupOf n keyOf items i) (hj : it ∈ groupOf n keyOf items j) :
    i = j := by
  unfold groupOf at hi hj
  simp only [List.mem_filter, decide_eq_true_eq] at hi hj
  rw [← hi.2, ← hj.2]

theorem routesEachOnce_groupOf {α : Type} (n : Nat) (hn : 1 ≤ n) (keyOf : α → Encoded)
    (items : List α) :
    RoutesEachOnce n keyOf items (fun j => emptyMap j ++ groupOf n keyOf items j) := by
  have e : (fun j => emptyMap j ++ groupOf n keyOf items j) = groupOf n keyOf items := by
    funext j; simp [emptyMap]
  rw [e]
  exact ⟨fun _ => rfl, groupOf_length_sum n hn keyOf items,
    fun i j it => groupOf_disjoint n keyOf items i j it⟩

/-- C2: with at least one backend, the first loop of `handleFetch`, of
`handleQuery` and of `handleSet` never rejects a key and never panics, and the
request map it builds routes every item to exactly one backend: group `j` is
the subsequence of the input items (for fetch and query the undecoded keys, for
set the key/value pairs), in input order, whose canonical key string `c` has
`hash(c) mod n = j`; the group lengths add up to the number of items and no
item lies in two groups. -/
theorem C2_partition_routes_each_item_once (servers : List server) (hn : 1 ≤ servers.length)
    (queryReqs : List clientFetQueReq) (setReqs : List clientSetReq) :
    (∃ m, handleFetchPartition servers.length queryReqs true emptyMap = some (true, m) ∧
        RoutesEachOnce servers.length id (queryReqs.map (·.Key)) m) ∧
    (∃ m, handleQueryPartition servers.length queryReqs true emptyMap = some (true, m) ∧
        RoutesEachOnce servers.length id (queryReqs.map (·.Key)) m) ∧
    (∃ m, handleSetPartition servers.length setReqs true emptyMap = some (true, m) ∧
        RoutesEachOnce servers.length (·.Key) setReqs m) :=
  ⟨⟨_, handleFetchPartition_eq _ hn queryReqs emptyMap, routesEachOnce_groupOf _ hn _ _⟩,
   ⟨_, handleQueryPartition_eq _ hn queryReqs emptyMap, routesEachOnce_groupOf _ hn _ _⟩,
   ⟨_, handleSetPartition_eq _ hn setReqs emptyMap, routesEachOnce_groupOf _ hn _ _⟩⟩

/-! ## Assembly: one sub-request per non-empty group -/

theorem assemble_foldl {α : Type} (env : ReqEnv) (servers : List server)
    (path method : String) (wrap : List α → ReqBody) (m : ReqMap α) (js : List Nat) :
    ∀ acc : List (Option Request),
      js.foldl
        (fun reqs j =>
          if (m (Int.ofNat j)).length = 0 then reqs
          else reqs ++ [compositeServerReq env (serverEndpoint (servers.getD j default) path)
            (wrap (m (Int.ofNat j))) method])
        acc
      = acc ++ ((js.filter (fun j => !(m (Int.ofNat j)).isEmpty)).map (fun j =>
          ({ method := method
             endpoint := serverEndpoint (servers.getD j default) path
             body := wrap (m (Int.ofNat j)) } : Request))).map (buildRequest env) := by
  induction js with
  | nil => intro acc; simp
  | cons j js ih =>
    intro acc
    rw [List.foldl_cons, ih]
    by_cases h : m (Int.ofNat j) = []
    · have hl : (m (Int.ofNat j)).length = 0 := by rw [h]; rfl
      rw [if_pos hl, List.filter_cons_of_neg (by rw [h]; simp)]
    · have hl : ¬ (m (Int.ofNat j)).length = 0 := by
        simpa [List.length_eq_zero] using h
      have hne : (!(m (Int.ofNat j)).isEmpty) = true := by
        cases hm : m (Int.ofNat j) with
        | nil => exact absurd hm h
        | cons a l => rfl
      rw [if_neg hl]
      simp only [List.filter_cons, hne, if_true, List.map_cons, buildRequest,
        List.append_assoc, List.singleton_append]

theorem handleFetchAssemble_eq (env : ReqEnv) (servers : List server) (m : ReqMap Encoded) :
    handleFetchAssemble env servers m
      = (requestsFor servers "/fetch" MethodPost ReqBody.keys m).map (buildRequest env) := by
  unfold handleFetchAssemble requestsFor nonEmptyBackends
  simpa using assemble_foldl env servers "/fetch" MethodPost ReqBody.keys m _ []

theorem handleQueryAssemble_eq (env : ReqEnv) (servers : List server) (m : ReqMap Encoded) :
    handleQueryAssemble env servers m
      = (requestsFor servers "/query" MethodPost ReqBody.keys m).map (buildRequest env) := by
  unfold handleQueryAssemble requestsFor nonEmptyBackends
  simpa using assemble_foldl env servers "/query" MethodPost ReqBody.keys m _ []

theorem handleSetAssemble_eq (env : ReqEnv) (servers : List server)
    (m : ReqMap clientSetReq) :
    handleSetAssemble env servers m
      = (requestsFor servers "/set" MethodPut ReqBody.pairs m).map (buildRequest env) := by
  unfold handleSetAssemble requestsFor nonEmptyBackends
  simpa using assemble_foldl env servers "/set" MethodPut ReqBody.pairs m _ []

theorem nonEmptyBackends_pairwise {α : Type} (n : Nat) (m : ReqMap α) :
    (nonEmptyBackends n m).Pairwise (· < ·) :=
  List.Pairwise.sublist (List.filter_sublist _) (List.pairwise_lt_range n)

theorem mem_nonEmptyBackends {α : Type} (n : Nat) (m : ReqMap α) (j : Nat) :
    j ∈ nonEmptyBackends n m ↔ j < n ∧ m (Int.ofNat j) ≠ [] := by
  simp [nonEmptyBackends]

theorem buildRequest_of_accepts {env : ReqEnv} {r : Request} (h : Accepts env r) :
    buildRequest env r = some r := by
  obtain ⟨h1, h2⟩ := h
  unfold buildRequest compositeServerReq
  cases hm : env.MarshalBody r.body with
  | none => exact absurd hm h1
  | some b => simp [h2]

theorem buildRequest_of_not_accepts {env : ReqEnv} {r : Request} (h : ¬ Accepts env r) :
    buildRequest env r = none := by
  unfold buildRequest compositeServerReq
  cases hm : env.MarshalBody r.body with
  | none => rfl
  | some b =>
    have h2 : ¬ env.NewRequestOk r.method r.endpoint = true := by
      intro hok
      exact h ⟨by rw [hm]; simp, hok⟩
    simp [h2]

theorem map_buildRequest_of_accepts {env : ReqEnv} (l : List Request)
    (h : ∀ r ∈ l, Accepts env r) : l.map (buildRequest env) = l.map some := by
  apply List.map_congr_left
  intro r hr
  exact buildRequest_of_accepts (h r hr)

theorem handleFetch_eq_send (env : ReqEnv) (servers : List server) (hn : 1 ≤ servers.length)
    (queryReqs : List clientFetQueReq) :
    handleFetch env servers queryReqs = some (Outcome.send
      ((requestsFor servers "/fetch" MethodPost ReqBody.keys
        (fun j => emptyMap j ++ groupOf servers.length id (queryReqs.map (·.Key)) j)).map
        (buildRequest env))
      Massage.massageFetch) := by
  simp [handleFetch, handleFetchPartition_eq _ hn, handleFetchAssemble_eq]

theorem handleQuery_eq_send (env : ReqEnv) (servers : List server) (hn : 1 ≤ servers.length)
    (queryReqs : List clientFetQueReq) :
    handleQuery env servers queryReqs = some (Outcome.send
      ((requestsFor servers "/query" MethodPost ReqBody.keys
        (fun j => emptyMap j ++ groupOf servers.length id (queryReqs.map (·.Key)) j)).map
        (buildRequest env))
      Massage.massageQuery) := by
  simp [handleQuery, handleQueryPartition_eq _ hn, handleQueryAssemble_eq]

theorem handleSet_eq_send (env : ReqEnv) (servers : List server) (hn : 1 ≤ servers.length)
    (setReqs : List clientSetReq) :
    handleSet env servers setReqs = some (Outcome.send
      ((requestsFor servers "/set" MethodPut ReqBody.pairs
        (fun j => emptyMap j ++ groupOf servers.length (·.Key) setReqs j)).map
        (buildRequest env))
      Massage.massageSet) := by
  simp [handleSet, handleSetPartition_eq _ hn, handleSetAssemble_eq]

/-- C3 (as amended): with at least one backend, `handleFetch`, `handleQuery`
and `handleSet` hand to the dispatcher a list with exactly one entry for each
backend index `j` in `[0, n)` whose group `m j` is non-empty and none for an
empty group, in strictly ascending backend index; the entry for `j` is what
`compositeServerReq` returns for the endpoint of `servers[j]` (path `/fetch`,
`/query`, `/set`) and group `j`: the request addressed to `servers[j]` and
carrying exactly group `j` when the body serializes and `http.NewRequest`
accepts the URL, and the nil pointer otherwise. When all are accepted the list
is exactly the expected requests. -/
theorem C3_one_entry_per_nonempty_group (env : ReqEnv) (servers : List server)
    (hn : 1 ≤ servers.length) (queryReqs : List clientFetQueReq)
    (setReqs : List clientSetReq) :
    (∃ m, handleFetchPartition servers.length queryReqs true emptyMap = some (true, m) ∧
        handleFetch env servers queryReqs = some (Outcome.send
          ((requestsFor servers "/fetch" MethodPost ReqBody.keys m).map (buildRequest env))
          Massage.massageFetch) ∧
        ((∀ r ∈ requestsFor servers "/fetch" MethodPost ReqBody.keys m, Accepts env r) →
          AllRequests (requestsFor servers "/fetch" MethodPost ReqBody.keys m)
            (handleFetch env servers queryReqs) Massage.massageFetch)) ∧
    (∃ m, handleQueryPartition servers.length queryReqs true emptyMap = some (true, m) ∧
        handleQuery env servers queryReqs = some (Outcome.send
          ((requestsFor servers "/query" MethodPost ReqBody.keys m).map (buildRequest env))
          Massage.massageQuery) ∧
        ((∀ r ∈ requestsFor servers "/query" MethodPost ReqBody.keys m, Accepts env r) →
          AllRequests (requestsFor servers "/query" MethodPost ReqBody.keys m)
            (handleQuery env servers queryReqs) Massage.massageQuery)) ∧
    (∃ m, handleSetPartition servers.length setReqs true emptyMap = some (true, m) ∧
        handleSet env servers setReqs = some (Outcome.send
          ((requestsFor servers "/set" MethodPut ReqBody.pairs m).map (buildRequest env))
          Massage.massageSet) ∧
        ((∀ r ∈ requestsFor servers "/set" MethodPut ReqBody.pairs m, Accepts env r) →
          AllRequests (requestsFor servers "/set" MethodPut ReqBody.pairs m)
            (handleSet env servers setReqs) Massage.massageSet)) ∧
    (∀ (α : Type) (m : ReqMap α),
        (nonEmptyBackends servers.length m).Pairwise (· < ·) ∧
        ∀ j : Nat, j ∈ nonEmptyBackends servers.length m ↔
          j < servers.length ∧ m (Int.ofNat j) ≠ []) ∧
    (∀ r : Request, (Accepts env r → buildRequest env r = some r) ∧
        (¬ Accepts env r → buildRequest env r = none)) := by
  refine ⟨⟨_, handleFetchPartition_eq _ hn queryReqs emptyMap,
      handleFetch_eq_send env servers hn queryReqs, fun h => ?_⟩,
    ⟨_, handleQueryPartition_eq _ hn queryReqs emptyMap,
      handleQuery_eq_send env servers hn queryReqs, fun h => ?_⟩,
    ⟨_, handleSetPartition_eq _ hn setReqs emptyMap,
      handleSet_eq_send env servers hn setReqs, fun h => ?_⟩,
    fun α m => ⟨nonEmptyBackends_pairwise _ m, mem_nonEmptyBackends _ m⟩,
    fun r => ⟨buildRequest_of_accepts, buildRequest_of_not_accepts⟩⟩
  · unfold AllRequests
    rw [handleFetch_eq_send env servers hn, map_buildRequest_of_accepts _ h]
  · unfold AllRequests
    rw [handleQuery_eq_send env servers hn, map_buildRequest_of_accepts _ h]
  · unfold AllRequests
    rw [handleSet_eq_send env servers hn, map_buildRequest_of_accepts _ h]

/-! ## Aggregation: closed forms of the three loops -/

theorem answered_cons (r : Response) (resps : List Response) :
    answered (r :: resps) = if 200 ≤ r.StatusCode then r :: answered resps else answered resps := by
  unfold answered
  by_cases h : 200 ≤ r.StatusCode
  · rw [if_pos h, List.filter_cons_of_pos (by simpa using h)]
  · rw [if_neg h, List.filter_cons_of_neg (by simpa using h)]

theorem mergedItems_nil {α : Type} (parse : Bytes → List α) : mergedItems parse [] = [] := rfl

theorem mergedItems_cons {α : Type} (parse : Bytes → List α) (r : Response)
    (resps : List Response) :
    mergedItems parse (r :: resps)
      = if 200 ≤ r.StatusCode then parse r.Body ++ mergedItems parse resps
        else mergedItems parse resps := by
  unfold mergedItems
  rw [answered_cons]
  split <;> simp

theorem merge_foldl {α : Type} (parse : Bytes → List α) (resps : List Response) :
    ∀ (final : List α) (code : Int),
      resps.foldl
        (fun (st : List α × Int) response =>
          if response.StatusCode ≥ success then
            if response.StatusCode = partialSuccess then
              (st.1 ++ parse response.Body, partialSuccess)
            else (st.1 ++ parse response.Body, st.2)
          else (st.1, partialSuccess))
        (final, code)
      = (final ++ mergedItems parse resps,
          if ∃ r ∈ resps, r.StatusCode < 200 ∨ r.StatusCode = 206 then 206 else code) := by
  induction resps with
  | nil => intro final code; simp [mergedItems_nil]
  | cons r resps ih =>
    intro final code
    rw [List.foldl_cons, mergedItems_cons]
    by_cases h1 : r.StatusCode ≥ success
    · have h1' : 200 ≤ r.StatusCode := h1
      have hlt : ¬ r.StatusCode < 200 := by omega
      by_cases h2 : r.StatusCode = partialSuccess
      · have h2' : r.StatusCode = 206 := h2
        rw [if_pos h1, if_pos h2, ih, if_pos h1']
        simp [h2', partialSuccess]
      · have h2' : ¬ r.StatusCode = 206 := h2
        rw [if_pos h1, if_neg h2, ih, if_pos h1']
        simp [h2', hlt]
    · have h1' : ¬ 200 ≤ r.StatusCode := h1
      have hlt : r.StatusCode < 200 := by omega
      rw [if_neg h1, ih, if_neg h1']
      simp [hlt, partialSuccess]

theorem massageFetchLoop_eq (json : Json) (resps : List Response) :
    massageFetchLoop json resps
      = (mergedItems json.UnmarshalFetch resps, policyStatus resps) := by
  have h := merge_foldl json.UnmarshalFetch resps [] success
  rw [List.nil_append] at h
  exact h

theorem massageQueryLoop_eq (json : Json) (resps : List Response) :
    massageQueryLoop json resps
      = (mergedItems json.UnmarshalQuery resps, policyStatus resps) := by
  have h := merge_foldl json.UnmarshalQuery resps [] success
  rw [List.nil_append] at h
  exact h

theorem toInt64_add_left (a b : Int) : toInt64 (toInt64 a + b) = toInt64 (a + b) := by
  unfold toInt64; omega

theorem toInt64_of_range (x : Int) (h0 : -9223372036854775808 ≤ x)
    (h1 : x < 9223372036854775808) : toInt64 x = x := by
  unfold toInt64; omega

theorem keysAddedSum_cons (parse : Bytes → serverSetResp) (r : Response)
    (resps : List Response) :
    keysAddedSum parse (r :: resps)
      = if 200 ≤ r.StatusCode then (parse r.Body).KeysAdded + keysAddedSum parse resps
        else keysAddedSum parse resps := by
  unfold keysAddedSum
  rw [answered_cons]
  split <;> simp

theorem set_foldl (json : Json) (resps : List Response) :
    ∀ (kf : List Encoded) (a code : Int),
      resps.foldl
        (fun (st : SetState) response =>
          if response.StatusCode ≥ success then
            { keysFailed := st.keysFailed ++ (json.UnmarshalSet response.Body).KeysFailed
              keysAdded := toInt64 (st.keysAdded + (json.UnmarshalSet response.Body).KeysAdded)
              code := st.code }
          else { keysFailed := st.keysFailed, keysAdded := st.keysAdded, code := partialSuccess })
        { keysFailed := kf, keysAdded := toInt64 a, code := code }
      = { keysFailed := kf ++ keysFailedAll json.UnmarshalSet resps
          keysAdded := toInt64 (a + keysAddedSum json.UnmarshalSet resps)
          code := if ∃ r ∈ resps, r.StatusCode < 200 then 206 else code } := by
  induction resps with
  | nil => intro kf a code; simp [keysFailedAll, mergedItems_nil, keysAddedSum, answered]
  | cons r resps ih =>
    intro kf a code
    rw [List.foldl_cons, keysFailedAll, mergedItems_cons, keysAddedSum_cons]
    by_cases h1 : r.StatusCode ≥ success
    · have h1' : 200 ≤ r.StatusCode := h1
      have hlt : ¬ r.StatusCode < 200 := by omega
      rw [if_pos h1, if_pos h1', if_pos h1', toInt64_add_left, ih]
      simp [hlt, keysFailedAll, Int.add_assoc]
    · have h1' : ¬ 200 ≤ r.StatusCode := h1
      have hlt : r.StatusCode < 200 := by omega
      rw [if_neg h1, if_neg h1', if_neg h1', ih]
      simp [hlt, keysFailedAll, partialSuccess]

theorem massageSetLoop_eq (json : Json) (resps : List Response) :
    massageSetLoop json resps
      = { keysFailed := keysFailedAll json.UnmarshalSet resps
          keysAdded := toInt64 (keysAddedSum json.UnmarshalSet resps)
          code := if ∃ r ∈ resps, r.StatusCode < 200 then 206 else 200 } := by
  have h := set_foldl json resps [] 0 success
  rw [List.nil_append, Int.zero_add] at h
  exact h

theorem massageFetch_fst (json : Json) (resps : List Response) :
    (massageFetch json resps).1 = json.MarshalFetch (massageFetchLoop json resps).1 := by
  simp only [massageFetch]
  split <;> rename_i hm <;> simp [hm]

theorem massageQuery_fst (json : Json) (resps : List Response) :
    (massageQuery json resps).1 = json.MarshalQuery (massageQueryLoop json resps).1 := by
  simp only [massageQuery]
  split <;> rename_i hm <;> simp [hm]

theorem massageSet_fst (json : Json) (resps : List Response) :
    (massageSet json resps).1 = json.MarshalSet (massageSetFinal json resps).1 := by
  simp only [massageSet]
  split <;> rename_i hm <;> simp [hm]

theorem massageFetch_snd (json : Json) (resps : List Response)
    (h : (massageFetch json resps).1 ≠ none) :
    (massageFetch json resps).2 = (massageFetchLoop json resps).2 := by
  simp only [massageFetch] at h ⊢
  split at h <;> rename_i hm
  · exact absurd rfl h
  · simp [hm]

theorem massageQuery_snd (json : Json) (resps : List Response)
    (h : (massageQuery json resps).1 ≠ none) :
    (massageQuery json resps).2 = (massageQueryLoop json resps).2 := by
  simp only [massageQuery] at h ⊢
  split at h <;> rename_i hm
  · exact absurd rfl h
  · simp [hm]

theorem massageSet_snd (json : Json) (resps : List Response)
    (h : (massageSet json resps).1 ≠ none) :
    (massageSet json resps).2 = (massageSetFinal json resps).2 := by
  simp only [massageSet] at h ⊢
  split at h <;> rename_i hm
  · exact absurd rfl h
  · simp [hm]

/-- C4: whenever the merged body serializes, the status returned by
`massageFetch` and by `massageQuery` is 206 if some response has a status
below 200 or a status equal to 206, and 200 otherwise (so a response with
status `>= 200` other than 206 leaves the aggregate status unchanged); the
status variable of the loop has this value on every input. -/
theorem C4_fetch_query_status_policy (json : Json) (resps : List Response) :
    (massageFetchLoop json resps).2 = policyStatus resps ∧
    (massageQueryLoop json resps).2 = policyStatus resps ∧
    ((massageFetch json resps).1 ≠ none → (massageFetch json resps).2 = policyStatus resps) ∧
    ((massageQuery json resps).1 ≠ none → (massageQuery json resps).2 = policyStatus resps) := by
  refine ⟨by rw [massageFetchLoop_eq], by rw [massageQueryLoop_eq], fun h => ?_, fun h => ?_⟩
  · rw [massageFetch_snd json resps h, massageFetchLoop_eq]
  · rw [massageQuery_snd json resps h, massageQueryLoop_eq]

/-- C5: the body returned by `massageFetch` (respectively `massageQuery`) is
the serialization of the concatenation, in list order, of the parsed item
lists of exactly the responses with status `>= 200`; a response with status
below 200 contributes nothing, and for no responses the merged list is empty. -/
theorem C5_fetch_query_body_is_concatenation (json : Json) (resps : List Response) :
    (massageFetch json resps).1 = json.MarshalFetch (mergedItems json.UnmarshalFetch resps) ∧
    (massageQuery json resps).1 = json.MarshalQuery (mergedItems json.UnmarshalQuery resps) ∧
    (massageFetch json []).1 = json.MarshalFetch [] ∧
    (massageQuery json []).1 = json.MarshalQuery [] := by
  refine ⟨?_, ?_, ?_, ?_⟩
  · rw [massageFetch_fst, massageFetchLoop_eq]
  · rw [massageQuery_fst, massageQueryLoop_eq]
  · rw [massageFetch_fst, massageFetchLoop_eq]; rfl
  · rw [massageQuery_fst, massageQueryLoop_eq]; rfl

theorem massageSetFinal_eq (json : Json) (resps : List Response) :
    massageSetFinal json resps
      = ({ KeysAdded := toInt64 (keysAddedSum json.UnmarshalSet resps)
           KeysFailed := keysFailedAll json.UnmarshalSet resps },
         if (keysFailedAll json.UnmarshalSet resps).length > 0 then 206
         else if ∃ r ∈ resps, r.StatusCode < 200 then 206 else 200) := by
  simp only [massageSetFinal, massageSetLoop_eq, partialSuccess]

theorem policyStatus_cases (resps : List Response) :
    policyStatus resps = 200 ∨ policyStatus resps = 206 := by
  unfold policyStatus
  split
  · exact Or.inr rfl
  · exact Or.inl rfl

theorem massageSetFinal_status_cases (json : Json) (resps : List Response) :
    (massageSetFinal json resps).2 = 200 ∨ (massageSetFinal json resps).2 = 206 := by
  rw [massageSetFinal_eq]
  simp only []
  split
  · exact Or.inr rfl
  · split
    · exact Or.inr rfl
    · exact Or.inl rfl

theorem statusContract_of_match (marshalled : Option Bytes) (code : Int)
    (hc : code = 200 ∨ code = 206) :
    StatusContract marshalled
      (match marshalled with
       | none => (none, serverError)
       | some body => (some body, code)) := by
  cases marshalled with
  | none => exact ⟨fun h => absurd rfl h, fun _ => rfl, fun _ => rfl⟩
  | some b =>
    refine ⟨fun _ => ⟨rfl, hc⟩, fun h => by simp at h, fun h => ?_⟩
    simp only [] at h
    rcases hc with hc | hc <;> rw [hc] at h <;> simp at h

/-! ## Aggregation of `set` responses -/

/-- C6 (as amended): the body produced by `massageSet` is the serialization
of `keysAdded` and `keysFailed`, where `keysFailed` is the concatenation, in
list order, of the `keys_failed` lists of the responses with status `>= 200`
and `keysAdded` is the sum of their `keys_added` counts in `int` arithmetic,
that is the sum wrapped to 64 bits; it is the exact sum whenever that sum fits
in an `int`. Responses with status below 200 contribute to neither field. -/
theorem C6_set_body_sum_and_concat (json : Json) (resps : List Response) :
    (massageSet json resps).1 = json.MarshalSet
      { KeysAdded := toInt64 (keysAddedSum json.UnmarshalSet resps)
        KeysFailed := keysFailedAll json.UnmarshalSet resps } ∧
    (-9223372036854775808 ≤ keysAddedSum json.UnmarshalSet resps →
      keysAddedSum json.UnmarshalSet resps < 9223372036854775808 →
      SetBodyHasExactSum json resps) := by
  have h : (massageSet json resps).1 = json.MarshalSet
      { KeysAdded := toInt64 (keysAddedSum json.UnmarshalSet resps)
        KeysFailed := keysFailedAll json.UnmarshalSet resps } := by
    rw [massageSet_fst, massageSetFinal_eq]
  refine ⟨h, fun h0 h1 => ?_⟩
  unfold SetBodyHasExactSum
  rw [h, toInt64_of_range _ h0 h1]

/-- C7: whenever the merged body serializes, `massageSet` returns 206 if the
merged `keysFailed` list is non-empty (whatever the individual statuses, so
also when all are 200), and returns 200 if every response has status 200 and
reports no failed keys. -/
theorem C7_set_status_from_failed_keys (json : Json) (resps : List Response)
    (hok : (massageSet json resps).1 ≠ none) :
    (keysFailedAll json.UnmarshalSet resps ≠ [] → (massageSet json resps).2 = 206) ∧
    ((∀ r ∈ resps, r.StatusCode = 200 ∧ (json.UnmarshalSet r.Body).KeysFailed = []) →
      (massageSet json resps).2 = 200) := by
  rw [massageSet_snd json resps hok, massageSetFinal_eq]
  refine ⟨fun h => ?_, fun h => ?_⟩
  · have hl : (keysFailedAll json.UnmarshalSet resps).length > 0 :=
      List.length_pos.mpr h
    simp only [if_pos hl]
  · have hkf : keysFailedAll json.UnmarshalSet resps = [] := by
      unfold keysFailedAll mergedItems
      rw [List.flatMap_eq_nil_iff]
      intro r hr
      exact (h r (List.mem_of_mem_filter hr)).2
    have hs : ¬ ∃ r ∈ resps, r.StatusCode < 200 := by
      rintro ⟨r, hr, hlt⟩
      have := (h r hr).1
      omega
    simp only [hkf, List.length_nil, gt_iff_lt, Nat.lt_irrefl, if_false, hs]

/-- C9: for every list of responses, whatever their status codes, each of
`massageFetch`, `massageQuery` and `massageSet` returns the serialized merged
body with status 200 or 206 when `json.Marshal` succeeds, and the nil body
with status 500 when it fails; status 500 is returned on no other path. -/
theorem C9_server_error_only_on_marshal_failure (json : Json) (resps : List Response) :
    StatusContract (json.MarshalFetch (massageFetchLoop json resps).1)
      (massageFetch json resps) ∧
    StatusContract (json.MarshalQuery (massageQueryLoop json resps).1)
      (massageQuery json resps) ∧
    StatusContract (json.MarshalSet (massageSetFinal json resps).1)
      (massageSet json resps) := by
  refine ⟨?_, ?_, ?_⟩
  · exact statusContract_of_match _ _
      (by rw [massageFetchLoop_eq]; exact policyStatus_cases resps)
  · exact statusContract_of_match _ _
      (by rw [massageQueryLoop_eq]; exact policyStatus_cases resps)
  · exact statusContract_of_match _ _ (massageSetFinal_status_cases json resps)

/-! ## Aggregation and the order of the responses -/

theorem answered_perm {resps resps' : List Response} (h : resps.Perm resps') :
    (answered resps).Perm (answered resps') :=
  List.Perm.filter _ h

theorem mergedItems_perm {α : Type} (parse : Bytes → List α) {resps resps' : List Response}
    (h : resps.Perm resps') :
    (mergedItems parse resps).Perm (mergedItems parse resps') :=
  List.Perm.flatMap_right _ (answered_perm h)

theorem keysAddedSum_perm (parse : Bytes → serverSetResp) {resps resps' : List Response}
    (h : resps.Perm resps') : keysAddedSum parse resps = keysAddedSum parse resps' :=
  List.Perm.sum_eq (List.Perm.map _ (answered_perm h))

theorem policyStatus_perm {resps resps' : List Response} (h : resps.Perm resps') :
    policyStatus resps = policyStatus resps' := by
  unfold policyStatus
  have e : (∃ r ∈ resps, r.StatusCode < 200 ∨ r.StatusCode = 206)
      ↔ (∃ r ∈ resps', r.StatusCode < 200 ∨ r.StatusCode = 206) :=
    ⟨fun ⟨r, hr, hb⟩ => ⟨r, h.mem_iff.mp hr, hb⟩, fun ⟨r, hr, hb⟩ => ⟨r, h.mem_iff.mpr hr, hb⟩⟩
  simp only [e]

theorem massageSetFinal_status_perm (json : Json) {resps resps' : List Response}
    (h : resps.Perm resps') :
    (massageSetFinal json resps).2 = (massageSetFinal json resps').2 := by
  rw [massageSetFinal_eq, massageSetFinal_eq]
  have e1 : (keysFailedAll json.UnmarshalSet resps).length
      = (keysFailedAll json.UnmarshalSet resps').length :=
    (mergedItems_perm _ h).length_eq
  have e2 : (∃ r ∈ resps, r.StatusCode < 200) ↔ (∃ r ∈ resps', r.StatusCode < 200) :=
    ⟨fun ⟨r, hr, hb⟩ => ⟨r, h.mem_iff.mp hr, hb⟩, fun ⟨r, hr, hb⟩ => ⟨r, h.mem_iff.mpr hr, hb⟩⟩
  simp only [e1, e2]

/-- C10 (as amended): for every list of backend responses and every
permutation of it, each aggregator reaches the same status on both lists (and
returns it whenever both merged bodies serialize), `massageSet` the same
`keysAdded`, and the merged item list (fetch and query items, set
`keysFailed`) of the permuted list is a permutation of that of the original
list; the order of the items in the body follows the order of the responses. -/
theorem C10_aggregation_up_to_item_order (json : Json) (resps resps' : List Response)
    (h : resps.Perm resps') :
    ((massageFetchLoop json resps).2 = (massageFetchLoop json resps').2 ∧
      (massageFetchLoop json resps).1.Perm (massageFetchLoop json resps').1 ∧
      ((massageFetch json resps).1 ≠ none → (massageFetch json resps').1 ≠ none →
        (massageFetch json resps).2 = (massageFetch json resps').2)) ∧
    ((massageQueryLoop json resps).2 = (massageQueryLoop json resps').2 ∧
      (massageQueryLoop json resps).1.Perm (massageQueryLoop json resps').1 ∧
      ((massageQuery json resps).1 ≠ none → (massageQuery json resps').1 ≠ none →
        (massageQuery json resps).2 = (massageQuery json resps').2)) ∧
    ((massageSetFinal json resps).2 = (massageSetFinal json resps').2 ∧
      (massageSetFinal json resps).1.KeysAdded = (massageSetFinal json resps').1.KeysAdded ∧
      (massageSetFinal json resps).1.KeysFailed.Perm (massageSetFinal json resps').1.KeysFailed ∧
      ((massageSet json resps).1 ≠ none → (massageSet json resps').1 ≠ none →
        (massageSet json resps).2 = (massageSet json resps').2)) := by
  refine ⟨⟨?_, ?_, fun h1 h2 => ?_⟩, ⟨?_, ?_, fun h1 h2 => ?_⟩, ⟨?_, ?_, ?_, fun h1 h2 => ?_⟩⟩
  · rw [massageFetchLoop_eq, massageFetchLoop_eq]; exact policyStatus_perm h
  · rw [massageFetchLoop_eq, massageFetchLoop_eq]; exact mergedItems_perm _ h
  · rw [massageFetch_snd _ _ h1, massageFetch_snd _ _ h2, massageFetchLoop_eq,
      massageFetchLoop_eq]
    exact policyStatus_perm h
  · rw [massageQueryLoop_eq, massageQueryLoop_eq]; exact policyStatus_perm h
  · rw [massageQueryLoop_eq, massageQueryLoop_eq]; exact mergedItems_perm _ h
  · rw [massageQuery_snd _ _ h1, massageQuery_snd _ _ h2, massageQueryLoop_eq,
      massageQueryLoop_eq]
    exact policyStatus_perm h
  · exact massageSetFinal_status_perm json h
  · rw [massageSetFinal_eq, massageSetFinal_eq, keysAddedSum_perm _ h]
  · rw [massageSetFinal_eq, massageSetFinal_eq]
    exact mergedItems_perm (fun b => (json.UnmarshalSet b).KeysFailed) h
  · rw [massageSet_snd _ _ h1, massageSet_snd _ _ h2]
    exact massageSetFinal_status_perm json h

/-! ## Partitioning and aggregation at concrete inputs -/

theorem C2_witness :
    1 ≤ sampleServers.length ∧
    ((∃ m, handleFetchPartition sampleServers.length sampleKeys true emptyMap = some (true, m) ∧
        RoutesEachOnce sampleServers.length id (sampleKeys.map (·.Key)) m) ∧
    (∃ m, handleQueryPartition sampleServers.length sampleKeys true emptyMap = some (true, m) ∧
        RoutesEachOnce sampleServers.length id (sampleKeys.map (·.Key)) m) ∧
    (∃ m, handleSetPartition sampleServers.length samplePairs true emptyMap = some (true, m) ∧
        RoutesEachOnce sampleServers.length (·.Key) samplePairs m)) :=
  ⟨by decide, C2_partition_routes_each_item_once sampleServers (by decide) sampleKeys samplePairs⟩

/-- C3, counterexample: for the backend list `[h:-1]`, which `loadServers`
accepts from the command line, and a fetch request with one key, the list
handed to the dispatcher has one entry for backend 0, and it is the nil
pointer, not a request addressed to `servers[0]`: `http.NewRequest` rejects the
URL `http://h:-1/fetch`. -/
theorem C3_counterexample :
    loadServers sampleUnmarshalServers ["h:-1"] none = Startup.loaded serversNegativePort ∧
    serverEndpoint { IP := "h", Port := -1 } "/fetch" = "http://h:-1/fetch" ∧
    sampleReqEnv.NewRequestOk "POST" "http://h:-1/fetch" = false ∧
    handleFetch sampleReqEnv serversNegativePort [{ Key := keyA }]
      = some (Outcome.send [none] Massage.massageFetch) ∧
    ¬ AllRequests
        [{ method := "POST", endpoint := "http://h:-1/fetch", body := ReqBody.keys [keyA] }]
        (handleFetch sampleReqEnv serversNegativePort [{ Key := keyA }])
        Massage.massageFetch := by
  refine ⟨by decide, by decide, by decide, by decide, ?_⟩
  unfold AllRequests
  decide

theorem C3_witness :
    1 ≤ sampleServers.length ∧
    handleFetch sampleReqEnv sampleServers sampleKeys = some (Outcome.send
      [some { method := "POST", endpoint := "http://10.0.0.1:9000/fetch",
              body := ReqBody.keys [keyA, keyC] },
       some { method := "POST", endpoint := "http://10.0.0.2:9001/fetch",
              body := ReqBody.keys [keyB, keyBin] }] Massage.massageFetch) ∧
    (∀ r ∈ requestsFor sampleServers "/fetch" MethodPost ReqBody.keys
        (fun j => emptyMap j ++ groupOf 2 id (sampleKeys.map (·.Key)) j),
      Accepts sampleReqEnv r) ∧
    AllRequests
      [{ method := "POST", endpoint := "http://10.0.0.1:9000/fetch",
         body := ReqBody.keys [keyA, keyC] },
       { method := "POST", endpoint := "http://10.0.0.2:9001/fetch",
         body := ReqBody.keys [keyB, keyBin] }]
      (handleFetch sampleReqEnv sampleServers sampleKeys) Massage.massageFetch := by
  obtain ⟨m, hm, hf, hall⟩ :=
    (C3_one_entry_per_nonempty_group sampleReqEnv sampleServers (by decide) sampleKeys
      samplePairs).1
  have e : m = (fun j => emptyMap j ++ groupOf 2 id (sampleKeys.map (·.Key)) j) := by
    have := handleFetchPartition_eq sampleServers.length (by decide) sampleKeys emptyMap
    rw [hm] at this
    simpa using this
  subst e
  have e2 : requestsFor sampleServers "/fetch" MethodPost ReqBody.keys
      (fun j => emptyMap j ++ groupOf 2 id (sampleKeys.map (·.Key)) j)
      = [{ method := "POST", endpoint := "http://10.0.0.1:9000/fetch",
           body := ReqBody.keys [keyA, keyC] },
         { method := "POST", endpoint := "http://10.0.0.2:9001/fetch",
           body := ReqBody.keys [keyB, keyBin] }] := by
    decide
  have hacc : ∀ r ∈ requestsFor sampleServers "/fetch" MethodPost ReqBody.keys
      (fun j => emptyMap j ++ groupOf 2 id (sampleKeys.map (·.Key)) j),
      Accepts sampleReqEnv r := by
    rw [e2]
    intro r hr
    rcases List.mem_cons.mp hr with rfl | hr
    · exact ⟨by decide, by decide⟩
    · rw [List.mem_singleton.mp hr]; exact ⟨by decide, by decide⟩
  have h := hall hacc
  rw [e2] at h
  exact ⟨by decide, by rw [hf]; decide, hacc, h⟩

theorem C4_witness :
    (massageFetch sampleJson [respFetchA, respDown]).1 ≠ none ∧
    (massageFetch sampleJson [respFetchA, respDown]).2 = 206 ∧
    (massageQuery sampleJson [respQueryA, respQueryB]).2 = 206 ∧
    (massageFetch sampleJson [respFetchA, respFetchB]).2 = 200 := by
  refine ⟨by decide, ?_, ?_, ?_⟩
  · rw [(C4_fetch_query_status_policy sampleJson [respFetchA, respDown]).2.2.1 (by decide)]
    decide
  · rw [(C4_fetch_query_status_policy sampleJson [respQueryA, respQueryB]).2.2.2 (by decide)]
    decide
  · rw [(C4_fetch_query_status_policy sampleJson [respFetchA, respFetchB]).2.2.1 (by decide)]
    decide

/-- C6, counterexample: for two responses with status 200 reporting
`keys_added` 9223372036854775807 and 1 the body of `massageSet` carries
`keys_added` -9223372036854775808, not the sum 9223372036854775808. -/
theorem C6_counterexample :
    ¬ SetBodyHasExactSum sampleJson [respSetMax, respSetOne] ∧
    keysAddedSum sampleJson.UnmarshalSet [respSetMax, respSetOne] = 9223372036854775808 ∧
    (massageSet sampleJson [respSetMax, respSetOne]).1 = sampleJson.MarshalSet
      { KeysAdded := -9223372036854775808, KeysFailed := [] } := by
  refine ⟨?_, by decide, by decide⟩
  unfold SetBodyHasExactSum
  decide

theorem C6_witness :
    (-9223372036854775808 ≤ keysAddedSum sampleJson.UnmarshalSet [respSetOne, respSetFailedC] ∧
      keysAddedSum sampleJson.UnmarshalSet [respSetOne, respSetFailedC] < 9223372036854775808) ∧
    SetBodyHasExactSum sampleJson [respSetOne, respSetFailedC] :=
  ⟨by decide,
    (C6_set_body_sum_and_concat sampleJson [respSetOne, respSetFailedC]).2
      (by decide) (by decide)⟩

theorem C7_witness :
    (massageSet sampleJson [respSetOne, respSetFailedC]).1 ≠ none ∧
    keysFailedAll sampleJson.UnmarshalSet [respSetOne, respSetFailedC] ≠ [] ∧
    (massageSet sampleJson [respSetOne, respSetFailedC]).2 = 206 :=
  ⟨by decide, by decide,
    (C7_set_status_from_failed_keys sampleJson [respSetOne, respSetFailedC] (by decide)).1
      (by decide)⟩

/-- C8, the code at the failing input: for a single `set` response with
status 206 and an empty `keys_failed` list `massageSet` returns status 200,
where `massageFetch` and `massageQuery` return 206 for a response with status
206. -/
theorem C8_massageSet_keeps_200_on_partial_response :
    (sampleJson.UnmarshalSet respSetPartialNoFailed.Body).KeysFailed = [] ∧
    respSetPartialNoFailed.StatusCode = 206 ∧
    (massageSet sampleJson [respSetPartialNoFailed]).2 = 200 ∧
    (massageFetch sampleJson [respOf 206 (jsonArray [jsonFetchResp fetchA])]).2 = 206 ∧
    (massageQuery sampleJson [respQueryB]).2 = 206 := by
  decide

/-- C10, counterexample: two `fetch` responses with status 200 carrying one
item each; swapping them changes the body `massageFetch` returns, so the
aggregate result is not the same on a permuted list. -/
theorem C10_counterexample :
    [respFetchA, respFetchB].Perm [respFetchB, respFetchA] ∧
    massageFetch sampleJson [respFetchA, respFetchB]
      ≠ massageFetch sampleJson [respFetchB, respFetchA] ∧
    (massageFetchLoop sampleJson [respFetchA, respFetchB]).1 = [fetchA, fetchB] ∧
    (massageFetchLoop sampleJson [respFetchB, respFetchA]).1 = [fetchB, fetchA] :=
  ⟨List.Perm.swap _ _ _, by decide, by decide, by decide⟩

theorem C10_witness :
    [respFetchA, respFetchB].Perm [respFetchB, respFetchA] ∧
    (massageFetchLoop sampleJson [respFetchA, respFetchB]).2
      = (massageFetchLoop sampleJson [respFetchB, respFetchA]).2 ∧
    (massageFetchLoop sampleJson [respFetchA, respFetchB]).1.Perm
      (massageFetchLoop sampleJson [respFetchB, respFetchA]).1 :=
  ⟨List.Perm.swap _ _ _,
    (C10_aggregation_up_to_item_order sampleJson _ _ (List.Perm.swap _ _ _)).1.1,
    (C10_aggregation_up_to_item_order sampleJson _ _ (List.Perm.swap _ _ _)).1.2.1⟩

/-! ## Dispatch on method and path -/

/-- C11: `handler` calls `handleFetchAll` iff the request is `GET /fetch`,
`handleFetch` iff `POST /fetch`, `handleQuery` iff `POST /query`, `handleSet`
iff `PUT /set`; for every other (method, path) pair it calls `handleError`
with `{code: 405, message: "Request not found."}`, which builds no backend
request and replies with code 405 and the encoded error body. -/
theorem C11_handler_dispatch (method endpoint : String) :
    (handler method endpoint = Call.handleFetchAll ↔ (method, endpoint) = ("GET", "/fetch")) ∧
    (handler method endpoint = Call.handleFetch ↔ (method, endpoint) = ("POST", "/fetch")) ∧
    (handler method endpoint = Call.handleQuery ↔ (method, endpoint) = ("POST", "/query")) ∧
    (handler method endpoint = Call.handleSet ↔ (method, endpoint) = ("PUT", "/set")) ∧
    ((method, endpoint) ∉ knownRoutes →
      handler method endpoint
        = Call.handleError { Code := 405, Message := "Request not found." } ∧
      ∀ (env : ReqEnv) (rj : RouterJson) (servers : List server) (body : Bytes),
        handlerOutcome env rj servers method endpoint body
          = some (Outcome.error { Code := 405, Message := "Request not found." }) ∧
        (Outcome.error { Code := 405, Message := "Request not found." }).requests = [] ∧
        ∀ js, rj.MarshalError { Code := 405, Message := "Request not found." } = Except.ok js →
          handleError rj { Code := 405, Message := "Request not found." }
            = { code := 405, body := some js }) := by
  simp only [knownRoutes, List.mem_cons, List.mem_singleton, List.not_mem_nil, or_false,
    Prod.mk.injEq, not_or]
  unfold handlerOutcome handler MethodGet MethodPost MethodPut
  by_cases h1 : method = "GET" ∧ endpoint = "/fetch"
  · obtain ⟨rfl, rfl⟩ := h1
    simp
  by_cases h2 : method = "POST" ∧ endpoint = "/fetch"
  · obtain ⟨rfl, rfl⟩ := h2
    simp
  by_cases h3 : method = "POST" ∧ endpoint = "/query"
  · obtain ⟨rfl, rfl⟩ := h3
    simp
  by_cases h4 : method = "PUT" ∧ endpoint = "/set"
  · obtain ⟨rfl, rfl⟩ := h4
    simp
  simp only [h1, h2, h3, h4, if_false]
  refine ⟨by simp, by simp, by simp, by simp, fun _ => ⟨by simp [clientError], ?_⟩⟩
  intro env rj servers body
  refine ⟨by simp [clientError], rfl, fun js hjs => ?_⟩
  simp [handleError, hjs]

/-! ## Key decoding -/

theorem encChar_eq_stdAlphabet (v : Nat) : encChar v = stdAlphabet (v % 64) := by
  have h : ∀ i : Fin 64, encodeStd.getD i.val 'A' = stdAlphabet i.val := by decide
  exact h ⟨v % 64, Nat.mod_lt _ (by norm_num)⟩

theorem byte_lt_256 (a : UInt8) : a.toNat < 256 := a.val.isLt

theorem pack3 (a b c : Nat) (hb : b < 256) (hc : c < 256) :
    a <<< 16 ||| b <<< 8 ||| c = a * 65536 + b * 256 + c := by
  have hb8 : b <<< 8 = b * 256 := by rw [Nat.shiftLeft_eq]
  have ha16 : a <<< 16 = 2 ^ 16 * a := by rw [Nat.shiftLeft_eq, Nat.mul_comm]
  have h1 : a <<< 16 ||| b <<< 8 = 2 ^ 8 * (a * 256 + b) := by
    rw [ha16, hb8, ← Nat.mul_add_lt_is_or (by omega : b * 256 < 2 ^ 16) a]
    omega
  rw [h1, ← Nat.mul_add_lt_is_or (by omega : c < 2 ^ 8) (a * 256 + b)]
  omega

theorem pack2 (a b : Nat) (hb : b < 256) : a <<< 16 ||| b <<< 8 = a * 65536 + b * 256 := by
  have := pack3 a b 0 hb (by norm_num)
  simpa using this

theorem sextets (a b c : Nat) (ha : a < 256) (hb : b < 256) (hc : c < 256) :
    (a * 65536 + b * 256 + c) / 262144 % 64 = a / 4 ∧
    (a * 65536 + b * 256 + c) / 4096 % 64 = a % 4 * 16 + b / 16 ∧
    (a * 65536 + b * 256 + c) / 64 % 64 = b % 16 * 4 + c / 64 ∧
    (a * 65536 + b * 256 + c) % 64 = c % 64 := by
  refine ⟨?_, ?_, ?_, ?_⟩ <;> omega

set_option maxRecDepth 512 in
theorem base64Encode_eq_std (bs : Bytes) : base64Encode bs = base64Std bs := by
  induction bs using base64Encode.induct with
  | case1 => rfl
  | case2 a =>
    have ha := byte_lt_256 a
    have h0 : a.toNat * 65536 / 262144 % 64 = a.toNat / 4 := by omega
    have h1 : a.toNat * 65536 / 4096 % 64 = a.toNat % 4 * 16 := by omega
    rw [base64Encode, base64Std]
    simp only [encChar_eq_stdAlphabet, Nat.shiftLeft_eq, Nat.shiftRight_eq_div_pow,
      Nat.reducePow]
    rw [h0, h1]
  | case3 a b =>
    have ha := byte_lt_256 a
    have hb := byte_lt_256 b
    have h0 : (a.toNat * 65536 + b.toNat * 256) / 262144 % 64 = a.toNat / 4 := by omega
    have h1 : (a.toNat * 65536 + b.toNat * 256) / 4096 % 64
        = a.toNat % 4 * 16 + b.toNat / 16 := by omega
    have h2 : (a.toNat * 65536 + b.toNat * 256) / 64 % 64 = b.toNat % 16 * 4 := by omega
    rw [base64Encode, base64Std]
    simp only [encChar_eq_stdAlphabet, pack2 _ _ (byte_lt_256 b), Nat.shiftRight_eq_div_pow,
      Nat.reducePow]
    rw [h0, h1, h2]
  | case4 a b c rest ih =>
    obtain ⟨h0, h1, h2, h3⟩ :=
      sextets a.toNat b.toNat c.toNat (byte_lt_256 a) (byte_lt_256 b) (byte_lt_256 c)
    rw [base64Encode, base64Std, ih]
    simp only [encChar_eq_stdAlphabet, pack3 _ _ _ (byte_lt_256 b) (byte_lt_256 c),
      Nat.shiftRight_eq_div_pow, Nat.reducePow]
    rw [h0, h1, h2, h3]

theorem binToStr_eq_std (s : String) :
    binToStr s = (String.mk (base64Std (stringBytes s)), true) := by
  simp only [binToStr, EncodeToString, base64Encode_eq_std]

/-- C12: key decoding never fails. `binToStr` returns, for every input, the
padded standard-alphabet base64 encoding (RFC 4648) of the data bytes together
with `true` (bytes `[0, 1, 2]` give `"AAEC"`); in each of the three handlers a
key with encoding `"binary"` is routed by that string and a key with any other
encoding by its raw data string unchanged, and in both cases the key is
accepted (`isValid` stays true and the key is put into the request map). -/
theorem C12_key_decoding_total (s : String) (key val : Encoded) (n : Nat) :
    binToStr s = (String.mk (base64Std (stringBytes s)), true) ∧
    binToStr "\x00\x01\x02" = ("AAEC", true) ∧
    (key.Encoding = "binary" →
      (∀ m, handleFetchPartition n [{ Key := key }] true m
        = (serverIdx (String.mk (base64Std (stringBytes key.Data))) n).map
            (fun idx => (true, mapAppend m idx key))) ∧
      (∀ m, handleQueryPartition n [{ Key := key }] true m
        = (serverIdx (String.mk (base64Std (stringBytes key.Data))) n).map
            (fun idx => (true, mapAppend m idx key))) ∧
      (∀ m, handleSetPartition n [{ Key := key, Value := val }] true m
        = (serverIdx (String.mk (base64Std (stringBytes key.Data))) n).map
            (fun idx => (true, mapAppend m idx { Key := key, Value := val })))) ∧
    (key.Encoding ≠ "binary" →
      (∀ m, handleFetchPartition n [{ Key := key }] true m
        = (serverIdx key.Data n).map (fun idx => (true, mapAppend m idx key))) ∧
      (∀ m, handleQueryPartition n [{ Key := key }] true m
        = (serverIdx key.Data n).map (fun idx => (true, mapAppend m idx key))) ∧
      (∀ m, handleSetPartition n [{ Key := key, Value := val }] true m
        = (serverIdx key.Data n).map
            (fun idx => (true, mapAppend m idx { Key := key, Value := val })))) := by
  refine ⟨binToStr_eq_std s, by decide, fun hb => ?_, fun hb => ?_⟩
  · refine ⟨fun m => ?_, fun m => ?_, fun m => ?_⟩
    · simp only [handleFetchPartition, if_pos hb, binToStr_eq_std]
      cases serverIdx (String.mk (base64Std (stringBytes key.Data))) n <;> rfl
    · simp only [handleQueryPartition, if_pos hb, binToStr_eq_std]
      cases serverIdx (String.mk (base64Std (stringBytes key.Data))) n <;> rfl
    · simp only [handleSetPartition, if_pos hb, binToStr_eq_std]
      cases serverIdx (String.mk (base64Std (stringBytes key.Data))) n <;> rfl
  · refine ⟨fun m => ?_, fun m => ?_, fun m => ?_⟩
    · simp only [handleFetchPartition, if_neg hb]
      cases serverIdx key.Data n <;> rfl
    · simp only [handleQueryPartition, if_neg hb]
      cases serverIdx key.Data n <;> rfl
    · simp only [handleSetPartition, if_neg hb]
      cases serverIdx key.Data n <;> rfl

theorem handleFetchPartition_valid (n : Nat) (queryReqs : List clientFetQueReq) :
    ∀ m r, handleFetchPartition n queryReqs true m = some r → r.1 = true := by
  induction queryReqs with
  | nil => intro m r h; simp only [handleFetchPartition, Option.some.injEq] at h; rw [← h]
  | cons q rest ih =>
    intro m r h
    simp only [handleFetchPartition, decode_eq, Bool.not_true, Bool.false_eq_true,
      if_false] at h
    cases hs : serverIdx (canonicalString q.Key) n with
    | none => rw [hs] at h; simp at h
    | some idx => rw [hs] at h; exact ih _ r h

theorem handleQueryPartition_valid (n : Nat) (queryReqs : List clientFetQueReq) :
    ∀ m r, handleQueryPartition n queryReqs true m = some r → r.1 = true := by
  induction queryReqs with
  | nil => intro m r h; simp only [handleQueryPartition, Option.some.injEq] at h; rw [← h]
  | cons q rest ih =>
    intro m r h
    simp only [handleQueryPartition, decode_eq, Bool.not_true, Bool.false_eq_true,
      if_false] at h
    cases hs : serverIdx (canonicalString q.Key) n with
    | none => rw [hs] at h; simp at h
    | some idx => rw [hs] at h; exact ih _ r h

theorem handleSetPartition_valid (n : Nat) (setReqs : List clientSetReq) :
    ∀ m r, handleSetPartition n setReqs true m = some r → r.1 = true := by
  induction setReqs with
  | nil => intro m r h; simp only [handleSetPartition, Option.some.injEq] at h; rw [← h]
  | cons q rest ih =>
    intro m r h
    simp only [handleSetPartition, decode_eq, Bool.not_true, Bool.false_eq_true,
      if_false] at h
    cases hs : serverIdx (canonicalString q.Key) n with
    | none => rw [hs] at h; simp at h
    | some idx => rw [hs] at h; exact ih _ r h

theorem handleFetch_ne_error (env : ReqEnv) (servers : List server)
    (queryReqs : List clientFetQueReq)
    (errsp : errorResp) : handleFetch env servers queryReqs ≠ some (Outcome.error errsp) := by
  unfold handleFetch
  cases hp : handleFetchPartition servers.length queryReqs true emptyMap with
  | none => simp
  | some r =>
    have hv := handleFetchPartition_valid _ _ _ r hp
    obtain ⟨v, m⟩ := r
    simp only at hv
    subst hv
    simp

theorem handleQuery_ne_error (env : ReqEnv) (servers : List server)
    (queryReqs : List clientFetQueReq)
    (errsp : errorResp) : handleQuery env servers queryReqs ≠ some (Outcome.error errsp) := by
  unfold handleQuery
  cases hp : handleQueryPartition servers.length queryReqs true emptyMap with
  | none => simp
  | some r =>
    have hv := handleQueryPartition_valid _ _ _ r hp
    obtain ⟨v, m⟩ := r
    simp only at hv
    subst hv
    simp

theorem handleSet_ne_error (env : ReqEnv) (servers : List server)
    (setReqs : List clientSetReq)
    (errsp : errorResp) : handleSet env servers setReqs ≠ some (Outcome.error errsp) := by
  unfold handleSet
  cases hp : handleSetPartition servers.length setReqs true emptyMap with
  | none => simp
  | some r =>
    have hv := handleSetPartition_valid _ _ _ r hp
    obtain ⟨v, m⟩ := r
    simp only at hv
    subst hv
    simp

theorem raw_route_mem {α : Type} (n : Nat) (keyOf : α → Encoded) (items : List α) (x : α)
    (hx : x ∈ items) (hk : (keyOf x).Encoding ≠ "binary") :
    x ∈ (fun j => emptyMap j ++ groupOf n keyOf items j)
      (Int.ofNat (hash (keyOf x).Data % n)) := by
  have hc : canonicalString (keyOf x) = (keyOf x).Data := by simp [canonicalString, hk]
  simp only [emptyMap, List.nil_append, groupOf, List.mem_filter, decide_eq_true_eq, route, hc]
  exact ⟨hx, trivial⟩

theorem requestsFor_mem {α : Type} (servers : List server) (path method : String)
    (wrap : List α → ReqBody) (m : ReqMap α) (j : Nat) (hj : j < servers.length)
    (hne : m (Int.ofNat j) ≠ []) :
    ({ method := method
       endpoint := serverEndpoint (servers.getD j default) path
       body := wrap (m (Int.ofNat j)) } : Request) ∈ requestsFor servers path method wrap m := by
  unfold requestsFor
  exact List.mem_map.mpr ⟨j, (mem_nonEmptyBackends _ m j).mpr ⟨hj, hne⟩, rfl⟩

/-- C13 (as amended): no encoding tag makes a key invalid. For every fetch,
query or set request, whatever the encoding tags of its keys, the router never
replies through `handleError` (so never with "Bad key encoding."); with at
least one backend it hands to the dispatcher the entries `compositeServerReq`
returns for the expected requests of the request map `m` of its first loop,
and every key whose encoding is not `"binary"` lies in the group of backend
`hash(data) mod n` of its raw data string, for which a request carrying that
group is among the expected ones. -/
theorem C13_no_key_is_rejected (env : ReqEnv) (servers : List server)
    (queryReqs : List clientFetQueReq) (setReqs : List clientSetReq) :
    (∀ errsp, handleFetch env servers queryReqs ≠ some (Outcome.error errsp)) ∧
    (∀ errsp, handleQuery env servers queryReqs ≠ some (Outcome.error errsp)) ∧
    (∀ errsp, handleSet env servers setReqs ≠ some (Outcome.error errsp)) ∧
    (1 ≤ servers.length →
      (∃ m, handleFetchPartition servers.length queryReqs true emptyMap = some (true, m) ∧
        handleFetch env servers queryReqs = some (Outcome.send
          ((requestsFor servers "/fetch" MethodPost ReqBody.keys m).map (buildRequest env))
          Massage.massageFetch) ∧
        ∀ q ∈ queryReqs, q.Key.Encoding ≠ "binary" →
          q.Key ∈ m (Int.ofNat (hash q.Key.Data % servers.length)) ∧
          ({ method := MethodPost
             endpoint := serverEndpoint
               (servers.getD (hash q.Key.Data % servers.length) default) "/fetch"
             body := ReqBody.keys (m (Int.ofNat (hash q.Key.Data % servers.length))) }
            : Request) ∈ requestsFor servers "/fetch" MethodPost ReqBody.keys m) ∧
      (∃ m, handleQueryPartition servers.length queryReqs true emptyMap = some (true, m) ∧
        handleQuery env servers queryReqs = some (Outcome.send
          ((requestsFor servers "/query" MethodPost ReqBody.keys m).map (buildRequest env))
          Massage.massageQuery) ∧
        ∀ q ∈ queryReqs, q.Key.Encoding ≠ "binary" →
          q.Key ∈ m (Int.ofNat (hash q.Key.Data % servers.length)) ∧
          ({ method := MethodPost
             endpoint := serverEndpoint
               (servers.getD (hash q.Key.Data % servers.length) default) "/query"
             body := ReqBody.keys (m (Int.ofNat (hash q.Key.Data % servers.length))) }
            : Request) ∈ requestsFor servers "/query" MethodPost ReqBody.keys m) ∧
      (∃ m, handleSetPartition servers.length setReqs true emptyMap = some (true, m) ∧
        handleSet env servers setReqs = some (Outcome.send
          ((requestsFor servers "/set" MethodPut ReqBody.pairs m).map (buildRequest env))
          Massage.massageSet) ∧
        ∀ p ∈ setReqs, p.Key.Encoding ≠ "binary" →
          p ∈ m (Int.ofNat (hash p.Key.Data % servers.length)) ∧
          ({ method := MethodPut
             endpoint := serverEndpoint
               (servers.getD (hash p.Key.Data % servers.length) default) "/set"
             body := ReqBody.pairs (m (Int.ofNat (hash p.Key.Data % servers.length))) }
            : Request) ∈ requestsFor servers "/set" MethodPut ReqBody.pairs m)) := by
  refine ⟨handleFetch_ne_error env servers queryReqs,
    handleQuery_ne_error env servers queryReqs, handleSet_ne_error env servers setReqs,
    fun hn => ⟨⟨_, handleFetchPartition_eq _ hn queryReqs emptyMap,
        handleFetch_eq_send env servers hn queryReqs, fun q hq hk => ?_⟩,
      ⟨_, handleQueryPartition_eq _ hn queryReqs emptyMap,
        handleQuery_eq_send env servers hn queryReqs, fun q hq hk => ?_⟩,
      ⟨_, handleSetPartition_eq _ hn setReqs emptyMap,
        handleSet_eq_send env servers hn setReqs, fun p hp hk => ?_⟩⟩⟩
  · have hmem := raw_route_mem servers.length id (queryReqs.map (·.Key)) q.Key
      (List.mem_map_of_mem _ hq) hk
    exact ⟨hmem, requestsFor_mem servers "/fetch" MethodPost ReqBody.keys _ _
      (Nat.mod_lt _ (by omega)) (List.ne_nil_of_mem hmem)⟩
  · have hmem := raw_route_mem servers.length id (queryReqs.map (·.Key)) q.Key
      (List.mem_map_of_mem _ hq) hk
    exact ⟨hmem, requestsFor_mem servers "/query" MethodPost ReqBody.keys _ _
      (Nat.mod_lt _ (by omega)) (List.ne_nil_of_mem hmem)⟩
  · have hmem := raw_route_mem servers.length (·.Key) setReqs p hp hk
    exact ⟨hmem, requestsFor_mem servers "/set" MethodPut ReqBody.pairs _ _
      (Nat.mod_lt _ (by omega)) (List.ne_nil_of_mem hmem)⟩

/-! ## Start-up -/

theorem loadServersArgs_length (args : List String) :
    ∀ servers loaded, loadServersArgs args servers = Startup.loaded loaded →
      loaded.length = servers.length + args.length := by
  induction args with
  | nil =>
    intro servers loaded h
    simp only [loadServersArgs, Startup.loaded.injEq] at h
    simp [h]
  | cons arg rest ih =>
    intro servers loaded h
    simp only [loadServersArgs] at h
    split at h
    · exact absurd h (by simp)
    · split at h
      · exact absurd h (by simp)
      · have := ih _ _ h
        simp at this ⊢
        omega

theorem splitColon_ne_nil (cs : List Char) : splitColon cs ≠ [] := by
  cases cs with
  | nil => simp [splitColon]
  | cons c cs =>
    simp only [splitColon]
    split <;> split <;> simp

theorem splitColon_eq (cs : List Char) :
    splitColon cs = cs.takeWhile (fun c => c != ':') ::
      (if ':' ∈ cs then splitColon (cs.dropWhile (fun c => c != ':')).tail else []) := by
  induction cs with
  | nil => simp [splitColon]
  | cons c cs ih =>
    by_cases hc : c = ':'
    · subst hc
      simp only [splitColon]
      split
      · rename_i h; exact absurd h (splitColon_ne_nil cs)
      · rename_i hd tl h
        simp [h]
    · simp only [splitColon]
      split
      · rename_i h; exact absurd h (splitColon_ne_nil cs)
      · rename_i hd tl h
        rw [h] at ih
        have h1 : (c != ':') = true := by simp [hc]
        have h2 : (':' ∈ c :: cs) ↔ ':' ∈ cs := by
          simp [List.mem_cons, Ne.symm hc]
        simp only [List.cons.injEq] at ih
        simp only [if_neg hc, List.takeWhile_cons, h1, if_true, List.dropWhile_cons, h2]
        rw [← ih.1, ← ih.2]

theorem splitColon_get_one (cs : List Char) :
    (splitColon cs).get? 1 = if ':' ∈ cs then
      some ((cs.dropWhile (fun c => c != ':')).tail.takeWhile (fun c => c != ':')) else none := by
  rw [splitColon_eq]
  by_cases h : ':' ∈ cs
  · simp only [if_pos h]
    rw [splitColon_eq]
    simp
  · simp [if_neg h]

theorem loadServersArgs_cons (arg : String) (rest : List String) (servers : List server) :
    loadServersArgs (arg :: rest) servers =
      if ':' ∈ arg.data then
        match Atoi (portField arg) with
        | none => Startup.exit 1
        | some port =>
          loadServersArgs rest (servers ++ [{ IP := hostField arg, Port := port }])
      else Startup.panic := by
  have h0 : ((splitColon arg.data).map String.mk).getD 0 "" = hostField arg := by
    rw [splitColon_eq]; simp [hostField]
  have h1 : ((splitColon arg.data).map String.mk).get? 1 =
      if ':' ∈ arg.data then some (portField arg) else none := by
    rw [List.get?_eq_getElem?, List.getElem?_map, ← List.get?_eq_getElem?, splitColon_get_one]
    split <;> simp [portField]
  by_cases hc : ':' ∈ arg.data
  · simp only [loadServersArgs, h0, h1, if_pos hc]
  · simp only [loadServersArgs, h0, h1, if_neg hc]

theorem loadServersArgs_wellFormed (pre : List String) (hpre : ∀ a ∈ pre, WellFormedArg a) :
    ∀ (rest : List String) (servers : List server),
      loadServersArgs (pre ++ rest) servers
        = loadServersArgs rest (servers ++ pre.map argServer) := by
  induction pre with
  | nil => intro rest servers; simp
  | cons a pre ih =>
    intro rest servers
    have ha := hpre a (List.mem_cons_self _ _)
    rw [List.cons_append, loadServersArgs_cons, if_pos ha.1]
    obtain ⟨p, hp⟩ := Option.ne_none_iff_exists'.mp ha.2
    rw [hp]
    simp only
    rw [ih (fun b hb => hpre b (List.mem_cons_of_mem _ hb))]
    simp [argServer, hp]

theorem digitsValue_some (ds : List Char) : ∀ acc v, digitsValue ds acc = some v →
    ∀ c ∈ ds, c.isDigit = true := by
  induction ds with
  | nil => intro acc v _ c hc; simp at hc
  | cons d ds ih =>
    intro acc v h c hc
    simp only [digitsValue] at h
    split at h
    · rename_i hd
      rcases List.mem_cons.mp hc with rfl | hc
      · exact hd
      · exact ih _ _ h c hc
    · exact absurd h (by simp)

theorem Atoi_isNumeral (s : String) (h : Atoi s ≠ none) : IsNumeral s := by
  by_cases hs : s.data.head? = some '-' ∨ s.data.head? = some '+'
  · simp only [Atoi, if_pos hs] at h
    split at h
    · exact absurd rfl h
    · rename_i hne
      split at h
      · exact absurd rfl h
      · rename_i v hv
        have hd := digitsValue_some _ _ _ hv
        cases hdata : s.data with
        | nil => rw [hdata] at hne; simp at hne
        | cons c cs =>
          rw [hdata] at hs hne hd
          simp only [List.head?_cons, Option.some.injEq, List.tail_cons] at hs hne hd
          refine ⟨[c], cs, hdata, ?_, hne, hd⟩
          rcases hs with rfl | rfl <;> simp
  · simp only [Atoi, if_neg hs] at h
    split at h
    · exact absurd rfl h
    · rename_i hne
      split at h
      · exact absurd rfl h
      · rename_i v hv
        exact ⟨[], s.data, rfl, Or.inl rfl, hne, digitsValue_some _ _ _ hv⟩

theorem Atoi_test_vectors :
    Atoi "9000" = some 9000 ∧ Atoi "-1" = some (-1) ∧ Atoi "+7" = some 7 ∧
    Atoi "9223372036854775807" = some 9223372036854775807 ∧
    Atoi "9223372036854775808" = none ∧ Atoi "" = none ∧ Atoi "-" = none ∧
    Atoi "80a" = none ∧ Atoi " 80" = none ∧ Atoi "0x50" = none := by
  decide

theorem rejectsEmptyList_loadServersArgs (args : List String) (hne : args ≠ []) :
    RejectsEmptyList (loadServersArgs args []) := by
  have hx : ∀ (as : List String) (sv : List server),
      (∃ code, loadServersArgs as sv = Startup.exit code ∧ code ≠ 0) ∨
      loadServersArgs as sv = Startup.panic ∨ ∃ l, loadServersArgs as sv = Startup.loaded l := by
    intro as
    induction as with
    | nil => intro sv; exact Or.inr (Or.inr ⟨sv, rfl⟩)
    | cons a rest ih =>
      intro sv
      simp only [loadServersArgs]
      split
      · exact Or.inr (Or.inl rfl)
      · split
        · exact Or.inl ⟨1, rfl, by decide⟩
        · exact ih _
  unfold RejectsEmptyList
  rcases hx args [] with h | h | ⟨l, h⟩
  · left; exact h
  · right; left; exact h
  · right; right
    refine ⟨l, h, ?_⟩
    intro hnil
    have := loadServersArgs_length args [] l h
    rw [hnil] at this
    simp at this
    exact hne (List.length_eq_zero.mp this.symm)

/-- C14 (as amended): `loadServers` has no emptiness check. With no argument it
ends the process with status 1 when `servers.json` cannot be read and
otherwise returns with the list the file decodes to, whatever its length.
With at least one argument it reads the arguments in order: the first one
without a colon panics, the first one whose port text `strconv.Atoi` rejects
(in particular every port text that is not a decimal numeral) ends the process
with status 1, and when every argument is well formed it returns with exactly
one backend per argument, in order, hence a non-empty list. -/
theorem C14_loadServers_outcomes (UnmarshalServers : Bytes → List server)
    (args : List String) (file : Option Bytes) :
    (args = [] → file = none → loadServers UnmarshalServers args file = Startup.exit 1) ∧
    (args = [] → ∀ content, file = some content →
      loadServers UnmarshalServers args file = Startup.loaded (UnmarshalServers content)) ∧
    (args ≠ [] → RejectsEmptyList (loadServers UnmarshalServers args file) ∧
      (∀ loaded, loadServers UnmarshalServers args file = Startup.loaded loaded →
        loaded.length = args.length) ∧
      ((∀ a ∈ args, WellFormedArg a) →
        loadServers UnmarshalServers args file = Startup.loaded (args.map argServer)) ∧
      (∀ pre arg post, args = pre ++ arg :: post → (∀ a ∈ pre, WellFormedArg a) →
        (':' ∉ arg.data → loadServers UnmarshalServers args file = Startup.panic) ∧
        (':' ∈ arg.data → Atoi (portField arg) = none →
          loadServers UnmarshalServers args file = Startup.exit 1) ∧
        (':' ∈ arg.data → ¬ IsNumeral (portField arg) →
          loadServers UnmarshalServers args file = Startup.exit 1))) := by
  refine ⟨fun ha hf => by simp [loadServers, ha, hf],
    fun ha content hf => by simp [loadServers, ha, hf], fun ha => ?_⟩
  have hl : ¬ args.length = 0 := by
    simpa [List.length_eq_zero] using ha
  have heq : loadServers UnmarshalServers args file = loadServersArgs args [] := by
    simp only [loadServers, if_neg hl]
  rw [heq]
  refine ⟨rejectsEmptyList_loadServersArgs args ha, ?_, ?_, ?_⟩
  · intro loaded h
    simpa using loadServersArgs_length args [] loaded h
  · intro hall
    have h := loadServersArgs_wellFormed args hall [] []
    simpa [loadServersArgs] using h
  · intro pre arg post hargs hpre
    have h := loadServersArgs_wellFormed pre hpre (arg :: post) []
    rw [← hargs, loadServersArgs_cons] at h
    have hexit : ':' ∈ arg.data → Atoi (portField arg) = none →
        loadServersArgs args [] = Startup.exit 1 := by
      intro hc hp
      rw [h, if_pos hc, hp]
    refine ⟨fun hc => ?_, hexit, fun hc hnum => hexit hc ?_⟩
    · rw [h, if_neg hc]
    · by_contra hp
      exact hnum (Atoi_isNumeral _ hp)

/-! ## The dispatcher: list lemmas -/

theorem set_decomp {α : Type} (l : List α) :
    ∀ (i : Nat) (old : α), l.get? i = some old →
      ∃ l1 l2, l = l1 ++ old :: l2 ∧ l1.length = i ∧ ∀ x, l.set i x = l1 ++ x :: l2 := by
  induction l with
  | nil => intro i old h; simp at h
  | cons a l ih =>
    intro i old h
    cases i with
    | zero =>
      simp only [List.get?_cons_zero, Option.some.injEq] at h
      exact ⟨[], l, by simp [h], rfl, fun x => by simp⟩
    | succ i =>
      simp only [List.get?_cons_succ] at h
      obtain ⟨l1, l2, h1, h2, h3⟩ := ih i old h
      exact ⟨a :: l1, l2, by simp [h1], by simp [h2], fun x => by simp [h3 x]⟩

theorem forall₂_get {α β : Type} {R : α → β → Prop} {l1 : List α} {l2 : List β}
    (h : List.Forall₂ R l1 l2) :
    ∀ (i : Nat) (a : α) (b : β), l1.get? i = some a → l2.get? i = some b → R a b := by
  induction h with
  | nil => intro i a b h1; simp at h1
  | cons hab _ ih =>
    intro i a b h1 h2
    cases i with
    | zero =>
      simp only [List.get?_cons_zero, Option.some.injEq] at h1 h2
      rw [← h1, ← h2]; exact hab
    | succ i =>
      simp only [List.get?_cons_succ] at h1 h2
      exact ih i a b h1 h2

theorem forall₂_set {α β : Type} {R : α → β → Prop} {l1 : List α} {l2 : List β}
    (h : List.Forall₂ R l1 l2) :
    ∀ (i : Nat) (a : α) (x : β), l1.get? i = some a → R a x →
      List.Forall₂ R l1 (l2.set i x) := by
  induction h with
  | nil => intro i a x h1; simp at h1
  | cons hab hrest ih =>
    intro i a x h1 hx
    cases i with
    | zero =>
      simp only [List.get?_cons_zero, Option.some.injEq] at h1
      rw [List.set_cons_zero]
      exact List.Forall₂.cons (h1 ▸ hx) hrest
    | succ i =>
      simp only [List.get?_cons_succ] at h1
      rw [List.set_cons_succ]
      exact List.Forall₂.cons hab (ih i a x h1 hx)

theorem countP_zero_of_mem {α : Type} {p : α → Bool} {l : List α} (h : l.countP p = 0)
    {a : α} (ha : a ∈ l) : p a = false := by
  cases hp : p a with
  | false => rfl
  | true =>
    have := List.countP_pos_iff.mpr ⟨a, ha, hp⟩
    omega

/-! ## The dispatcher: the invariant -/

theorem result_none_of_active {Do : Request → Option Response}
    {fn : List Response → Option Bytes × Int} {reqs : List Request} {s : Sys}
    (hI : Inv Do fn reqs s) {pc : TaskPC} (hm : pc ∈ s.tasks) (ha : pc.active = true) :
    s.result = none := by
  cases hr : s.result with
  | none => rfl
  | some out =>
    have h0 := (hI.res out hr).1
    rw [hI.wg_eq] at h0
    have h1 : s.tasks.countP TaskPC.active = 0 := by
      simpa using h0
    have := countP_zero_of_mem h1 hm
    rw [ha] at this
    exact absurd this (by decide)

theorem taskStep_inv {Do : Request → Option Response}
    {fn : List Response → Option Bytes × Int} {reqs : List Request} {s s1 : Sys} {i : Nat}
    {req : Request} {pc : TaskPC} (hI : Inv Do fn reqs s) (hreq : reqs.get? i = some req)
    (hpc : s.tasks.get? i = some pc) (hstep : taskStep Do req s i pc = some s1) :
    Inv Do fn reqs s1 := by
  have hC : Consistent Do req pc := forall₂_get hI.cons i req pc hreq hpc
  have hmem : pc ∈ s.tasks := List.get?_mem hpc
  have hres0 : pc.active = true → s.result = none := result_none_of_active hI hmem
  obtain ⟨l1, l2, hl, hli, hset⟩ := set_decomp s.tasks i pc hpc
  obtain ⟨len, wg_eq, crit, readOld, perm, cons, res, crash, spawned_le⟩ := hI
  cases pc with
  | start =>
    have hres := hres0 rfl
    simp only [taskStep] at hstep
    cases hD : Do req with
    | some resp =>
      rw [hD] at hstep
      simp only [Option.some.injEq] at hstep
      subst hstep
      rw [hl] at len wg_eq crit readOld perm crash
      refine ⟨?_, ?_, ?_, ?_, ?_, ?_, ?_, ?_, ?_⟩
      · simpa [hset] using len
      · simpa [hset, List.countP_cons, TaskPC.active] using wg_eq
      · simpa [hset, List.countP_cons, TaskPC.inCrit] using crit
      · intro r old h
        apply readOld r old
        simpa [hset] using h
      · simpa [hset, TaskPC.appended] using perm
      · exact forall₂_set cons i req _ hreq hD
      · intro out h; simp [hres] at h
      · intro h
        have := crash h
        simpa [hset] using this
      · exact spawned_le
    | none =>
      rw [hD] at hstep
      simp only [Option.some.injEq] at hstep
      subst hstep
      rw [hl] at len wg_eq crit readOld perm crash
      refine ⟨?_, ?_, ?_, ?_, ?_, ?_, ?_, ?_, ?_⟩
      · simpa [hset] using len
      · simpa [hset, List.countP_cons, TaskPC.active] using wg_eq
      · simpa [hset, List.countP_cons, TaskPC.inCrit] using crit
      · intro r old h
        apply readOld r old
        simpa [hset] using h
      · simpa [hset, TaskPC.appended] using perm
      · exact forall₂_set cons i req _ hreq hD
      · intro out h; simp [hres] at h
      · intro h
        have := crash h
        simpa [hset] using this
      · exact spawned_le
  | gotResp resp =>
    have hres := hres0 rfl
    simp only [taskStep] at hstep
    cases hmx : s.mutex with
    | true => rw [hmx] at hstep; simp at hstep
    | false =>
      rw [hmx] at hstep crit
      simp only [Bool.false_eq_true, if_false, Option.some.injEq] at hstep
      subst hstep
      rw [hl] at len wg_eq crit readOld perm crash
      refine ⟨?_, ?_, ?_, ?_, ?_, ?_, ?_, ?_, ?_⟩
      · simpa [hset] using len
      · simpa [hset, List.countP_cons, TaskPC.active] using wg_eq
      · simp only [List.countP_append, List.countP_cons, TaskPC.inCrit, Bool.false_eq_true,
          if_false, Nat.add_zero] at crit
        simp only [hset, List.countP_append, List.countP_cons, TaskPC.inCrit, if_true]
        omega
      · intro r old h
        apply readOld r old
        simpa [hset] using h
      · simpa [hset, TaskPC.appended] using perm
      · exact forall₂_set cons i req _ hreq hC
      · intro out h; simp [hres] at h
      · intro h
        have := crash h
        simpa [hset] using this
      · exact spawned_le
  | locked resp =>
    have hres := hres0 rfl
    simp only [taskStep, Option.some.injEq] at hstep
    subst hstep
    rw [hl] at len wg_eq crit readOld perm crash
    refine ⟨?_, ?_, ?_, ?_, ?_, ?_, ?_, ?_, ?_⟩
    · simpa [hset] using len
    · simpa [hset, List.countP_cons, TaskPC.active] using wg_eq
    · simpa [hset, List.countP_cons, TaskPC.inCrit] using crit
    · intro r old h
      simp only [hset, List.mem_append, List.mem_cons, TaskPC.read.injEq] at h
      rcases h with h | ⟨_, h⟩ | h
      · exact readOld r old (by simp [h])
      · exact h
      · exact readOld r old (by simp [h])
    · simpa [hset, TaskPC.appended] using perm
    · exact forall₂_set cons i req _ hreq hC
    · intro out h; simp [hres] at h
    · intro h
      have := crash h
      simpa [hset] using this
    · exact spawned_le
  | read resp old =>
    have hres := hres0 rfl
    have hold : old = s.resps := readOld resp old hmem
    simp only [taskStep, Option.some.injEq] at hstep
    subst hstep
    have hc0 : l1.countP TaskPC.inCrit = 0 ∧ l2.countP TaskPC.inCrit = 0 := by
      rw [hl] at crit
      simp only [List.countP_append, List.countP_cons, TaskPC.inCrit, if_true] at crit
      split at crit <;> omega
    rw [hl] at len wg_eq crit readOld perm crash
    refine ⟨?_, ?_, ?_, ?_, ?_, ?_, ?_, ?_, ?_⟩
    · simpa [hset] using len
    · simpa [hset, List.countP_cons, TaskPC.active] using wg_eq
    · simpa [hset, List.countP_cons, TaskPC.inCrit] using crit
    · intro r o h
      simp only [hset, List.mem_append, List.mem_cons] at h
      rcases h with h | h | h
      · exact absurd (countP_zero_of_mem hc0.1 h) (by simp [TaskPC.inCrit])
      · exact absurd h (by simp)
      · exact absurd (countP_zero_of_mem hc0.2 h) (by simp [TaskPC.inCrit])
    · simp only [hset, List.filterMap_append, List.filterMap_cons, TaskPC.appended] at perm ⊢
      rw [hold]
      exact (List.perm_append_singleton _ _).trans
        ((List.Perm.cons _ perm).trans List.perm_middle.symm)
    · exact forall₂_set cons i req _ hreq hC
    · intro out h; simp [hres] at h
    · intro h
      have := crash h
      simpa [hset] using this
    · exact spawned_le
  | wrote resp =>
    have hres := hres0 rfl
    simp only [taskStep, Option.some.injEq] at hstep
    subst hstep
    have hc0 : l1.countP TaskPC.inCrit + l2.countP TaskPC.inCrit = 0 := by
      rw [hl] at crit
      simp only [List.countP_append, List.countP_cons, TaskPC.inCrit, if_true] at crit
      split at crit <;> omega
    rw [hl] at len wg_eq crit readOld perm crash
    refine ⟨?_, ?_, ?_, ?_, ?_, ?_, ?_, ?_, ?_⟩
    · simpa [hset] using len
    · simpa [hset, List.countP_cons, TaskPC.active] using wg_eq
    · simp only [hset, List.countP_append, List.countP_cons, TaskPC.inCrit]
      simp only [Bool.false_eq_true, if_false]
      omega
    · intro r old h
      apply readOld r old
      simpa [hset] using h
    · simpa [hset, TaskPC.appended] using perm
    · exact forall₂_set cons i req _ hreq hC
    · intro out h; simp [hres] at h
    · intro h
      have := crash h
      simpa [hset] using this
    · exact spawned_le
  | unlocked resp =>
    have hres := hres0 rfl
    simp only [taskStep, Option.some.injEq] at hstep
    subst hstep
    rw [hl] at len wg_eq crit readOld perm crash
    refine ⟨?_, ?_, ?_, ?_, ?_, ?_, ?_, ?_, ?_⟩
    · simpa [hset] using len
    · simp only [hset, List.countP_append, List.countP_cons, TaskPC.active] at wg_eq ⊢
      simp only [Int.ofNat_eq_coe] at wg_eq ⊢
      rw [wg_eq]
      push_cast
      omega
    · simpa [hset, List.countP_cons, TaskPC.inCrit] using crit
    · intro r old h
      apply readOld r old
      simpa [hset] using h
    · simpa [hset, TaskPC.appended] using perm
    · exact forall₂_set cons i req _ hreq hC
    · intro out h; simp [hres] at h
    · intro h
      have := crash h
      simpa [hset] using this
    · exact spawned_le
  | done resp => simp [taskStep] at hstep
  | panicking =>
    have hres := hres0 rfl
    simp only [taskStep, Option.some.injEq] at hstep
    subst hstep
    rw [hl] at len wg_eq crit readOld perm crash
    refine ⟨?_, ?_, ?_, ?_, ?_, ?_, ?_, ?_, ?_⟩
    · simpa [hset] using len
    · simp only [hset, List.countP_append, List.countP_cons, TaskPC.active] at wg_eq ⊢
      simp only [Int.ofNat_eq_coe] at wg_eq ⊢
      rw [wg_eq]
      push_cast
      omega
    · simpa [hset, List.countP_cons, TaskPC.inCrit] using crit
    · intro r old h
      apply readOld r old
      simpa [hset] using h
    · simpa [hset, TaskPC.appended] using perm
    · exact forall₂_set cons i req _ hreq hC
    · intro out h; simp [hres] at h
    · intro _
      simp [hset]
    · exact spawned_le
  | panicked => simp [taskStep] at hstep

theorem sendStart_inv (Do : Request → Option Response)
    (fn : List Response → Option Bytes × Int) (reqs : List Request) :
    Inv Do fn reqs (sendStart reqs) := by
  have hact : ∀ l : List Request,
      (l.map (fun _ => TaskPC.start)).countP TaskPC.active = l.length := by
    intro l; induction l with
    | nil => rfl
    | cons a l ih => rw [List.map_cons, List.countP_cons, ih]; simp [TaskPC.active]
  have hcrit : ∀ l : List Request,
      (l.map (fun _ => TaskPC.start)).countP TaskPC.inCrit = 0 := by
    intro l; induction l with
    | nil => rfl
    | cons a l ih => rw [List.map_cons, List.countP_cons, ih]; simp [TaskPC.inCrit]
  have hfm : ∀ l : List Request,
      (l.map (fun _ => TaskPC.start)).filterMap TaskPC.appended = [] := by
    intro l; induction l with
    | nil => rfl
    | cons a l ih => rw [List.map_cons, List.filterMap_cons, ih]; rfl
  have hcons : ∀ l : List Request,
      List.Forall₂ (Consistent Do) l (l.map (fun _ => TaskPC.start)) := by
    intro l; induction l with
    | nil => exact List.Forall₂.nil
    | cons a l ih => exact List.Forall₂.cons trivial ih
  refine ⟨by simp [sendStart], ?_, ?_, ?_, ?_, hcons reqs, ?_, ?_, ?_⟩
  · simp only [sendStart, hact]
  · simp only [sendStart, hcrit]; rfl
  · intro resp old h
    simp [sendStart] at h
  · simp only [sendStart, hfm]; exact List.Perm.refl _
  · intro out h; simp [sendStart] at h
  · intro h; simp [sendStart] at h
  · simp [sendStart]

theorem sendStep_inv {Do : Request → Option Response}
    {fn : List Response → Option Bytes × Int} {reqs : List Request} {a : Action}
    {s s1 : Sys} (hI : Inv Do fn reqs s) (hstep : sendStep Do fn reqs a s = some s1) :
    Inv Do fn reqs s1 := by
  unfold sendStep at hstep
  cases hc : s.crashed with
  | true => rw [hc] at hstep; simp at hstep
  | false =>
    rw [hc] at hstep
    simp only [Bool.false_eq_true, if_false] at hstep
    cases a with
    | spawn =>
      simp only at hstep
      split at hstep
      · rename_i hlt
        simp only [Option.some.injEq] at hstep
        subst hstep
        exact ⟨hI.len, hI.wg_eq, hI.crit, hI.readOld, hI.perm, hI.cons, hI.res,
          fun h => by simp at h, Nat.succ_le_of_lt hlt⟩
      · exact absurd hstep (by simp)
    | task i =>
      simp only at hstep
      split at hstep
      · split at hstep
        · rename_i req pc hreq hpc
          exact taskStep_inv hI hreq hpc hstep
        · exact absurd hstep (by simp)
      · exact absurd hstep (by simp)
    | wait =>
      simp only at hstep
      split at hstep
      · rename_i hw
        simp only [Option.some.injEq] at hstep
        subst hstep
        refine ⟨hI.len, hI.wg_eq, hI.crit, hI.readOld, hI.perm, hI.cons, ?_,
          fun h => by simp at h, hI.spawned_le⟩
        intro out h
        simp only [Option.some.injEq] at h
        exact ⟨hw.2.2, h.symm⟩
      · exact absurd hstep (by simp)
    | crash =>
      simp only at hstep
      split at hstep
      · rename_i hany
        simp only [Option.some.injEq] at hstep
        subst hstep
        refine ⟨hI.len, hI.wg_eq, hI.crit, hI.readOld, hI.perm, hI.cons, hI.res, ?_,
          hI.spawned_le⟩
        intro _
        simpa using hany
      · exact absurd hstep (by simp)

theorem sendRun_inv {Do : Request → Option Response}
    {fn : List Response → Option Bytes × Int} {reqs : List Request} (sched : List Action) :
    ∀ {s s1 : Sys}, Inv Do fn reqs s → sendRun Do fn reqs sched s = some s1 →
      Inv Do fn reqs s1 := by
  induction sched with
  | nil =>
    intro s s1 hI h
    simp only [sendRun, Option.some.injEq] at h
    exact h ▸ hI
  | cons a sched ih =>
    intro s s1 hI h
    simp only [sendRun] at h
    cases hs : sendStep Do fn reqs a s with
    | none => rw [hs] at h; simp at h
    | some s2 =>
      rw [hs] at h
      exact ih (sendStep_inv hI hs) h

/-! ## The dispatcher: every run is finite -/

theorem taskStep_rank {Do : Request → Option Response} {req : Request} {s s1 : Sys} {i : Nat}
    {pc : TaskPC} (hstep : taskStep Do req s i pc = some s1) :
    ∃ pc1, s1.tasks = s.tasks.set i pc1 ∧ pc1.rank < pc.rank ∧ s1.spawned = s.spawned ∧
      s1.result = s.result ∧ s1.crashed = s.crashed := by
  cases pc with
  | start =>
    simp only [taskStep] at hstep
    cases hD : Do req with
    | some resp =>
      rw [hD] at hstep
      simp only [Option.some.injEq] at hstep
      subst hstep
      exact ⟨_, rfl, by simp [TaskPC.rank], rfl, rfl, rfl⟩
    | none =>
      rw [hD] at hstep
      simp only [Option.some.injEq] at hstep
      subst hstep
      exact ⟨_, rfl, by simp [TaskPC.rank], rfl, rfl, rfl⟩
  | gotResp resp =>
    simp only [taskStep] at hstep
    split at hstep
    · exact absurd hstep (by simp)
    · simp only [Option.some.injEq] at hstep
      subst hstep
      exact ⟨_, rfl, by simp [TaskPC.rank], rfl, rfl, rfl⟩
  | locked resp =>
    simp only [taskStep, Option.some.injEq] at hstep
    subst hstep
    exact ⟨_, rfl, by simp [TaskPC.rank], rfl, rfl, rfl⟩
  | read resp old =>
    simp only [taskStep, Option.some.injEq] at hstep
    subst hstep
    exact ⟨_, rfl, by simp [TaskPC.rank], rfl, rfl, rfl⟩
  | wrote resp =>
    simp only [taskStep, Option.some.injEq] at hstep
    subst hstep
    exact ⟨_, rfl, by simp [TaskPC.rank], rfl, rfl, rfl⟩
  | unlocked resp =>
    simp only [taskStep, Option.some.injEq] at hstep
    subst hstep
    exact ⟨_, rfl, by simp [TaskPC.rank], rfl, rfl, rfl⟩
  | done resp => simp [taskStep] at hstep
  | panicking =>
    simp only [taskStep, Option.some.injEq] at hstep
    subst hstep
    exact ⟨_, rfl, by simp [TaskPC.rank], rfl, rfl, rfl⟩
  | panicked => simp [taskStep] at hstep

theorem rank_sum_set (l : List TaskPC) (i : Nat) (pc pc1 : TaskPC) (h : l.get? i = some pc)
    (hr : pc1.rank < pc.rank) :
    ((l.set i pc1).map TaskPC.rank).sum < (l.map TaskPC.rank).sum := by
  obtain ⟨l1, l2, hl, _, hset⟩ := set_decomp l i pc h
  rw [hset, hl]
  simp only [List.map_append, List.map_cons, List.sum_append, List.sum_cons]
  omega

theorem sendStep_measure {Do : Request → Option Response}
    {fn : List Response → Option Bytes × Int} {reqs : List Request} {a : Action}
    {s s1 : Sys} (hstep : sendStep Do fn reqs a s = some s1) :
    s1.measure reqs < s.measure reqs := by
  unfold sendStep at hstep
  cases hc : s.crashed with
  | true => rw [hc] at hstep; simp at hstep
  | false =>
    rw [hc] at hstep
    simp only [Bool.false_eq_true, if_false] at hstep
    cases a with
    | spawn =>
      simp only at hstep
      split at hstep
      · rename_i hlt
        simp only [Option.some.injEq] at hstep
        subst hstep
        simp only [Sys.measure, hc]
        omega
      · exact absurd hstep (by simp)
    | task i =>
      simp only at hstep
      split at hstep
      · split at hstep
        · rename_i req pc hreq hpc
          obtain ⟨pc1, ht, hr, hsp, hres, hcr⟩ := taskStep_rank hstep
          have := rank_sum_set s.tasks i pc pc1 hpc hr
          simp only [Sys.measure, ht, hsp, hres, hcr]
          omega
        · exact absurd hstep (by simp)
      · exact absurd hstep (by simp)
    | wait =>
      simp only at hstep
      split at hstep
      · rename_i hw
        simp only [Option.some.injEq] at hstep
        subst hstep
        simp only [Sys.measure, hw.2.1, hc]
        simp
      · exact absurd hstep (by simp)
    | crash =>
      simp only at hstep
      split at hstep
      · simp only [Option.some.injEq] at hstep
        subst hstep
        simp only [Sys.measure, hc]
        simp
      · exact absurd hstep (by simp)

theorem sendRun_measure {Do : Request → Option Response}
    {fn : List Response → Option Bytes × Int} {reqs : List Request} (sched : List Action) :
    ∀ {s s1 : Sys}, sendRun Do fn reqs sched s = some s1 →
      sched.length + s1.measure reqs ≤ s.measure reqs := by
  induction sched with
  | nil =>
    intro s s1 h
    simp only [sendRun, Option.some.injEq] at h
    simp [h]
  | cons a sched ih =>
    intro s s1 h
    simp only [sendRun] at h
    cases hs : sendStep Do fn reqs a s with
    | none => rw [hs] at h; simp at h
    | some s2 =>
      rw [hs] at h
      have h1 := ih h
      have h2 := sendStep_measure hs
      simp only [List.length_cons]
      omega

theorem sendStart_measure (reqs : List Request) :
    (sendStart reqs).measure reqs = 7 * reqs.length + 2 := by
  have hsum : ∀ l : List Request,
      ((l.map (fun _ => TaskPC.start)).map TaskPC.rank).sum = 6 * l.length := by
    intro l; induction l with
    | nil => rfl
    | cons a l ih =>
      rw [List.map_cons, List.map_cons, List.sum_cons, ih, List.length_cons]
      simp only [TaskPC.rank]
      omega
  simp only [Sys.measure, sendStart, hsum]
  simp
  omega

/-! ## The dispatcher: what the aggregator receives -/

theorem forall₂_mem_right {α β : Type} {R : α → β → Prop} {l1 : List α} {l2 : List β}
    (h : List.Forall₂ R l1 l2) : ∀ b ∈ l2, ∃ a ∈ l1, R a b := by
  induction h with
  | nil => intro b hb; simp at hb
  | cons hab _ ih =>
    intro b hb
    rcases List.mem_cons.mp hb with rfl | hb
    · exact ⟨_, List.mem_cons_self _ _, hab⟩
    · obtain ⟨a, ha, hr⟩ := ih b hb
      exact ⟨a, List.mem_cons_of_mem _ ha, hr⟩

theorem forall₂_mem_left {α β : Type} {R : α → β → Prop} {l1 : List α} {l2 : List β}
    (h : List.Forall₂ R l1 l2) : ∀ a ∈ l1, ∃ b ∈ l2, R a b := by
  induction h with
  | nil => intro a ha; simp at ha
  | cons hab _ ih =>
    intro a ha
    rcases List.mem_cons.mp ha with rfl | ha
    · exact ⟨_, List.mem_cons_self _ _, hab⟩
    · obtain ⟨b, hb, hr⟩ := ih a ha
      exact ⟨b, List.mem_cons_of_mem _ hb, hr⟩

theorem appended_eq_filterMap {Do : Request → Option Response} {reqs : List Request}
    {tasks : List TaskPC} (h : List.Forall₂ (Consistent Do) reqs tasks) :
    (∀ pc ∈ tasks, pc.active = false) → tasks.filterMap TaskPC.appended = reqs.filterMap Do := by
  induction h with
  | nil => intro _; rfl
  | @cons req pc reqs tasks hc _ ih =>
    intro hall
    have hrest := ih (fun pc1 h1 => hall pc1 (List.mem_cons_of_mem _ h1))
    have hpc := hall pc (List.mem_cons_self _ _)
    cases pc with
    | done resp =>
      have hd : Do req = some resp := hc
      rw [List.filterMap_cons, List.filterMap_cons, hd]
      simp only [TaskPC.appended, hrest]
    | panicked =>
      have hd : Do req = none := hc
      rw [List.filterMap_cons, List.filterMap_cons, hd]
      simp only [TaskPC.appended, hrest]
    | _ => simp [TaskPC.active] at hpc

theorem inv_result {Do : Request → Option Response}
    {fn : List Response → Option Bytes × Int} {reqs : List Request} {s : Sys}
    (hI : Inv Do fn reqs s) {out : Option Bytes × Int} (hr : s.result = some out) :
    out = fn s.resps ∧ (∀ pc ∈ s.tasks, pc.active = false) ∧
      s.resps.Perm (reqs.filterMap Do) := by
  obtain ⟨hwg, hout⟩ := hI.res out hr
  have h0 : s.tasks.countP TaskPC.active = 0 := by
    rw [hI.wg_eq] at hwg
    simpa using hwg
  have hall : ∀ pc ∈ s.tasks, pc.active = false := fun pc hpc => countP_zero_of_mem h0 hpc
  refine ⟨hout, hall, ?_⟩
  rw [← appended_eq_filterMap hI.cons hall]
  exact hI.perm

theorem inv_no_panic {Do : Request → Option Response}
    {fn : List Response → Option Bytes × Int} {reqs : List Request} {s : Sys}
    (hI : Inv Do fn reqs s) (hDo : ∀ req ∈ reqs, Do req ≠ none) :
    (∀ pc ∈ s.tasks, pc ≠ TaskPC.panicking ∧ pc ≠ TaskPC.panicked) ∧ s.crashed = false := by
  have h1 : ∀ pc ∈ s.tasks, pc ≠ TaskPC.panicking ∧ pc ≠ TaskPC.panicked := by
    intro pc hpc
    obtain ⟨req, hreq, hc⟩ := forall₂_mem_right hI.cons pc hpc
    constructor
    · rintro rfl
      exact hDo req hreq hc
    · rintro rfl
      exact hDo req hreq hc
  refine ⟨h1, ?_⟩
  cases hc : s.crashed with
  | false => rfl
  | true => exact absurd rfl (h1 _ (hI.crash hc)).2

theorem filterMap_length_of_all_some {Do : Request → Option Response} (reqs : List Request)
    (hDo : ∀ req ∈ reqs, Do req ≠ none) : (reqs.filterMap Do).length = reqs.length := by
  induction reqs with
  | nil => rfl
  | cons req reqs ih =>
    have h1 := hDo req (List.mem_cons_self _ _)
    have h2 := ih (fun r hr => hDo r (List.mem_cons_of_mem _ hr))
    cases hD : Do req with
    | none => exact absurd hD h1
    | some resp => rw [List.filterMap_cons, hD]; simp [h2]

/-! ## The dispatcher: complete runs -/

theorem terminal_not_crashed {Do : Request → Option Response}
    {fn : List Response → Option Bytes × Int} {reqs : List Request} {s : Sys}
    (hI : Inv Do fn reqs s) (hT : Terminal Do fn reqs s) (hc : s.crashed = false) :
    (∀ pc ∈ s.tasks, pc.isDone = true) ∧ s.result ≠ none := by
  have hsp : s.spawned = reqs.length := by
    have := hT Action.spawn
    simp only [sendStep, hc, Bool.false_eq_true, if_false] at this
    have hle := hI.spawned_le
    by_contra hne
    have hlt : s.spawned < reqs.length := by omega
    simp [hlt] at this
  have hnp : ∀ pc ∈ s.tasks, pc ≠ TaskPC.panicked := by
    have := hT Action.crash
    simp only [sendStep, hc, Bool.false_eq_true, if_false] at this
    intro pc hpc heq
    have hany : s.tasks.any (fun pc => decide (pc = TaskPC.panicked)) = true := by
      simp only [List.any_eq_true, decide_eq_true_eq]
      exact ⟨pc, hpc, heq⟩
    simp [hany] at this
  have hstuck : ∀ pc ∈ s.tasks, ∃ (req : Request) (i : Nat),
      taskStep Do req s i pc = none := by
    intro pc hpc
    obtain ⟨i, hi⟩ := List.mem_iff_get?.mp hpc
    have hlt : i < s.tasks.length := by
      rcases List.get?_eq_some.mp hi with ⟨h, _⟩
      exact h
    have hlt2 : i < reqs.length := by rw [← hI.len]; exact hlt
    have hreq : reqs.get? i = some (reqs.get ⟨i, hlt2⟩) := List.get?_eq_get hlt2
    have := hT (Action.task i)
    simp only [sendStep, hc, Bool.false_eq_true, if_false, hsp, hlt2, if_true, hreq, hi] at this
    exact ⟨_, i, this⟩
  have hcrit0 : s.tasks.countP TaskPC.inCrit = 0 := by
    rw [List.countP_eq_zero]
    intro pc hpc hin
    obtain ⟨req, i, hst⟩ := hstuck pc hpc
    cases pc <;> simp [TaskPC.inCrit, taskStep] at hin hst
  have hmx : s.mutex = false := by
    have := hI.crit
    rw [hcrit0] at this
    cases hm : s.mutex with
    | false => rfl
    | true => rw [hm] at this; simp at this
  have hdone : ∀ pc ∈ s.tasks, pc.isDone = true := by
    intro pc hpc
    obtain ⟨req, i, hst⟩ := hstuck pc hpc
    have hp := hnp pc hpc
    cases pc with
    | start =>
      simp only [taskStep] at hst
      split at hst <;> simp at hst
    | gotResp resp => simp [taskStep, hmx] at hst
    | done resp => rfl
    | panicked => exact absurd rfl hp
    | _ => simp [taskStep] at hst
  refine ⟨hdone, ?_⟩
  have hact : s.tasks.countP TaskPC.active = 0 := by
    rw [List.countP_eq_zero]
    intro pc hpc
    have := hdone pc hpc
    cases pc <;> simp [TaskPC.isDone, TaskPC.active] at this ⊢
  have hwg : s.wg = 0 := by rw [hI.wg_eq, hact]; rfl
  have := hT Action.wait
  simp only [sendStep, hc, Bool.false_eq_true, if_false, hsp, hwg, true_and, and_true] at this
  intro hres
  simp [hres] at this

theorem sendRun_append {Do : Request → Option Response}
    {fn : List Response → Option Bytes × Int} {reqs : List Request} (sched sched1 : List Action) :
    ∀ {s s1 : Sys}, sendRun Do fn reqs sched s = some s1 →
      sendRun Do fn reqs (sched ++ sched1) s = sendRun Do fn reqs sched1 s1 := by
  induction sched with
  | nil =>
    intro s s1 h
    simp only [sendRun, Option.some.injEq] at h
    rw [List.nil_append, h]
  | cons a sched ih =>
    intro s s1 h
    rw [List.cons_append]
    simp only [sendRun] at h ⊢
    cases hs : sendStep Do fn reqs a s with
    | none => rw [hs] at h; simp at h
    | some s2 =>
      rw [hs] at h
      exact ih h

theorem exists_complete_run (Do : Request → Option Response)
    (fn : List Response → Option Bytes × Int) (reqs : List Request) :
    ∀ (n : Nat) (s : Sys), s.measure reqs ≤ n →
      ∃ sched s1, sendRun Do fn reqs sched s = some s1 ∧ Terminal Do fn reqs s1 := by
  intro n
  induction n with
  | zero =>
    intro s hs
    refine ⟨[], s, rfl, fun a => ?_⟩
    cases hst : sendStep Do fn reqs a s with
    | none => rfl
    | some s2 =>
      have := sendStep_measure hst
      omega
  | succ n ih =>
    intro s hs
    by_cases hT : Terminal Do fn reqs s
    · exact ⟨[], s, rfl, hT⟩
    · unfold Terminal at hT
      push_neg at hT
      obtain ⟨a, ha⟩ := hT
      cases hst : sendStep Do fn reqs a s with
      | none => exact absurd hst ha
      | some s2 =>
        have hm := sendStep_measure hst
        obtain ⟨sched, s1, hrun, hterm⟩ := ih s2 (by omega)
        refine ⟨a :: sched, s1, ?_, hterm⟩
        simp only [sendRun, hst, hrun]

/-- C16: in every state a schedule of `sendRequestsAndMassage(reqs, fn)` can
reach when no `client.Do` fails, there is one task per request, at most one
task is inside the section guarded by the mutex and a task that has read
`resps` for its `append` read the current value (the appends are serialized);
if `wg.Wait()` has returned then every task has completed, `fn` was applied to
`resps`, and `resps` holds exactly one response per request, in some order.
Every run is finite, extends to a complete run, and a complete run has
returned the value of `fn`. -/
theorem C16_dispatcher_joins_all_tasks (Do : Request → Option Response)
    (fn : List Response → Option Bytes × Int) (reqs : List Request)
    (hDo : ∀ req ∈ reqs, Do req ≠ none) (sched : List Action) (s : Sys)
    (hrun : sendRun Do fn reqs sched (sendStart reqs) = some s) :
    s.tasks.length = reqs.length ∧
    s.crashed = false ∧
    s.tasks.countP TaskPC.inCrit ≤ 1 ∧
    (∀ resp old, TaskPC.read resp old ∈ s.tasks → old = s.resps) ∧
    (∀ out, s.result = some out →
      (∀ pc ∈ s.tasks, pc.isDone = true) ∧ out = fn s.resps ∧
      s.resps.Perm (reqs.filterMap Do) ∧ s.resps.length = reqs.length) ∧
    (Terminal Do fn reqs s → ∃ out, s.result = some out) ∧
    sched.length ≤ 7 * reqs.length + 2 ∧
    (∃ sched1 s1, sendRun Do fn reqs (sched ++ sched1) (sendStart reqs) = some s1 ∧
      Terminal Do fn reqs s1) := by
  have hI : Inv Do fn reqs s := sendRun_inv sched (sendStart_inv Do fn reqs) hrun
  obtain ⟨hnp, hnc⟩ := inv_no_panic hI hDo
  have hm := sendRun_measure sched hrun
  rw [sendStart_measure] at hm
  refine ⟨hI.len, hnc, ?_, hI.readOld, ?_, ?_, by omega, ?_⟩
  · rw [hI.crit]; split <;> omega
  · intro out hr
    obtain ⟨hout, hall, hperm⟩ := inv_result hI hr
    refine ⟨?_, hout, hperm, ?_⟩
    · intro pc hpc
      have h1 := hall pc hpc
      have h2 := (hnp pc hpc).2
      cases pc <;> simp [TaskPC.active, TaskPC.isDone] at h1 h2 ⊢
    · rw [hperm.length_eq, filterMap_length_of_all_some reqs hDo]
  · intro hT
    have := (terminal_not_crashed hI hT hnc).2
    cases hr : s.result with
    | none => exact absurd hr this
    | some out => exact ⟨out, rfl⟩
  · obtain ⟨sched1, s1, h1, h2⟩ := exists_complete_run Do fn reqs _ s (Nat.le_refl _)
    exact ⟨sched1, s1, by rw [sendRun_append sched sched1 hrun]; exact h1, h2⟩

/-- C15 (as amended): if `client.Do` fails for some request, the task of that
request panics and every complete run of `sendRequestsAndMassage` ends with
the process terminated by the unrecovered panic; every run is finite and
extends to such a complete run. If `fn` is still evaluated before the process
ends, it is applied to exactly the responses of the requests that succeeded,
in some order. -/
theorem C15_unreachable_backend_ends_process (Do : Request → Option Response)
    (fn : List Response → Option Bytes × Int) (reqs : List Request)
    (hfail : ∃ req ∈ reqs, Do req = none) (sched : List Action) (s : Sys)
    (hrun : sendRun Do fn reqs sched (sendStart reqs) = some s) :
    (Terminal Do fn reqs s → s.crashed = true) ∧
    (∀ out, s.result = some out → out = fn s.resps ∧ s.resps.Perm (reqs.filterMap Do)) ∧
    sched.length ≤ 7 * reqs.length + 2 ∧
    (∃ sched1 s1, sendRun Do fn reqs (sched ++ sched1) (sendStart reqs) = some s1 ∧
      Terminal Do fn reqs s1 ∧ s1.crashed = true) := by
  have hI : Inv Do fn reqs s := sendRun_inv sched (sendStart_inv Do fn reqs) hrun
  have hm := sendRun_measure sched hrun
  rw [sendStart_measure] at hm
  have hterm : ∀ s2 : Sys, Inv Do fn reqs s2 → Terminal Do fn reqs s2 → s2.crashed = true := by
    intro s2 hI2 hT
    cases hc : s2.crashed with
    | true => rfl
    | false =>
      exfalso
      obtain ⟨req, hreq, hnone⟩ := hfail
      obtain ⟨pc, hpc, hcons⟩ := forall₂_mem_left hI2.cons req hreq
      have hd := (terminal_not_crashed hI2 hT hc).1 pc hpc
      cases pc <;> simp [TaskPC.isDone] at hd
      rename_i resp
      have : Do req = some resp := hcons
      rw [hnone] at this
      exact absurd this (by simp)
  refine ⟨hterm s hI, ?_, by omega, ?_⟩
  · intro out hr
    obtain ⟨hout, _, hperm⟩ := inv_result hI hr
    exact ⟨hout, hperm⟩
  · obtain ⟨sched1, s1, h1, h2⟩ := exists_complete_run Do fn reqs _ s (Nat.le_refl _)
    have hI1 : Inv Do fn reqs s1 := sendRun_inv sched1 hI h1
    exact ⟨sched1, s1, by rw [sendRun_append sched sched1 hrun]; exact h1, h2,
      hterm s1 hI1 h2⟩

/-! ## Order independence of status, count and item multiset -/

/-- C17: for every list of backend responses and every permutation of it, the
status returned by `massageFetch`, `massageQuery` and `massageSet` is the same
on both lists whenever the merged bodies serialize, the `keysAdded` total of
`massageSet` is the same on both, and the merged item lists (fetch items,
query items, set `keysFailed`) of the two lists are equal as multisets. -/
theorem C17_order_independent_up_to_multiset (json : Json) (resps resps' : List Response)
    (h : resps.Perm resps') :
    ((massageFetch json resps).1 ≠ none → (massageFetch json resps').1 ≠ none →
      (massageFetch json resps').2 = (massageFetch json resps).2) ∧
    ((massageQuery json resps).1 ≠ none → (massageQuery json resps').1 ≠ none →
      (massageQuery json resps').2 = (massageQuery json resps).2) ∧
    ((massageSet json resps).1 ≠ none → (massageSet json resps').1 ≠ none →
      (massageSet json resps').2 = (massageSet json resps).2) ∧
    (massageSetFinal json resps').1.KeysAdded = (massageSetFinal json resps).1.KeysAdded ∧
    Multiset.ofList (massageFetchLoop json resps').1
      = Multiset.ofList (massageFetchLoop json resps).1 ∧
    Multiset.ofList (massageQueryLoop json resps').1
      = Multiset.ofList (massageQueryLoop json resps).1 ∧
    Multiset.ofList (massageSetFinal json resps').1.KeysFailed
      = Multiset.ofList (massageSetFinal json resps).1.KeysFailed := by
  refine ⟨fun h1 h2 => ?_, fun h1 h2 => ?_, fun h1 h2 => ?_, ?_, ?_, ?_, ?_⟩
  · rw [massageFetch_snd _ _ h1, massageFetch_snd _ _ h2, massageFetchLoop_eq,
      massageFetchLoop_eq]
    exact (policyStatus_perm h).symm
  · rw [massageQuery_snd _ _ h1, massageQuery_snd _ _ h2, massageQueryLoop_eq,
      massageQueryLoop_eq]
    exact (policyStatus_perm h).symm
  · rw [massageSet_snd _ _ h1, massageSet_snd _ _ h2]
    exact (massageSetFinal_status_perm json h).symm
  · rw [massageSetFinal_eq, massageSetFinal_eq, keysAddedSum_perm _ h]
  · rw [massageFetchLoop_eq, massageFetchLoop_eq]
    exact Multiset.coe_eq_coe.mpr (mergedItems_perm _ h).symm
  · rw [massageQueryLoop_eq, massageQueryLoop_eq]
    exact Multiset.coe_eq_coe.mpr (mergedItems_perm _ h).symm
  · rw [massageSetFinal_eq, massageSetFinal_eq]
    exact Multiset.coe_eq_coe.mpr
      (mergedItems_perm (fun b => (json.UnmarshalSet b).KeysFailed) h).symm

/-! ## The three handlers partition alike -/

theorem fetch_query_partition_eq (n : Nat) (queryReqs : List clientFetQueReq) :
    ∀ (v : Bool) (m : ReqMap Encoded),
      handleFetchPartition n queryReqs v m = handleQueryPartition n queryReqs v m := by
  induction queryReqs with
  | nil => intro v m; rfl
  | cons q rest ih =>
    intro v m
    simp only [handleFetchPartition, handleQueryPartition, ih]

theorem mapAppend_proj (m : ReqMap clientSetReq) (idx : Int) (q : clientSetReq) :
    (fun j => (mapAppend m idx q j).map (·.Key))
      = mapAppend (fun j => (m j).map (·.Key)) idx q.Key := by
  funext j
  unfold mapAppend
  by_cases h : j = idx
  · rw [if_pos h, if_pos h]; simp
  · rw [if_neg h, if_neg h]

theorem set_partition_proj (n : Nat) (setReqs : List clientSetReq) :
    ∀ m : ReqMap clientSetReq,
      (handleSetPartition n setReqs true m).map
          (fun r => (r.1, fun j => (r.2 j).map (·.Key)))
        = handleFetchPartition n (setReqs.map (fun p => { Key := p.Key })) true
            (fun j => (m j).map (·.Key)) := by
  induction setReqs with
  | nil => intro m; rfl
  | cons q rest ih =>
    intro m
    simp only [handleSetPartition, List.map_cons, handleFetchPartition, decode_eq,
      Bool.not_true, Bool.false_eq_true, if_false]
    cases serverIdx (canonicalString q.Key) n with
    | none => rfl
    | some idx =>
      simp only []
      rw [ih, mapAppend_proj]

theorem requestsFor_proj {α : Type} (servers : List server) (path method : String)
    (wrap : List α → ReqBody) (m : ReqMap α) :
    (requestsFor servers path method wrap m).map (fun r => (r.method, r.body))
      = (nonEmptyBackends servers.length m).map (fun j => (method, wrap (m (Int.ofNat j)))) := by
  simp [requestsFor, List.map_map, Function.comp_def]

theorem handleFetch_eq_map (env : ReqEnv) (servers : List server)
    (queryReqs : List clientFetQueReq) :
    handleFetch env servers queryReqs
      = ((handleFetchPartition servers.length queryReqs true emptyMap).map (·.2)).map
          (fun m => Outcome.send
            ((requestsFor servers "/fetch" MethodPost ReqBody.keys m).map (buildRequest env))
            Massage.massageFetch) := by
  unfold handleFetch
  cases h : handleFetchPartition servers.length queryReqs true emptyMap with
  | none => rfl
  | some r =>
    have hv := handleFetchPartition_valid _ _ _ r h
    obtain ⟨v, m⟩ := r
    simp only at hv
    subst hv
    simp [handleFetchAssemble_eq]

theorem handleQuery_eq_map (env : ReqEnv) (servers : List server)
    (queryReqs : List clientFetQueReq) :
    handleQuery env servers queryReqs
      = ((handleQueryPartition servers.length queryReqs true emptyMap).map (·.2)).map
          (fun m => Outcome.send
            ((requestsFor servers "/query" MethodPost ReqBody.keys m).map (buildRequest env))
            Massage.massageQuery) := by
  unfold handleQuery
  cases h : handleQueryPartition servers.length queryReqs true emptyMap with
  | none => rfl
  | some r =>
    have hv := handleQueryPartition_valid _ _ _ r h
    obtain ⟨v, m⟩ := r
    simp only at hv
    subst hv
    simp [handleQueryAssemble_eq]

theorem buildRequest_proj (env : ReqEnv) (r r' : Request) (hm : r.method = r'.method)
    (hb : r.body = r'.body)
    (hok : env.NewRequestOk r.method r.endpoint = env.NewRequestOk r'.method r'.endpoint) :
    (buildRequest env r).map (fun q => (q.method, q.body))
      = (buildRequest env r').map (fun q => (q.method, q.body)) := by
  unfold buildRequest compositeServerReq
  rw [hok, hm, hb]
  cases env.MarshalBody r'.body with
  | none => rfl
  | some b =>
    simp only []
    split <;> simp

theorem requestsFor_build_proj (env : ReqEnv) (servers : List server) (m : ReqMap Encoded)
    (hok : ∀ s ∈ servers, env.NewRequestOk MethodPost (serverEndpoint s "/fetch")
      = env.NewRequestOk MethodPost (serverEndpoint s "/query")) :
    ((requestsFor servers "/fetch" MethodPost ReqBody.keys m).map (buildRequest env)).map
        (Option.map (fun q => (q.method, q.body)))
      = ((requestsFor servers "/query" MethodPost ReqBody.keys m).map (buildRequest env)).map
        (Option.map (fun q => (q.method, q.body))) := by
  unfold requestsFor
  simp only [List.map_map]
  apply List.map_congr_left
  intro j hj
  have hlt : j < servers.length := ((mem_nonEmptyBackends _ m j).mp hj).1
  have hmem : servers.getD j default ∈ servers := by
    rw [List.getD_eq_getElem?_getD, List.getElem?_eq_getElem hlt]
    exact List.getElem_mem _
  exact buildRequest_proj env _ _ rfl rfl (hok _ hmem)

/-- C18: the first loops of `handleFetch` and `handleQuery` compute the same
result on every input, and their second loops hand `compositeServerReq` the
same list of (backend, group) pairs, addressed to `/fetch` and to `/query`
respectively: the two handlers build requests with the same methods and
bodies for the same backends in the same order, hand over lists of the same
length, and, where `http.NewRequest` treats the two addresses of a backend
alike, lists that agree entry by entry in method and body (a nil entry in one
being a nil entry in the other). Projecting each group built by `handleSet`
onto its keys gives the groups `handleFetch` builds for the list of those
keys. -/
theorem C18_handlers_share_partitioning (env : ReqEnv) (servers : List server)
    (queryReqs : List clientFetQueReq) (setReqs : List clientSetReq) :
    (∀ (n : Nat) (v : Bool) (m : ReqMap Encoded),
      handleFetchPartition n queryReqs v m = handleQueryPartition n queryReqs v m) ∧
    (∀ m : ReqMap Encoded,
      handleFetchAssemble env servers m
        = (requestsFor servers "/fetch" MethodPost ReqBody.keys m).map (buildRequest env) ∧
      handleQueryAssemble env servers m
        = (requestsFor servers "/query" MethodPost ReqBody.keys m).map (buildRequest env) ∧
      (requestsFor servers "/fetch" MethodPost ReqBody.keys m).map (fun r => (r.method, r.body))
        = (requestsFor servers "/query" MethodPost ReqBody.keys m).map
            (fun r => (r.method, r.body))) ∧
    (∃ mo : Option (ReqMap Encoded),
      handleFetch env servers queryReqs = mo.map (fun m => Outcome.send
        ((requestsFor servers "/fetch" MethodPost ReqBody.keys m).map (buildRequest env))
        Massage.massageFetch) ∧
      handleQuery env servers queryReqs = mo.map (fun m => Outcome.send
        ((requestsFor servers "/query" MethodPost ReqBody.keys m).map (buildRequest env))
        Massage.massageQuery)) ∧
    (handleFetch env servers queryReqs).map (fun o => o.requests.length)
      = (handleQuery env servers queryReqs).map (fun o => o.requests.length) ∧
    ((∀ s ∈ servers, env.NewRequestOk MethodPost (serverEndpoint s "/fetch")
        = env.NewRequestOk MethodPost (serverEndpoint s "/query")) →
      (handleFetch env servers queryReqs).map
          (fun o => o.requests.map (Option.map (fun r => (r.method, r.body))))
        = (handleQuery env servers queryReqs).map
          (fun o => o.requests.map (Option.map (fun r => (r.method, r.body))))) ∧
    (∀ n : Nat,
      (handleSetPartition n setReqs true emptyMap).map
          (fun r => (r.1, fun j => (r.2 j).map (·.Key)))
        = handleFetchPartition n (setReqs.map (fun p => { Key := p.Key })) true emptyMap) := by
  refine ⟨fun n => fetch_query_partition_eq n queryReqs,
    fun m => ⟨handleFetchAssemble_eq env servers m, handleQueryAssemble_eq env servers m, ?_⟩,
    ⟨(handleQueryPartition servers.length queryReqs true emptyMap).map (·.2), ?_,
      handleQuery_eq_map env servers queryReqs⟩, ?_, fun hok => ?_, fun n => ?_⟩
  · rw [requestsFor_proj, requestsFor_proj]
  · rw [handleFetch_eq_map, fetch_query_partition_eq]
  · rw [handleFetch_eq_map, handleQuery_eq_map, fetch_query_partition_eq]
    cases handleQueryPartition servers.length queryReqs true emptyMap with
    | none => rfl
    | some r => simp [Outcome.requests, requestsFor]
  · rw [handleFetch_eq_map, handleQuery_eq_map, fetch_query_partition_eq]
    cases handleQueryPartition servers.length queryReqs true emptyMap with
    | none => rfl
    | some r =>
      simp only [Option.map_some', Outcome.requests]
      rw [requestsFor_build_proj env servers r.2 hok]
  · have := set_partition_proj n setReqs emptyMap
    simpa [emptyMap] using this

/-! ## `GET /fetch`: one request per backend -/

theorem range_foldl_append {α : Type} (f : Nat → α) (n : Nat) :
    (List.range n).foldl (fun acc j => acc ++ [f j]) [] = (List.range n).map f := by
  induction n with
  | zero => rfl
  | succ n ih => rw [List.range_succ, List.foldl_append, ih, List.map_append]; rfl

theorem map_range_getD {α β : Type} (l : List α) (d : α) (g : α → β) :
    (List.range l.length).map (fun j => g (l.getD j d)) = l.map g := by
  apply List.ext_getElem
  · simp
  · intro i h1 h2
    simp only [List.length_map, List.length_range] at h1
    simp [List.getD_eq_getElem?_getD, List.getElem?_eq_getElem h1]

theorem handleFetchAll_eq (env : ReqEnv) (servers : List server) :
    handleFetchAll env servers = Outcome.send
      (servers.map (fun s => buildRequest env
        { method := "GET", endpoint := serverEndpoint s "/fetch", body := ReqBody.null }))
      Massage.massageFetch := by
  unfold handleFetchAll
  simp only []
  rw [range_foldl_append (fun j => compositeServerReq env
    (serverEndpoint (servers.getD j default) "/fetch") ReqBody.null MethodGet)]
  rw [map_range_getD servers default
    (fun s => compositeServerReq env (serverEndpoint s "/fetch") ReqBody.null MethodGet)]
  rfl

/-- C19 (as amended): `handleFetchAll` hands the dispatcher a list with exactly
one entry per backend, in list order and skipping no backend: entry `i` is
what `compositeServerReq` returns for a `GET` addressed to `servers[i]` with
path `/fetch`, which is that request when `json.Marshal` and `http.NewRequest`
accept it and nil otherwise. When they accept the request of every backend,
the list is the list of these requests. With no backend it builds no request;
the dispatcher then applies the fetch aggregator to the empty response list,
whose merged item list is empty with status 200 (returned whenever the empty
list serializes). -/
theorem C19_fetchAll_one_entry_per_backend (env : ReqEnv) (servers : List server)
    (json : Json) (Do : Request → Option Response) :
    handleFetchAll env servers = Outcome.send
      (servers.map (fun s => buildRequest env
        { method := "GET", endpoint := serverEndpoint s "/fetch", body := ReqBody.null }))
      Massage.massageFetch ∧
    (handleFetchAll env servers).requests.length = servers.length ∧
    (∀ (i : Nat) (s : server), servers.get? i = some s →
      ((handleFetchAll env servers).requests.get? i = some (compositeServerReq env
          (serverEndpoint s "/fetch") ReqBody.null "GET")) ∧
      (Accepts env
          { method := "GET", endpoint := serverEndpoint s "/fetch", body := ReqBody.null } →
        (handleFetchAll env servers).requests.get? i = some (some
          { method := "GET", endpoint := serverEndpoint s "/fetch", body := ReqBody.null })) ∧
      (¬ Accepts env
          { method := "GET", endpoint := serverEndpoint s "/fetch", body := ReqBody.null } →
        (handleFetchAll env servers).requests.get? i = some none)) ∧
    ((∀ s ∈ servers, Accepts env
        { method := "GET", endpoint := serverEndpoint s "/fetch", body := ReqBody.null }) →
      AllRequests
        (servers.map (fun s =>
          { method := "GET", endpoint := serverEndpoint s "/fetch", body := ReqBody.null }))
        (some (handleFetchAll env servers)) Massage.massageFetch) ∧
    handleFetchAll env [] = Outcome.send [] Massage.massageFetch ∧
    (sendRun Do (massageFetch json) [] [Action.wait] (sendStart [])).map (·.result)
      = some (some (massageFetch json [])) ∧
    massageFetchLoop json [] = ([], 200) ∧
    (massageFetch json []).1 = json.MarshalFetch [] ∧
    ((massageFetch json []).1 ≠ none → (massageFetch json []).2 = 200) := by
  have hget : ∀ (i : Nat) (s : server), servers.get? i = some s →
      (handleFetchAll env servers).requests.get? i = some (buildRequest env
        { method := "GET", endpoint := serverEndpoint s "/fetch", body := ReqBody.null }) := by
    intro i s hs
    rw [handleFetchAll_eq]
    have hs2 : servers[i]? = some s := by simpa using hs
    simp [Outcome.requests, List.getElem?_map, hs2]
  refine ⟨handleFetchAll_eq env servers, ?_, fun i s hs => ⟨hget i s hs, fun ha => ?_,
    fun ha => ?_⟩, fun hall => ?_, rfl, ?_, rfl, ?_, fun h => ?_⟩
  · rw [handleFetchAll_eq]; simp [Outcome.requests]
  · rw [hget i s hs, buildRequest_of_accepts ha]
  · rw [hget i s hs, buildRequest_of_not_accepts ha]
  · unfold AllRequests
    rw [handleFetchAll_eq, ← map_buildRequest_of_accepts _ (by simpa using hall)]
    simp [List.map_map, Function.comp_def]
  · rfl
  · rw [massageFetch_fst]; rfl
  · rw [massageFetch_snd _ _ h]; rfl

/-! ## Dispatch, decoding, start-up and the dispatcher at concrete inputs -/

theorem C11_witness :
    ("DELETE", "/delete") ∉ knownRoutes ∧
    handler "DELETE" "/delete"
      = Call.handleError { Code := 405, Message := "Request not found." } ∧
    handlerOutcome sampleReqEnv sampleRouterJson sampleServers "DELETE" "/delete" []
      = some (Outcome.error { Code := 405, Message := "Request not found." }) ∧
    handleError sampleRouterJson { Code := 405, Message := "Request not found." }
      = { code := 405,
          body := some (stringBytes
            "\x7b\"code\":405,\"message\":\"Request not found.\"\x7d") } := by
  have h := (C11_handler_dispatch "DELETE" "/delete").2.2.2.2 (by decide)
  have hjs : sampleRouterJson.MarshalError { Code := 405, Message := "Request not found." }
      = Except.ok (stringBytes
          "\x7b\"code\":405,\"message\":\"Request not found.\"\x7d") :=
    congrArg Except.ok (by decide)
  exact ⟨by decide, h.1, (h.2 sampleReqEnv sampleRouterJson sampleServers []).1,
    (h.2 sampleReqEnv sampleRouterJson sampleServers []).2.2 _ hjs⟩

theorem C12_witness :
    keyBin.Encoding = "binary" ∧ keyA.Encoding ≠ "binary" ∧
    handleFetchPartition 2 [{ Key := keyBin }] true emptyMap
      = (serverIdx (String.mk (base64Std (stringBytes keyBin.Data))) 2).map
          (fun idx => (true, mapAppend emptyMap idx keyBin)) ∧
    handleFetchPartition 2 [{ Key := keyA }] true emptyMap
      = (serverIdx keyA.Data 2).map (fun idx => (true, mapAppend emptyMap idx keyA)) :=
  ⟨by decide, by decide,
    ((C12_key_decoding_total "" keyBin valOne 2).2.2.1 (by decide)).1 emptyMap,
    ((C12_key_decoding_total "" keyA valOne 2).2.2.2 (by decide)).1 emptyMap⟩

/-- C13, counterexample: a fetch request whose only key carries the encoding
tag `"bogus"` is not rejected; the key is routed by its raw data string and
the request for its backend is built. -/
theorem C13_counterexample :
    keyBogus.Encoding = "bogus" ∧
    handleFetch sampleReqEnv sampleServers [{ Key := keyBogus }] = some (Outcome.send
      [some { method := "POST", endpoint := "http://10.0.0.1:9000/fetch",
              body := ReqBody.keys [keyBogus] }] Massage.massageFetch) ∧
    handleFetch sampleReqEnv sampleServers [{ Key := keyBogus }]
      ≠ some (Outcome.error { Code := 405, Message := "Bad key encoding." }) := by
  decide

theorem C13_witness :
    1 ≤ sampleServers.length ∧ keyBogus.Encoding ≠ "binary" ∧
    hash keyBogus.Data % sampleServers.length = 0 ∧
    ∃ m, handleFetchPartition sampleServers.length [{ Key := keyBogus }] true emptyMap
        = some (true, m) ∧
      handleFetch sampleReqEnv sampleServers [{ Key := keyBogus }] = some (Outcome.send
        ((requestsFor sampleServers "/fetch" MethodPost ReqBody.keys m).map
          (buildRequest sampleReqEnv)) Massage.massageFetch) ∧
      keyBogus ∈ m (Int.ofNat (hash keyBogus.Data % sampleServers.length)) ∧
      ({ method := MethodPost
         endpoint := serverEndpoint
           (sampleServers.getD (hash keyBogus.Data % sampleServers.length) default) "/fetch"
         body := ReqBody.keys (m (Int.ofNat (hash keyBogus.Data % sampleServers.length))) }
        : Request) ∈ requestsFor sampleServers "/fetch" MethodPost ReqBody.keys m := by
  obtain ⟨m, h1, h2, h3⟩ :=
    ((C13_no_key_is_rejected sampleReqEnv sampleServers [{ Key := keyBogus }]
      samplePairs).2.2.2 (by decide)).1
  exact ⟨by decide, by decide, by decide, m, h1, h2,
    h3 { Key := keyBogus } (List.mem_singleton.mpr rfl) (by decide)⟩

/-- C14, counterexample: with no command-line argument and a `servers.json`
holding the empty array, `loadServers` returns with an empty backend list, and
a fetch request with one key then panics in `int(hash(k)) % len(servers)`. -/
theorem C14_counterexample :
    loadServers sampleUnmarshalServers [] (some (stringBytes "[]")) = Startup.loaded [] ∧
    ¬ RejectsEmptyList (loadServers sampleUnmarshalServers [] (some (stringBytes "[]"))) ∧
    handleFetch sampleReqEnv [] [{ Key := keyA }] = none := by
  refine ⟨by decide, ?_, by decide⟩
  have e : loadServers sampleUnmarshalServers [] (some (stringBytes "[]")) = Startup.loaded [] := by
    decide
  rw [e]
  unfold RejectsEmptyList
  simp

theorem C14_witness :
    ["10.0.0.1:9000", "10.0.0.2:9001"] ≠ [] ∧
    (∀ a ∈ ["10.0.0.1:9000", "10.0.0.2:9001"], WellFormedArg a) ∧
    ["10.0.0.1:9000", "10.0.0.2:9001"].map argServer = sampleServers ∧
    loadServers sampleUnmarshalServers ["10.0.0.1:9000", "10.0.0.2:9001"] none
      = Startup.loaded (["10.0.0.1:9000", "10.0.0.2:9001"].map argServer) ∧
    RejectsEmptyList
      (loadServers sampleUnmarshalServers ["10.0.0.1:9000", "10.0.0.2:9001"] none) ∧
    ':' ∈ "10.0.0.2:90x1".data ∧ Atoi (portField "10.0.0.2:90x1") = none ∧
    loadServers sampleUnmarshalServers ["10.0.0.1:9000", "10.0.0.2:90x1", "10.0.0.3"] none
      = Startup.exit 1 ∧
    ':' ∉ "10.0.0.2".data ∧
    loadServers sampleUnmarshalServers ["10.0.0.1:9000", "10.0.0.2", "10.0.0.3:90x1"] none
      = Startup.panic := by
  have hw : WellFormedArg "10.0.0.1:9000" := ⟨by decide, by decide⟩
  have hw2 : WellFormedArg "10.0.0.2:9001" := ⟨by decide, by decide⟩
  have hall : ∀ a ∈ ["10.0.0.1:9000", "10.0.0.2:9001"], WellFormedArg a := by
    intro a ha
    rcases List.mem_cons.mp ha with rfl | ha
    · exact hw
    · rw [List.mem_singleton.mp ha]; exact hw2
  have hpre : ∀ a ∈ ["10.0.0.1:9000"], WellFormedArg a := by
    intro a ha
    rw [List.mem_singleton.mp ha]; exact hw
  exact ⟨by decide, hall, by decide,
    ((C14_loadServers_outcomes sampleUnmarshalServers ["10.0.0.1:9000", "10.0.0.2:9001"]
      none).2.2 (by decide)).2.2.1 hall,
    ((C14_loadServers_outcomes sampleUnmarshalServers ["10.0.0.1:9000", "10.0.0.2:9001"]
      none).2.2 (by decide)).1,
    by decide, by decide,
    ((((C14_loadServers_outcomes sampleUnmarshalServers
      ["10.0.0.1:9000", "10.0.0.2:90x1", "10.0.0.3"] none).2.2 (by decide)).2.2.2
      ["10.0.0.1:9000"] "10.0.0.2:90x1" ["10.0.0.3"] rfl hpre).2.1 (by decide) (by decide)),
    by decide,
    ((((C14_loadServers_outcomes sampleUnmarshalServers
      ["10.0.0.1:9000", "10.0.0.2", "10.0.0.3:90x1"] none).2.2 (by decide)).2.2.2
      ["10.0.0.1:9000"] "10.0.0.2" ["10.0.0.3:90x1"] rfl hpre).1 (by decide))⟩

/-- C15, counterexample: two requests, the second backend unreachable, the
first answering with status 200. In one run the task of the unreachable
backend panics first and the process ends before `wg.Wait()` returns; in
another the reachable backend is merged first, the aggregate has status 200,
and the process ends all the same. No run returns status 206. -/
theorem C15_counterexample :
    sampleDoOneDown sampleReq0 = some respFetchA ∧ sampleDoOneDown sampleReq1 = none ∧
    respFetchA.StatusCode = 200 ∧
    sendRun sampleDoOneDown (massageFetch sampleJson) [sampleReq0, sampleReq1] schedCrash
      (sendStart [sampleReq0, sampleReq1]) = some stateCrash ∧
    stateCrash.crashed = true ∧ stateCrash.result = none ∧
    Terminal sampleDoOneDown (massageFetch sampleJson) [sampleReq0, sampleReq1] stateCrash ∧
    sendRun sampleDoOneDown (massageFetch sampleJson) [sampleReq0, sampleReq1] schedLateCrash
      (sendStart [sampleReq0, sampleReq1]) = some stateLateCrash ∧
    stateLateCrash.crashed = true ∧
    stateLateCrash.result.map (·.2) = some 200 :=
  ⟨by decide, by decide, by decide, by decide, rfl, rfl, fun _ => rfl, by decide, rfl,
    by decide⟩

theorem C15_witness :
    (∃ req ∈ [sampleReq0, sampleReq1], sampleDoOneDown req = none) ∧
    sendRun sampleDoOneDown (massageFetch sampleJson) [sampleReq0, sampleReq1] schedLateCrash
      (sendStart [sampleReq0, sampleReq1]) = some stateLateCrash ∧
    (Terminal sampleDoOneDown (massageFetch sampleJson) [sampleReq0, sampleReq1]
      stateLateCrash → stateLateCrash.crashed = true) ∧
    schedLateCrash.length ≤ 7 * [sampleReq0, sampleReq1].length + 2 :=
  ⟨⟨sampleReq1, by decide, by decide⟩, by decide,
    (C15_unreachable_backend_ends_process sampleDoOneDown (massageFetch sampleJson)
      [sampleReq0, sampleReq1] ⟨sampleReq1, by decide, by decide⟩ schedLateCrash
      stateLateCrash (by decide)).1,
    (C15_unreachable_backend_ends_process sampleDoOneDown (massageFetch sampleJson)
      [sampleReq0, sampleReq1] ⟨sampleReq1, by decide, by decide⟩ schedLateCrash
      stateLateCrash (by decide)).2.2.1⟩

theorem C16_witness :
    (∀ req ∈ [sampleReq0, sampleReq1], sampleDoAll req ≠ none) ∧
    sendRun sampleDoAll (massageFetch sampleJson) [sampleReq0, sampleReq1] schedInterleaved
      (sendStart [sampleReq0, sampleReq1]) = some stateInterleaved ∧
    stateInterleaved.result = some (massageFetch sampleJson [respFetchB, respFetchA]) ∧
    stateInterleaved.resps.Perm ([sampleReq0, sampleReq1].filterMap sampleDoAll) ∧
    stateInterleaved.resps.length = [sampleReq0, sampleReq1].length := by
  have hDo : ∀ req ∈ [sampleReq0, sampleReq1], sampleDoAll req ≠ none := by decide
  have h := C16_dispatcher_joins_all_tasks sampleDoAll (massageFetch sampleJson)
    [sampleReq0, sampleReq1] hDo schedInterleaved stateInterleaved (by decide)
  have hr := h.2.2.2.2.1 _ rfl
  exact ⟨hDo, by decide, rfl, hr.2.2.1, hr.2.2.2⟩

theorem C17_witness :
    [respSetOne, respSetFailedC].Perm [respSetFailedC, respSetOne] ∧
    (massageSet sampleJson [respSetFailedC, respSetOne]).2
      = (massageSet sampleJson [respSetOne, respSetFailedC]).2 ∧
    (massageSetFinal sampleJson [respSetFailedC, respSetOne]).1.KeysAdded
      = (massageSetFinal sampleJson [respSetOne, respSetFailedC]).1.KeysAdded :=
  ⟨List.Perm.swap _ _ _,
    (C17_order_independent_up_to_multiset sampleJson _ _ (List.Perm.swap _ _ _)).2.2.1
      (by decide) (by decide),
    (C17_order_independent_up_to_multiset sampleJson _ _ (List.Perm.swap _ _ _)).2.2.2.1⟩

theorem C18_witness :
    (∀ s ∈ sampleServers,
      sampleReqEnv.NewRequestOk MethodPost (serverEndpoint s "/fetch")
        = sampleReqEnv.NewRequestOk MethodPost (serverEndpoint s "/query")) ∧
    (handleFetch sampleReqEnv sampleServers sampleKeys).map
        (fun o => o.requests.map (Option.map (fun r => (r.method, r.body))))
      = (handleQuery sampleReqEnv sampleServers sampleKeys).map
        (fun o => o.requests.map (Option.map (fun r => (r.method, r.body)))) ∧
    (handleFetch sampleReqEnv sampleServers sampleKeys).map
        (fun o => o.requests.map (Option.map (fun r => (r.method, r.body))))
      = some [some ("POST", ReqBody.keys [keyA, keyC]),
              some ("POST", ReqBody.keys [keyB, keyBin])] :=
  ⟨by decide,
    (C18_handlers_share_partitioning sampleReqEnv sampleServers sampleKeys
      samplePairs).2.2.2.2.1 (by decide),
    by decide⟩

/-- C19, counterexample: for the backend list `loadServers` makes of the
command line `h:-1`, the URL `http://h:-1/fetch` is not accepted and
`handleFetchAll` hands the dispatcher a list whose only entry is nil, not a
`GET` request addressed to that backend. -/
theorem C19_counterexample :
    loadServers sampleUnmarshalServers ["h:-1"] none = Startup.loaded serversNegativePort ∧
    serversNegativePort.get? 0 = some { IP := "h", Port := -1 } ∧
    sampleReqEnv.NewRequestOk "GET" "http://h:-1/fetch" = false ∧
    handleFetchAll sampleReqEnv serversNegativePort
      = Outcome.send [none] Massage.massageFetch ∧
    (handleFetchAll sampleReqEnv serversNegativePort).requests.get? 0 ≠ some (some
      { method := "GET", endpoint := "http://h:-1/fetch", body := ReqBody.null }) := by
  decide

theorem C19_witness :
    (massageFetch sampleJson []).1 ≠ none ∧
    (massageFetch sampleJson []).2 = 200 ∧
    (handleFetchAll sampleReqEnv sampleServers).requests.length = sampleServers.length ∧
    (∀ s ∈ sampleServers, Accepts sampleReqEnv
      { method := "GET", endpoint := serverEndpoint s "/fetch", body := ReqBody.null }) ∧
    AllRequests
      (sampleServers.map (fun s =>
        { method := "GET", endpoint := serverEndpoint s "/fetch", body := ReqBody.null }))
      (some (handleFetchAll sampleReqEnv sampleServers)) Massage.massageFetch ∧
    sampleServers.get? 1 = some { IP := "10.0.0.2", Port := 9001 } ∧
    (handleFetchAll sampleReqEnv sampleServers).requests.get? 1 = some (some
      { method := "GET", endpoint := serverEndpoint { IP := "10.0.0.2", Port := 9001 } "/fetch",
        body := ReqBody.null }) ∧
    serverEndpoint { IP := "10.0.0.2", Port := 9001 } "/fetch" = "http://10.0.0.2:9001/fetch" := by
  have hacc : ∀ s ∈ sampleServers, Accepts sampleReqEnv
      { method := "GET", endpoint := serverEndpoint s "/fetch", body := ReqBody.null } := by
    intro s hs
    rcases List.mem_cons.mp hs with rfl | hs
    · exact ⟨by decide, by decide⟩
    · rw [List.mem_singleton.mp hs]; exact ⟨by decide, by decide⟩
  exact ⟨by decide,
    (C19_fetchAll_one_entry_per_backend sampleReqEnv [] sampleJson
      sampleDoAll).2.2.2.2.2.2.2.2 (by decide),
    (C19_fetchAll_one_entry_per_backend sampleReqEnv sampleServers sampleJson sampleDoAll).2.1,
    hacc,
    (C19_fetchAll_one_entry_per_backend sampleReqEnv sampleServers sampleJson
      sampleDoAll).2.2.2.1 hacc,
    by decide,
    ((C19_fetchAll_one_entry_per_backend sampleReqEnv sampleServers sampleJson
      sampleDoAll).2.2.1 1 { IP := "10.0.0.2", Port := 9001 } (by decide)).2.1
      (hacc _ (by decide)),
    by decide⟩

end Proxy
